import Mathlib

/-!
# pybloomfiltermmap: the memory-mapped bit array (`src/mmapbitarray.c`)

A shallow embedding of `mmapbitarray.c` and proofs about it.

Conventions of the embedding.

* A buffer (heap block or file content) is a `List Nat` of bytes.  A storage word
  (`DTYPE`) is `sizeofDTYPE` consecutive bytes, least significant byte first
  (little-endian host, spec §6).  The last data word of an array may reach past
  the end of its buffer (see the comment in `_mmap_update_bits`): bytes outside a
  buffer read as `0` and writes to them are dropped.
* `size_t` and `uint64_t` are 64 bits, `int` and `int32_t` are 32 bits.  Unsigned
  arithmetic wraps (`% 2 ^ 64`); where the C code would overflow a signed `int`,
  dereference an invalid pointer or `free` a pointer that `malloc` did not
  return, the model raises the sticky flag `World.undef` and the theorems are
  about executions that leave it `false`.
* The C functions communicate through `errno`, the heap, the file system and the
  descriptor table; the model passes these explicitly as a `World`.
* A pointer to a shared mapping of a file is modelled by the file's path: reads
  and writes through it are reads and writes of the file's bytes.
-/

namespace MmapBitArray

/-! ## Declarations taken as parameters -/

/-- The declarations of `mmapbitarray.h` that the C file uses and that are not among
the sources: `sizeof(DTYPE)` (the storage word, an unsigned integer type) and the
magic string `MBAMAGIC`, given as the bytes of its first `MBAMAGICSIZE` characters.
`BTYPE` is the 64-bit unsigned bit count of the spec. -/
structure Decls where
  sizeofDTYPE : Nat
  MBAMAGIC : List Nat
deriving DecidableEq, Repr

/-- `MBAMAGICSIZE`, the number of magic bytes. -/
def Decls.MBAMAGICSIZE (K : Decls) : Nat := K.MBAMAGIC.length

/-- The bit width `W` of a storage word. -/
def Decls.W (K : Decls) : Nat := 8 * K.sizeofDTYPE

/-- What C guarantees of the declarations: `DTYPE` is an unsigned integer type of 1, 2,
4 or 8 bytes, and `MBAMAGIC` is a string literal, so none of its `MBAMAGICSIZE`
characters is the terminating NUL; `MBAMAGICSIZE` is an `int` constant. -/
def Decls.ok (K : Decls) : Prop :=
  (K.sizeofDTYPE = 1 ∨ K.sizeofDTYPE = 2 ∨ K.sizeofDTYPE = 4 ∨ K.sizeofDTYPE = 8) ∧
  (∀ b ∈ K.MBAMAGIC, 0 < b ∧ b < 256) ∧ K.MBAMAGICSIZE < 2 ^ 31

instance (K : Decls) : Decidable K.ok := by
  unfold Decls.ok; infer_instance

/-- The declarations of the upstream header: `typedef uint32_t DTYPE` and
`MBAMAGIC "MBITARRAY"`; used for the concrete instances. -/
def stdDecls : Decls := ⟨4, [77, 66, 73, 84, 65, 82, 82, 65, 89]⟩

/-! ## Machine constants -/

def EINVAL : Nat := 22
def ENOENT : Nat := 2
def EBADF : Nat := 9
def ENOMEM : Nat := 12
def EACCES : Nat := 13
def EFBIG : Nat := 27
def INT_MAX : Nat := 2 ^ 31 - 1
def SIZE_MOD : Nat := 2 ^ 64

/-- The value of an `int` with mathematical value `x` (wrapped to 32 bits) after the
usual conversion to `size_t`. -/
def intToSizeT (x : Nat) : Nat :=
  if x % 2 ^ 32 < 2 ^ 31 then x % 2 ^ 32 else 2 ^ 64 - 2 ^ 32 + x % 2 ^ 32

/-- The number of low bits of `n` that do not fit in 53 significant bits: the least
`e <= fuel` with `n / 2 ^ e < 2 ^ 53`.  Eleven steps are enough below `2 ^ 64`. -/
def dropBits : Nat → Nat → Nat
  | 0, _ => 0
  | fuel + 1, n => if n < 2 ^ 53 then 0 else 1 + dropBits fuel (n / 2)

/-- The value of `(double)n` for an unsigned 64-bit `n`: `n` rounded to 53 significant
bits, ties to even.  The result is an integer, so it is kept as a `Nat`. -/
def toDouble (n : Nat) : Nat :=
  let e := dropBits 11 n
  let q := n / 2 ^ e
  let r := n % 2 ^ e
  if 2 * r < 2 ^ e ∨ (2 * r = 2 ^ e ∧ q % 2 = 0) then q * 2 ^ e else (q + 1) * 2 ^ e

/-- The value of `ceil(x / k)` for an integer-valued double `x` and a power of two `k`
(the division is then exact). -/
def ceilDiv (x k : Nat) : Nat := (x + k - 1) / k

/-! ## Bytes and words -/

/-- Byte `k` of the buffer `v`; a byte outside the buffer reads as `0`. -/
def byteAt (v : List Nat) (k : Nat) : Nat := v.getD k 0

/-- The list of length `len` whose byte `k` is `f k`. -/
def build (len : Nat) (f : Nat → Nat) : List Nat := (List.range len).map f

/-- The little-endian value of the `n` bytes of `v` from offset `off`. -/
def leValue (v : List Nat) (off : Nat) : Nat → Nat
  | 0 => 0
  | n + 1 => byteAt v off % 256 + 256 * leValue v (off + 1) n

/-- The `n` bytes of the little-endian representation of `x`. -/
def leBytes (x : Nat) : Nat → List Nat
  | 0 => []
  | n + 1 => x % 256 :: leBytes (x / 256) n

/-- The word `vector[i]`, reading the buffer `v` as an array of `DTYPE`. -/
def wordAt (d : Nat) (v : List Nat) (i : Nat) : Nat := leValue v (i * d) d

/-- The assignment `vector[i] = x` on the buffer `v`. -/
def setWord (d : Nat) (v : List Nat) (i x : Nat) : List Nat :=
  build v.length (fun k => if i * d ≤ k ∧ k < i * d + d then x / 256 ^ (k - i * d) % 256 else byteAt v k)

/-- The call `memset(v + off, 0, n)`. -/
def memset0 (v : List Nat) (off n : Nat) : List Nat :=
  build v.length (fun k => if off ≤ k ∧ k < off + n then 0 else byteAt v k)

/-- The call `memcpy(v + off, src, src.length)`. -/
def memcpy (v : List Nat) (off : Nat) (src : List Nat) : List Nat :=
  build v.length (fun k => if off ≤ k ∧ k < off + src.length then byteAt src (k - off) else byteAt v k)

/-- The call `memcmp(v1, v2, n)`: `0` when the first `n` bytes agree, and `1` for any
non-zero result (the callers only test for zero). -/
def memcmp (v1 v2 : List Nat) (n : Nat) : Int :=
  if ∀ k, k < n → byteAt v1 k = byteAt v2 k then 0 else 1

/-- The call `strncmp(s1, s2, n)` on byte strings: `0` when the strings agree up to the
first NUL or up to `n` characters, `1` for any non-zero result. -/
def strncmp (s1 s2 : List Nat) : Nat → Int
  | 0 => 0
  | n + 1 =>
    if byteAt s1 0 ≠ byteAt s2 0 then 1
    else if byteAt s1 0 = 0 then 0
    else strncmp s1.tail s2.tail n

/-! ## The state of the process -/

/-- An address.  `mapFailed` is `MAP_FAILED`; a shared mapping of a file is named by the
file's path. -/
inductive Ptr where
  | null
  | mapFailed
  | heap (id : Nat)
  | mapped (path : String)
deriving DecidableEq, Repr

/-- The access mode of `open`. -/
inductive AccMode where
  | rdonly
  | wronly
  | rdwr
deriving DecidableEq, Repr

/-- An open file description. -/
structure OpenFile where
  path : String
  readable : Bool
  writable : Bool
  offset : Nat
deriving DecidableEq, Repr

/-- The state the C functions read and write.  `memLimit` and `fileLimit` are the
resources of the host: an allocation or mapping of more than `memLimit` bytes fails,
and so does a write that would make a file longer than `fileLimit` bytes.  `handles`
counts the `MBArray` structures that are allocated and not yet freed. -/
structure World where
  errno : Nat
  heap : Nat → Option (List Nat)
  nextHeap : Nat
  files : String → Option (List Nat)
  fds : Nat → Option OpenFile
  nextFd : Nat
  handles : Nat
  memLimit : Nat
  fileLimit : Nat
  undef : Bool

/-- The bytes a pointer points to, when it is valid. -/
def World.load (w : World) : Ptr → Option (List Nat)
  | .heap n => w.heap n
  | .mapped p => w.files p
  | _ => none

/-- Replace the bytes a valid pointer points to. -/
def World.store (w : World) (p : Ptr) (v : List Nat) : World :=
  match p with
  | .heap n => { w with heap := Function.update w.heap n (some v) }
  | .mapped f => { w with files := Function.update w.files f (some v) }
  | _ => w

/-- The structure `MBArray` (`struct MmapBitArray`), with the fields the C file uses. -/
structure MBArray where
  bits : Nat
  size : Nat
  preamblesize : Nat
  bytes : Nat
  preamblebytes : Nat
  filename : Option String
  vector : Ptr
  fd : Int
deriving DecidableEq, Repr

/-- Source: `_mmap_size`. -/
def _mmap_size (array : MBArray) : Nat := (array.bytes + array.preamblebytes) % SIZE_MOD

/-! ## Comparability and the set algebra -/

/-- Source: `_assert_comparable`.  Returns `0` when the arrays are comparable. -/
def _assert_comparable (w : World) (array1 array2 : MBArray) : World × Int :=
  let w1 := { w with errno := EINVAL }
  if array1.preamblebytes ≠ array2.preamblebytes then (w1, 1)
  else
    match w.load array1.vector, w.load array2.vector with
    | some v1, some v2 =>
      if memcmp v1 v2 array1.preamblebytes ≠ 0 then (w1, 1) else (w1, 0)
    | _, _ => ({ w1 with undef := true }, 1)

/-- The statement `vector[i] = x` through the pointer `p`. -/
def writeWord (K : Decls) (w : World) (p : Ptr) (i x : Nat) : World :=
  match w.load p with
  | some v => w.store p (setWord K.sizeofDTYPE v i x)
  | none => { w with undef := true }

/-- The expression `vector[i]` through the pointer `p`. -/
def readWord (K : Decls) (w : World) (p : Ptr) (i : Nat) : Nat :=
  wordAt K.sizeofDTYPE ((w.load p).getD []) i

/-- The loop `for (i = ...; i < ...; i++) dest->vector[i] = a->vector[i] OP b->vector[i]`,
run for `n` iterations from index `i`. -/
def ternary_loop (K : Decls) (op : Nat → Nat → Nat) (dest a b : Ptr) : Nat → Nat → World → World
  | 0, _, w => w
  | n + 1, i, w =>
    ternary_loop K op dest a b n (i + 1)
      (writeWord K w dest i (op (readWord K w a i) (readWord K w b i)))

/-- The loop `for (i = ...; i < ...; i++) dest->vector[i] OP= array2->vector[i]`, run for
`n` iterations from index `i`. -/
def binary_loop (K : Decls) (op : Nat → Nat → Nat) (dest array2 : Ptr) : Nat → Nat → World → World
  | 0, _, w => w
  | n + 1, i, w =>
    binary_loop K op dest array2 n (i + 1)
      (writeWord K w dest i (op (readWord K w dest i) (readWord K w array2 i)))

/-- The loop counter is `register int i`: starting it above `INT_MAX` or counting past
`INT_MAX` is outside what the model follows. -/
def intLoopFlag (w : World) (lo hi : Nat) : World :=
  { w with undef := w.undef || decide (INT_MAX < lo) || decide (INT_MAX < hi) }

/-- The common body of `mbarray_And`, `mbarray_Or` and `mbarray_Xor`, which differ in the
operator only. -/
def binary_op (K : Decls) (op : Nat → Nat → Nat) (w : World) (dest array2 : MBArray) :
    World × Option MBArray :=
  let r := _assert_comparable w dest array2
  if r.2 ≠ 0 then (r.1, none)
  else
    let lo := dest.preamblesize
    let hi := (dest.size + dest.preamblesize) % SIZE_MOD
    (binary_loop K op dest.vector array2.vector (hi - lo) lo (intLoopFlag r.1 lo hi), some dest)

/-- Source: `mbarray_And`. -/
def mbarray_And (K : Decls) := binary_op K (fun x y => x &&& y)

/-- Source: `mbarray_Or`. -/
def mbarray_Or (K : Decls) := binary_op K (fun x y => x ||| y)

/-- Source: `mbarray_Xor`. -/
def mbarray_Xor (K : Decls) := binary_op K (fun x y => x ^^^ y)

/-- The common body of `mbarray_And_Ternary`, `mbarray_Or_Ternary` and
`mbarray_Xor_Ternary`.  The second check is evaluated only when the first passes
(`||`). -/
def ternary_op (K : Decls) (op : Nat → Nat → Nat) (w : World) (dest a b : MBArray) :
    World × Option MBArray :=
  let r1 := _assert_comparable w a b
  if r1.2 ≠ 0 then (r1.1, none)
  else
    let r2 := _assert_comparable r1.1 dest b
    if r2.2 ≠ 0 then (r2.1, none)
    else
      let lo := dest.preamblesize
      let hi := (a.size + a.preamblesize) % SIZE_MOD
      (ternary_loop K op dest.vector a.vector b.vector (hi - lo) lo (intLoopFlag r2.1 lo hi),
        some dest)

/-- Source: `mbarray_And_Ternary`. -/
def mbarray_And_Ternary (K : Decls) := ternary_op K (fun x y => x &&& y)

/-- Source: `mbarray_Or_Ternary`. -/
def mbarray_Or_Ternary (K : Decls) := ternary_op K (fun x y => x ||| y)

/-- Source: `mbarray_Xor_Ternary`. -/
def mbarray_Xor_Ternary (K : Decls) := ternary_op K (fun x y => x ^^^ y)

/-- Source: `mbarray_ClearAll`.  The argument is `none` for a NULL handle. -/
def mbarray_ClearAll (K : Decls) (w : World) (array : Option MBArray) : World × Int :=
  match array with
  | none => ({ w with errno := EINVAL }, 1)
  | some a =>
    if a.vector = Ptr.null then ({ w with errno := EINVAL }, 1)
    else
      match w.load a.vector with
      | some v =>
        (w.store a.vector
          (memset0 v (a.preamblesize * K.sizeofDTYPE) (K.sizeofDTYPE * a.size % SIZE_MOD)), 0)
      | none => ({ w with undef := true }, 0)

/-! ## The operating system, as far as the C file uses it -/

/-- The open flags the model follows: the access mode and `O_CREAT`. -/
structure OFlags where
  accmode : AccMode
  creat : Bool
deriving DecidableEq, Repr

/-- Source: `struct _FileSpec` (filespec.h). -/
structure FileSpec where
  filename : String
  oflags : OFlags
  perms : Nat
deriving DecidableEq, Repr

/-- The open file description behind a descriptor. -/
def World.fd? (w : World) (fd : Int) : Option OpenFile :=
  if fd < 0 then none else w.fds fd.toNat

/-- The call `open(path, oflags, perms)`: the file is created empty when it is absent and
`O_CREAT` is given; the new descriptor is returned, or `-1`. -/
def sys_open (w : World) (path : String) (fl : OFlags) : World × Int :=
  let entry : OpenFile :=
    ⟨path, decide (fl.accmode ≠ AccMode.wronly), decide (fl.accmode ≠ AccMode.rdonly), 0⟩
  match w.files path with
  | some _ =>
    ({ w with fds := Function.update w.fds w.nextFd (some entry), nextFd := w.nextFd + 1 },
      (w.nextFd : Int))
  | none =>
    if fl.creat then
      ({ w with files := Function.update w.files path (some []),
                fds := Function.update w.fds w.nextFd (some entry), nextFd := w.nextFd + 1 },
        (w.nextFd : Int))
    else ({ w with errno := ENOENT }, -1)

/-- The call `close(fd)`. -/
def sys_close (w : World) (fd : Int) : World :=
  match w.fd? fd with
  | some _ => { w with fds := Function.update w.fds fd.toNat none }
  | none => { w with errno := EBADF }

/-- The call `fsync(fd)`. -/
def sys_fsync (w : World) (fd : Int) : World :=
  match w.fd? fd with
  | some _ => w
  | none => { w with errno := EBADF }

/-- The call `pread(fd, buf, n, off)`: the state, the returned count and the bytes read. -/
def sys_pread (w : World) (fd : Int) (n off : Nat) : World × Int × List Nat :=
  match w.fd? fd with
  | some f =>
    if f.readable then
      let data := (((w.files f.path).getD []).drop off).take n
      (w, (data.length : Int), data)
    else ({ w with errno := EBADF }, -1, [])
  | none => ({ w with errno := EBADF }, -1, [])

/-- The call `fstat(fd, &buffer)`: the status and `st_size`. -/
def sys_fstat (w : World) (fd : Int) : World × Int × Nat :=
  match w.fd? fd with
  | some f => (w, 0, ((w.files f.path).getD []).length)
  | none => ({ w with errno := EBADF }, -1, 0)

/-- The call `lseek(fd, off, SEEK_SET)`; `off` is a `size_t` converted to `off_t`. -/
def sys_lseek (w : World) (fd : Int) (off : Nat) : World :=
  match w.fd? fd with
  | some f =>
    if off < 2 ^ 63 then { w with fds := Function.update w.fds fd.toNat (some { f with offset := off }) }
    else { w with errno := EINVAL }
  | none => { w with errno := EBADF }

/-- The content of a file with content `c` after `data` is written at offset `off`: a
gap between the old end and `off` is filled with zeros; an empty write changes nothing. -/
def writeAt (c : List Nat) (off : Nat) (data : List Nat) : List Nat :=
  build (max c.length (if data.length = 0 then 0 else off + data.length)) (fun k =>
    if off ≤ k ∧ k < off + data.length then byteAt data (k - off) else byteAt c k)

/-- The call `write(fd, data, data.length)` and its result: the bytes go to the file
offset, a gap before them is filled with zeros, and the offset advances. -/
def sys_write (w : World) (fd : Int) (data : List Nat) : World × Int :=
  match w.fd? fd with
  | some f =>
    if f.writable then
      if w.fileLimit < f.offset + data.length then ({ w with errno := EFBIG }, -1)
      else
        let c := (w.files f.path).getD []
        ({ w with files := Function.update w.files f.path (some (writeAt c f.offset data)),
                  fds := Function.update w.fds fd.toNat
                    (some { f with offset := f.offset + data.length }) },
          (data.length : Int))
    else ({ w with errno := EBADF }, -1)
  | none => ({ w with errno := EBADF }, -1)

/-- The call `mmap(NULL, len, PROT_READ | PROT_WRITE, MAP_SHARED, fd, 0)`. -/
def sys_mmap (w : World) (len : Nat) (fd : Int) : World × Ptr :=
  match w.fd? fd with
  | some f =>
    if ¬ (f.readable ∧ f.writable) then ({ w with errno := EACCES }, Ptr.mapFailed)
    else if len = 0 then ({ w with errno := EINVAL }, Ptr.mapFailed)
    else if w.memLimit < len then ({ w with errno := ENOMEM }, Ptr.mapFailed)
    else (w, Ptr.mapped f.path)
  | none => ({ w with errno := EBADF }, Ptr.mapFailed)

/-- The call `calloc(n, 1)`. -/
def sys_calloc (w : World) (n : Nat) : World × Ptr :=
  if w.memLimit < n then ({ w with errno := ENOMEM }, Ptr.null)
  else
    ({ w with heap := Function.update w.heap w.nextHeap (some (List.replicate n 0)),
              nextHeap := w.nextHeap + 1 },
      Ptr.heap w.nextHeap)

/-- The call `free(p)`. -/
def sys_free (w : World) (p : Ptr) : World :=
  match p with
  | .null => w
  | .heap n =>
    match w.heap n with
    | some _ => { w with heap := Function.update w.heap n none }
    | none => { w with undef := true }
  | _ => { w with undef := true }

/-! ## Geometry -/

/-- Source: `_mmap_update_bits`.  `sizeof(DTYPE)` and `8.0` are powers of two, so the two
divisions of the double are exact. -/
def _mmap_update_bits (K : Decls) (num_bits : Nat) (array : MBArray) : MBArray :=
  { array with
    size := ceilDiv (toDouble num_bits) (K.sizeofDTYPE * 8)
    bytes := ceilDiv (toDouble num_bits) 8
    bits := num_bits }

/-- The number of 256-byte blocks of the preamble, `ceil((double)preamblebytes / 256.0)`,
for a header of `header_len` bytes. -/
def preambleBlocks (K : Decls) (header_len : Nat) : Nat :=
  ceilDiv (toDouble ((K.MBAMAGICSIZE + 8 + 4 + header_len) % SIZE_MOD)) 256

/-- The fields `_mmap_create_mbarray` gives the new structure.  The block count is cast
to `int` and multiplied by 256 as an `int`; the division by `sizeof(DTYPE)` is done in
`size_t`. -/
def newArray (K : Decls) (num_bits header_len : Nat) : MBArray :=
  let array : MBArray := ⟨0, 0, 0, 0, 0, none, Ptr.null, 0⟩
  let array := _mmap_update_bits K num_bits array
  let preamblesize := intToSizeT (preambleBlocks K header_len * 256) / K.sizeofDTYPE
  { array with
    preamblesize := preamblesize
    preamblebytes := preamblesize * K.sizeofDTYPE % SIZE_MOD }

/-- Source: `_mmap_create_mbarray`.  The `malloc` of the small structure is taken to
succeed.  An `int` overflow of the preamble size raises `undef`. -/
def _mmap_create_mbarray (K : Decls) (w : World) (num_bits header_len : Nat) :
    World × Option MBArray :=
  let w1 := { w with handles := w.handles + 1 }
  if w1.errno ≠ 0 then (w1, none)
  else
    ({ w1 with undef := w1.undef || decide (INT_MAX < preambleBlocks K header_len * 256) },
      some (newArray K num_bits header_len))

/-! ## Destroy and the header accessors -/

/-- Source: `mbarray_Destroy`.  The argument is `none` for a NULL handle.  `munmap` of a
mapping leaves the file as the mapping wrote it. -/
def mbarray_Destroy (w : World) (array : Option MBArray) : World :=
  match array with
  | none => w
  | some a =>
    let w1 :=
      if a.vector ≠ Ptr.null then
        if a.filename = none then sys_free w a.vector
        else if 0 ≤ a.fd then sys_close (sys_fsync w a.fd) a.fd
        else w
      else w
    { w1 with handles := w1.handles - 1 }

/-- The value of an `int32_t` whose four bytes have the little-endian value `x`. -/
def toInt32 (x : Nat) : Int :=
  if x % 2 ^ 32 < 2 ^ 31 then (x % 2 ^ 32 : Nat) else ((x % 2 ^ 32 : Nat) : Int) - 2 ^ 32

/-- Source: `mbarray_HeaderLen`. -/
def mbarray_HeaderLen (K : Decls) (w : World) (array : MBArray) : World × Int :=
  let r := sys_pread { w with errno := 0 } array.fd 4 (K.MBAMAGICSIZE + 8)
  if r.2.1 ≠ 4 then (r.1, -1) else (r.1, toInt32 (leValue r.2.2 0 4))

/-- Source: `mbarray_Header`.  Returns the bytes now in `dest`, or `none` for NULL.  A
negative `readnum` reaches `pread` as a huge `size_t`. -/
def mbarray_Header (K : Decls) (w : World) (array : MBArray) (maxlen : Int) :
    World × Option (List Nat) :=
  let h := mbarray_HeaderLen K w array
  let readnum : Int := if maxlen < h.2 then maxlen else h.2
  let r := sys_pread { h.1 with errno := 0 } array.fd (readnum % (2 ^ 64 : Int)).toNat
    (K.MBAMAGICSIZE + 8 + 4)
  if r.2.1 ≠ readnum then (r.1, none) else (r.1, some r.2.2)

/-! ## The preamble -/

/-- Source: `_valid_magic`. -/
def _valid_magic (K : Decls) (w : World) (fd : Int) : World × Int :=
  let r := sys_pread w fd K.MBAMAGICSIZE 0
  if r.1.errno ≠ 0 ∨ r.2.1 ≠ (K.MBAMAGICSIZE : Int) ∨ strncmp K.MBAMAGIC r.2.2 K.MBAMAGICSIZE ≠ 0
  then (r.1, 0) else (r.1, 1)

/-- Source: `_filesize`. -/
def _filesize (w : World) (fd : Int) : World × Nat :=
  let r := sys_fstat w fd
  if r.2.1 ≠ 0 ∨ r.1.errno ≠ 0 then (r.1, 0xffffffffffffffff) else (r.1, r.2.2)

/-- Source: `_get_num_bits`. -/
def _get_num_bits (K : Decls) (w : World) (fd : Int) : World × Nat :=
  let r := sys_pread { w with errno := 0 } fd 8 K.MBAMAGICSIZE
  if r.2.1 ≠ 8 then (r.1, 0) else (r.1, leValue r.2.2 0 8)

/-- The bytes of the buffer `v` after the `memcpy` calls of `_initialize_memory`. -/
def stamp (K : Decls) (num_bits : Nat) (header : List Nat) (header_len : Nat) (v : List Nat) :
    List Nat :=
  let v := memcpy v 0 K.MBAMAGIC
  let offset := K.MBAMAGICSIZE
  let v := memcpy v offset (leBytes num_bits 8)
  let offset := offset + 8
  let v := memcpy v offset (leBytes header_len 4)
  let offset := offset + 4
  if header_len ≠ 0 then memcpy v offset (header.take header_len) else v

/-- Source: `_initialize_memory`.  `header` holds at least `header_len` bytes. -/
def _initialize_memory (K : Decls) (w : World) (num_bits : Nat) (header : List Nat)
    (header_len : Nat) (vector : Ptr) : World × Int :=
  match w.load vector with
  | none => ({ w with undef := true }, 0)
  | some v => (w.store vector (stamp K num_bits header header_len v), 0)

/-- Source: `_initialize_file`.  `header` holds at least `header_len` bytes. -/
def _initialize_file (K : Decls) (w : World) (fd : Int) (endpos num_bits : Nat)
    (header : List Nat) (header_len : Nat) : World × Int :=
  let w := sys_lseek { w with errno := 0 } fd 0
  let r := sys_write w fd K.MBAMAGIC
  if r.2 ≠ (K.MBAMAGICSIZE : Int) then (r.1, 1)
  else
    let r := sys_write r.1 fd (leBytes num_bits 8)
    if r.2 ≠ 8 then (r.1, 1)
    else
      let r := sys_write r.1 fd (leBytes header_len 4)
      if r.2 ≠ 4 then (r.1, 1)
      else
        let r := if header_len ≠ 0 then sys_write r.1 fd (header.take header_len)
                 else (r.1, (header_len : Int))
        if r.2 ≠ (header_len : Int) then (r.1, 1)
        else
          let w := sys_lseek r.1 fd endpos
          let r := sys_write w fd [0]
          if r.2 ≠ 1 then (r.1, 1)
          else if r.1.errno ≠ 0 then (r.1, 1)
          else (r.1, 0)

/-! ## Create -/

/-- Source: `_mmap_init_malloc`. -/
def _mmap_init_malloc (K : Decls) (w : World) (header : List Nat) (header_len : Nat)
    (array : MBArray) : World × Option MBArray :=
  let r := sys_calloc w (_mmap_size array)
  let array := { array with vector := r.2 }
  if r.1.errno ≠ 0 ∨ array.vector = Ptr.null then (mbarray_Destroy r.1 (some array), none)
  else
    ((_initialize_memory K r.1 array.bits header header_len array.vector).1, some array)

/-- The tail of `_mmap_init_mmap` from `errno = 0; array->vector = mmap(...)` on.  The
`malloc` of the file name copy is taken to succeed. -/
def _mmap_init_mmap_map (w : World) (filespec : FileSpec) (array : MBArray) :
    World × Option MBArray :=
  let r := sys_mmap { w with errno := 0 } (_mmap_size array) array.fd
  let array := { array with vector := r.2 }
  if r.1.errno ≠ 0 ∨ array.vector = Ptr.null then (mbarray_Destroy r.1 (some array), none)
  else (r.1, some { array with filename := some filespec.filename })

/-- The part of `_mmap_init_mmap` from `if (filesize == 0xffffffffffffffff)` on: the
checks of the magic, the file size and the bit count, or the initialisation of an empty
file, and then the mapping.  `num_bits` and `filesize` are the local variables. -/
def _mmap_init_mmap_check (K : Decls) (w : World) (header : List Nat) (header_len : Nat)
    (filespec : FileSpec) (array : MBArray) (num_bits filesize : Nat) : World × Option MBArray :=
  if filesize = 0xffffffffffffffff then (mbarray_Destroy w (some array), none)
  else
    let m := if filesize ≠ 0 then _valid_magic K w array.fd else (w, 1)
    if filesize ≠ 0 ∧ m.2 = 0 then
      (mbarray_Destroy { m.1 with errno := EINVAL } (some array), none)
    else if filesize ≠ 0 ∧
        filesize < (array.bytes + array.preamblebytes + SIZE_MOD - 1) % SIZE_MOD then
      (mbarray_Destroy { m.1 with errno := EINVAL } (some array), none)
    else if filesize = 0 then
      if ¬ filespec.oflags.creat ∨ num_bits = 0 then
        (mbarray_Destroy
          (if m.1.errno = 0 then { m.1 with errno := ENOENT } else m.1) (some array), none)
      else
        let i := _initialize_file K m.1 array.fd
          ((array.bytes + array.preamblebytes + SIZE_MOD - 1) % SIZE_MOD) num_bits header header_len
        if i.2 ≠ 0 then
          (mbarray_Destroy
            (if i.1.errno = 0 then { i.1 with errno := ENOENT } else i.1) (some array), none)
        else _mmap_init_mmap_map i.1 filespec array
    else if num_bits = 0 then
      let g := _get_num_bits K m.1 array.fd
      _mmap_init_mmap_map g.1 filespec (_mmap_update_bits K g.2 array)
    else
      let g := _get_num_bits K m.1 array.fd
      if g.2 ≠ num_bits then
        ({ mbarray_Destroy g.1 (some array) with errno := EINVAL }, none)
      else _mmap_init_mmap_map g.1 filespec array

/-- The part of `_mmap_init_mmap` from `filesize = _filesize(array->fd)` on: a file of
more than 50 bytes gives the bit count when the caller passed 0. -/
def _mmap_init_mmap_size (K : Decls) (w : World) (header : List Nat) (header_len : Nat)
    (filespec : FileSpec) (array : MBArray) : World × Option MBArray :=
  let num_bits := array.bits
  let fs := _filesize w array.fd
  let filesize := fs.2
  if 50 < filesize ∧ num_bits = 0 then
    let g := _get_num_bits K fs.1 array.fd
    _mmap_init_mmap_check K g.1 header header_len filespec (_mmap_update_bits K g.2 array)
      g.2 filesize
  else _mmap_init_mmap_check K fs.1 header header_len filespec array num_bits filesize

/-- Source: `_mmap_init_mmap`.  The test `if (errno)` after the header length check is
dead: `errno` was set to 0 just before and nothing in between sets it. -/
def _mmap_init_mmap (K : Decls) (w : World) (header : List Nat) (header_len : Nat)
    (filespec : FileSpec) (array : MBArray) : World × Option MBArray :=
  let o := sys_open w filespec.filename filespec.oflags
  let array := { array with fd := o.2 }
  if array.fd < 0 then (mbarray_Destroy { o.1 with errno := EINVAL } (some array), none)
  else
    let h := mbarray_HeaderLen K o.1 array
    let fheaderlen := h.2
    let w := { h.1 with errno := 0 }
    if 0 ≤ fheaderlen ∧ ¬ filespec.oflags.creat ∧ fheaderlen ≠ (header_len : Int) then
      (mbarray_Destroy { w with errno := EINVAL } (some array), none)
    else
      let header_len := if 0 ≤ fheaderlen then fheaderlen.toNat else header_len
      _mmap_init_mmap_size K w header header_len filespec array

/-- Source: `mbarray_Create`.  `filespec` is `none` for a NULL file specification (the
anonymous array).  `header` holds at least `header_len` bytes. -/
def mbarray_Create (K : Decls) (w : World) (num_bits : Nat) (header : List Nat)
    (header_len : Nat) (filespec : Option FileSpec) : World × Option MBArray :=
  let c := _mmap_create_mbarray K { w with errno := 0 } num_bits header_len
  match c.2 with
  | none => (c.1, none)
  | some array =>
    if c.1.errno ≠ 0 then (c.1, none)
    else
      match filespec with
      | some fs => _mmap_init_mmap K c.1 header header_len fs array
      | none => _mmap_init_malloc K c.1 header header_len array

/-! ## Copy of a template -/

/-- The call `malloc(n)`.  The content of the new block is unspecified; it is taken to
be zero. -/
def sys_malloc (w : World) (n : Nat) : World × Ptr :=
  if w.memLimit < n then ({ w with errno := ENOMEM }, Ptr.null)
  else
    ({ w with heap := Function.update w.heap w.nextHeap (some (List.replicate n 0)),
              nextHeap := w.nextHeap + 1 },
      Ptr.heap w.nextHeap)

/-- Source: `mbarray_Copy_Template`.  `strcmp` with the NULL file name of an anonymous
array and the `int` sum `header_len + 1` at `INT_MAX` raise `undef`.  The block that
holds the header is not freed when `mbarray_Create` is reached. -/
def mbarray_Copy_Template (K : Decls) (w : World) (src : MBArray) (filename : String)
    (perms : Nat) : World × Option MBArray :=
  let h := mbarray_HeaderLen K w src
  let header_len := h.2
  if header_len < 0 then (h.1, none)
  else
    match src.filename with
    | none => ({ h.1 with undef := true }, none)
    | some name =>
      if filename = name then ({ h.1 with errno := EINVAL }, none)
      else
        let m := sys_malloc { h.1 with undef := h.1.undef || decide (header_len = INT_MAX) }
          (header_len.toNat + 1)
        if m.2 = Ptr.null then ({ m.1 with errno := ENOMEM }, none)
        else
          let r := mbarray_Header K m.1 src header_len
          match r.2 with
          | none => (sys_free r.1 m.2, none)
          | some header =>
            mbarray_Create K (r.1.store m.2 (header ++ [0])) src.bits header header_len.toNat
              (some ⟨filename, ⟨AccMode.rdwr, true⟩, perms⟩)

/-! ## Specification functions used by the proofs -/

/-- The buffer `vd` after the words `lo <= i < hi` have been assigned
`a[i] OP b[i]`, read from the buffers `va` and `vb`. -/
def combine (d : Nat) (op : Nat → Nat → Nat) (vd va vb : List Nat) (lo hi : Nat) : List Nat :=
  build vd.length (fun k =>
    if lo * d ≤ k ∧ k < hi * d then op (wordAt d va (k / d)) (wordAt d vb (k / d)) / 256 ^ (k % d) % 256
    else byteAt vd k)

/-- The encoded preamble of spec §6: the magic bytes, the bit count as 8 bytes, the
header length as 4 bytes, the header bytes. -/
def preambleBytes (K : Decls) (num_bits : Nat) (header : List Nat) : List Nat :=
  K.MBAMAGIC ++ leBytes num_bits 8 ++ leBytes header.length 4 ++ header

/-- The image of a fresh array of `total` bytes: the encoded preamble, then zeros. -/
def layout (K : Decls) (num_bits : Nat) (header : List Nat) (total : Nat) : List Nat :=
  preambleBytes K num_bits header ++
    List.replicate (total - (preambleBytes K num_bits header).length) 0

/-- The file content `c` starts with the encoded preamble of the bit count `num_bits` and
the header `header`: it is a file that a creation with these arguments wrote, whatever
its data bits are now. -/
def FileOf (K : Decls) (c : List Nat) (num_bits : Nat) (header : List Nat) : Prop :=
  ∃ data, c = preambleBytes K num_bits header ++ data

/-- The header length `_mmap_init_mmap` reads through a descriptor (readable or not) from
a file with content `c`: the value of `mbarray_HeaderLen`. -/
def storedHeaderLen (K : Decls) (c : List Nat) (r : Bool) : Int :=
  if r = true then
    (if (((c.drop (K.MBAMAGICSIZE + 8)).take 4).length : Int) ≠ 4 then -1
      else toInt32 (leValue ((c.drop (K.MBAMAGICSIZE + 8)).take 4) 0 4))
  else -1

/-- The state in which `mbarray_Create` enters `_mmap_init_mmap` or `_mmap_init_malloc`:
`errno` cleared and the structure allocated by `_mmap_create_mbarray`. -/
def startWorld (K : Decls) (w : World) (header_len : Nat) : World :=
  { w with errno := 0, handles := w.handles + 1,
           undef := w.undef || decide (INT_MAX < preambleBlocks K header_len * 256) }

/-- What a failed `mbarray_Create` leaves when the claim is "no handle, `EINVAL`". -/
def Refused (r : World × Option MBArray) : Prop :=
  r.2 = none ∧ r.1.errno = EINVAL

/-- What a rejected set operation leaves: no handle, `EINVAL`, and the heap and the files
as they were. -/
def Rejected (w : World) (r : World × Option MBArray) : Prop :=
  r.2 = none ∧ r.1.errno = EINVAL ∧ r.1.heap = w.heap ∧ r.1.files = w.files

/-- The state `w` after `open` returned the descriptor `fd` for the file `path`: the file
holds `c`, the descriptor has the given access and offset, and `errno` is `e`. -/
def st (w : World) (path : String) (c : List Nat) (fd : Nat) (r wr : Bool) (off e : Nat) : World :=
  { w with
    errno := e
    files := Function.update w.files path (some c)
    fds := Function.update w.fds fd (some ⟨path, r, wr, off⟩)
    nextFd := fd + 1 }

/-- The invariant of a handle `a` whose buffer holds the bytes `v` (spec §3): the
preamble is a whole number of storage words, the buffer holds the preamble and the data
bytes, the data bytes and the data words hold all `bits` bits, and the byte count of the
data words fits `size_t`. -/
structure Shaped (K : Decls) (w : World) (a : MBArray) (v : List Nat) : Prop where
  load : w.load a.vector = some v
  preamble : a.preamblebytes = a.preamblesize * K.sizeofDTYPE
  length : a.preamblebytes + a.bytes ≤ v.length
  bytes : a.bits ≤ 8 * a.bytes
  size : a.bits ≤ K.W * a.size
  words : K.sizeofDTYPE * a.size < SIZE_MOD

/-- Bit `i` of the data region of the buffer `v`: bit `i mod W` of the storage word
`i div W`, counted after the `preamblesize` preamble words. -/
def dataBit (K : Decls) (preamblesize : Nat) (v : List Nat) (i : Nat) : Bool :=
  (wordAt K.sizeofDTYPE v (preamblesize + i / K.W)).testBit (i % K.W)

/-! ## Concrete instances -/

/-- A process with an empty heap, no files, the three standard descriptor numbers taken,
and one mebibyte of memory and of file space. -/
def exWorld : World := ⟨0, fun _ => none, 0, fun _ => none, fun _ => none, 3, 0, 2 ^ 20, 2 ^ 20, false⟩

/-- Two anonymous arrays of 10 bits with the header `[1, 2]`, the first holding the data
bytes `5, 1` and the second `3, 1`. -/
def exTwo : World :=
  let w1 := (mbarray_Create stdDecls exWorld 10 [1, 2] 2 none).1
  let w2 := (mbarray_Create stdDecls w1 10 [1, 2] 2 none).1
  (w2.store (Ptr.heap 0) (memcpy (layout stdDecls 10 [1, 2] 258) 256 [5, 1])).store (Ptr.heap 1)
    (memcpy (layout stdDecls 10 [1, 2] 258) 256 [3, 1])

/-- Two anonymous arrays of 10 bits, the first with the header `[1, 2]` and the second
with the header `[1, 3]`. -/
def exDiff : World :=
  (mbarray_Create stdDecls (mbarray_Create stdDecls exWorld 10 [1, 2] 2 none).1 10 [1, 3] 2 none).1

/-- Three anonymous arrays of 10 bits with the header `[1, 2]`; the first and the third
hold the data bytes `5, 1`, the second `3, 1`. -/
def exThree : World :=
  (mbarray_Create stdDecls exTwo 10 [1, 2] 2 none).1.store (Ptr.heap 2)
    (memcpy (layout stdDecls 10 [1, 2] 258) 256 [5, 1])

/-- The handle of an anonymous 10-bit array with a 2-byte header whose buffer is heap
block `n`, as `mbarray_Create` returns it. -/
def exArray (n : Nat) : MBArray := ⟨10, 1, 64, 2, 256, none, Ptr.heap n, 0⟩

/-- The file specification of `a.bin`, opened read-write and created when absent. -/
def exSpec : FileSpec := ⟨"a.bin", ⟨AccMode.rdwr, true⟩, 0⟩

/-- The handle `mbarray_Create` returns for 10 bits and the header `[1, 2]` in `a.bin`
when the descriptor is 3. -/
def exHandle : MBArray := ⟨10, 1, 64, 2, 256, some "a.bin", Ptr.mapped "a.bin", 3⟩

/-- The process `exWorld` after it created a 10-bit array with the header `[1, 2]` in
`a.bin` and destroyed the handle. -/
def exFile : World :=
  mbarray_Destroy (mbarray_Create stdDecls exWorld 10 [1, 2] 2 (some exSpec)).1 (some exHandle)

/-- The process `exWorld` with a file `b.bin` of three bytes that are not the magic. -/
def exCorrupt : World :=
  { exWorld with files := Function.update exWorld.files "b.bin" (some [1, 2, 3]) }

/-- The process `exWorld` with the file `s.bin`: the 258 bytes of a 10-bit array with the
header `[1, 2]` without the last one. -/
def exShort : World :=
  { exWorld with
    files := Function.update exWorld.files "s.bin" (some ((layout stdDecls 10 [1, 2] 258).take 257)) }

/-- A header of 236 bytes: with it the preamble of `stdDecls` needs 257 bytes. -/
def exHeader : List Nat := List.replicate 236 7

/-- The process `exWorld` with the file `l.bin` of a 10-bit array with the header
`exHeader`: 512 preamble bytes and 2 data bytes. -/
def exLong : World :=
  { exWorld with files := Function.update exWorld.files "l.bin" (some (layout stdDecls 10 exHeader 514)) }

/-- The process `exWorld` after it created a 10-bit array with the header `[1, 2]` in
`a.bin`; the handle `exHandle` is open. -/
def exOpen : World := (mbarray_Create stdDecls exWorld 10 [1, 2] 2 (some exSpec)).1

/-- The process `exOpen` with a second file `c.bin`: a 10-bit array with the header `[9]`
and the data bytes `5, 1`. -/
def exCopy : World :=
  { exOpen with
    files := Function.update exOpen.files "c.bin"
      (some (memcpy (layout stdDecls 10 [9] 258) 256 [5, 1])) }

theorem build_length (n : Nat) (f : Nat → Nat) : (build n f).length = n := by
  simp [build]

theorem byteAt_build (n : Nat) (f : Nat → Nat) (k : Nat) :
    byteAt (build n f) k = if k < n then f k else 0 := by
  unfold build byteAt
  rw [List.getD_eq_getElem?_getD, List.getElem?_map]
  by_cases h : k < n
  · simp [List.getElem?_range h, h]
  · have : (List.range n)[k]? = none := by
      apply List.getElem?_eq_none; simpa using h
    simp [this, h]

theorem list_ext_byteAt {v v' : List Nat} (hl : v.length = v'.length)
    (h : ∀ k, k < v.length → byteAt v k = byteAt v' k) : v = v' := by
  apply List.ext_getElem hl
  intro k h1 h2
  have := h k h1
  simpa [byteAt, List.getD_eq_getElem?_getD, List.getElem?_eq_getElem h1, List.getElem?_eq_getElem h2] using this

theorem byteAt_of_le {v : List Nat} {k : Nat} (h : v.length ≤ k) : byteAt v k = 0 := by
  simp [byteAt, List.getD_eq_getElem?_getD, List.getElem?_eq_none h]

theorem build_self (v : List Nat) : build v.length (fun k => byteAt v k) = v := by
  apply list_ext_byteAt (build_length _ _)
  intro k hk
  rw [build_length] at hk
  rw [byteAt_build, if_pos hk]

theorem leValue_congr {v v' : List Nat} (n : Nat) : ∀ (off : Nat),
    (∀ j, j < n → byteAt v (off + j) = byteAt v' (off + j)) →
    leValue v off n = leValue v' off n := by
  induction n with
  | zero => intro off _; rfl
  | succ n ih =>
    intro off h
    simp only [leValue]
    have h0 := h 0 (Nat.succ_pos n)
    rw [Nat.add_zero] at h0
    rw [h0, ih (off + 1)]
    intro j hj
    have := h (j + 1) (Nat.succ_lt_succ hj)
    simpa [Nat.add_assoc, Nat.add_comm 1 j] using this

theorem leValue_lt (v : List Nat) (n : Nat) : ∀ off, leValue v off n < 256 ^ n := by
  induction n with
  | zero => intro off; simp [leValue]
  | succ n ih =>
    intro off
    simp only [leValue]
    have := ih (off + 1)
    have h2 : byteAt v off % 256 < 256 := Nat.mod_lt _ (by norm_num)
    rw [pow_succ]
    omega

theorem leValue_byte (v : List Nat) (n : Nat) : ∀ (off j : Nat), j < n →
    leValue v off n / 256 ^ j % 256 = byteAt v (off + j) % 256 := by
  induction n with
  | zero => intro off j hj; omega
  | succ n ih =>
    intro off j hj
    simp only [leValue]
    cases j with
    | zero =>
      simp [Nat.add_mul_mod_self_left]
    | succ j =>
      have h2 : byteAt v off % 256 < 256 := Nat.mod_lt _ (by norm_num)
      rw [pow_succ, Nat.mul_comm (256 ^ j) 256, ← Nat.div_div_eq_div_mul]
      have : (byteAt v off % 256 + 256 * leValue v (off + 1) n) / 256 = leValue v (off + 1) n := by
        omega
      rw [this, ih (off + 1) j (by omega)]
      congr 2
      omega

theorem testBit_byte (z j b : Nat) (hb : b < 8) :
    (z / 256 ^ j % 256).testBit b = z.testBit (8 * j + b) := by
  have h256 : (256 : Nat) = 2 ^ 8 := by norm_num
  rw [h256, ← pow_mul, Nat.testBit_mod_two_pow, ← Nat.shiftRight_eq_div_pow, Nat.testBit_shiftRight]
  simp [hb]

theorem testBit_leValue (v : List Nat) (off n t : Nat) :
    (leValue v off n).testBit t = (decide (t < 8 * n) && (byteAt v (off + t / 8)).testBit (t % 8)) := by
  have hb : t % 8 < 8 := Nat.mod_lt _ (by norm_num)
  have ht : t = 8 * (t / 8) + t % 8 := (Nat.div_add_mod t 8).symm
  by_cases h : t < 8 * n
  · have hj : t / 8 < n := by omega
    have := leValue_byte v n off (t / 8) hj
    have e1 := testBit_byte (leValue v off n) (t / 8) (t % 8) hb
    rw [← ht] at e1
    rw [← e1, this]
    have h256 : (256 : Nat) = 2 ^ 8 := by norm_num
    rw [h256, Nat.testBit_mod_two_pow]
    simp [hb, h]
  · have : leValue v off n < 2 ^ t := by
      calc leValue v off n < 256 ^ n := leValue_lt v n off
        _ = 2 ^ (8 * n) := by rw [show (256 : Nat) = 2 ^ 8 by norm_num, ← pow_mul]
        _ ≤ 2 ^ t := Nat.pow_le_pow_right (by norm_num) (by omega)
    rw [Nat.testBit_lt_two_pow this]
    simp [h]

theorem load_store_same {w : World} {p : Ptr} (v0 : List Nat) (h : w.load p = some v0)
    (v : List Nat) : (w.store p v).load p = some v := by
  cases p <;> simp_all [World.load, World.store]

theorem load_store_ne {w : World} {p q : Ptr} (h : q ≠ p) (v : List Nat) :
    (w.store p v).load q = w.load q := by
  cases p <;> cases q <;> simp_all [World.load, World.store, Function.update]

theorem store_store (w : World) (p : Ptr) (v v' : List Nat) :
    (w.store p v).store p v' = w.store p v' := by
  cases p <;> simp [World.store]

theorem store_self {w : World} {p : Ptr} {v : List Nat} (h : w.load p = some v) :
    w.store p v = w := by
  cases w
  cases p <;> simp_all [World.load, World.store]

theorem store_undef (w : World) (p : Ptr) (v : List Nat) : (w.store p v).undef = w.undef := by
  cases p <;> rfl

theorem store_errno (w : World) (p : Ptr) (v : List Nat) : (w.store p v).errno = w.errno := by
  cases p <;> rfl

theorem wordAt_congr {d : Nat} {v v' : List Nat} {i : Nat}
    (h : ∀ j, j < d → byteAt v (i * d + j) = byteAt v' (i * d + j)) :
    wordAt d v i = wordAt d v' i :=
  leValue_congr d (i * d) h

theorem setWord_length (d : Nat) (v : List Nat) (i x : Nat) : (setWord d v i x).length = v.length :=
  build_length _ _

theorem wordAt_setWord_ne {d : Nat} {v : List Nat} {i j x : Nat} (h : j ≠ i) :
    wordAt d (setWord d v i x) j = wordAt d v j := by
  apply wordAt_congr
  intro t ht
  unfold setWord
  rw [byteAt_build]
  have hout : ¬ (i * d ≤ j * d + t ∧ j * d + t < i * d + d) := by
    intro ⟨h1, h2⟩
    rcases Nat.lt_or_gt_of_ne h with hlt | hgt
    · have : (j + 1) * d ≤ i * d := Nat.mul_le_mul_right d hlt
      rw [Nat.add_mul] at this; omega
    · have : (i + 1) * d ≤ j * d := Nat.mul_le_mul_right d hgt
      rw [Nat.add_mul] at this; omega
  rw [if_neg hout]
  by_cases hk : j * d + t < v.length
  · rw [if_pos hk]
  · rw [if_neg hk, byteAt_of_le (by omega)]

theorem combine_length (d : Nat) (op : Nat → Nat → Nat) (vd va vb : List Nat) (lo hi : Nat) :
    (combine d op vd va vb lo hi).length = vd.length :=
  build_length _ _

theorem combine_empty (d : Nat) (op : Nat → Nat → Nat) (vd va vb : List Nat) (i : Nat) :
    combine d op vd va vb i i = vd := by
  unfold combine
  have : (fun k => if i * d ≤ k ∧ k < i * d then
      op (wordAt d va (k / d)) (wordAt d vb (k / d)) / 256 ^ (k % d) % 256 else byteAt vd k)
      = fun k => byteAt vd k := by
    funext k
    rw [if_neg (by omega)]
  rw [this, build_self]

/-- One step of the loops: assigning word `i` and then combining the words after it is
combining from `i` on, whatever of the three buffers the assigned one aliases. -/
theorem combine_step {d : Nat} (hd : 0 < d) (op : Nat → Nat → Nat) (vd va vb va' vb' : List Nat)
    (i n : Nat)
    (ha : va' = va ∨ (va = vd ∧ va' = setWord d vd i (op (wordAt d va i) (wordAt d vb i))))
    (hb : vb' = vb ∨ (vb = vd ∧ vb' = setWord d vd i (op (wordAt d va i) (wordAt d vb i)))) :
    combine d op (setWord d vd i (op (wordAt d va i) (wordAt d vb i))) va' vb' (i + 1) (i + 1 + n)
      = combine d op vd va vb i (i + (n + 1)) := by
  apply list_ext_byteAt
  · rw [combine_length, combine_length, setWord_length]
  intro k hk
  rw [combine_length, setWord_length] at hk
  unfold combine
  rw [byteAt_build, byteAt_build, setWord_length, if_pos hk, if_pos hk]
  have e1 : (i + 1) * d = i * d + d := by rw [Nat.add_mul, Nat.one_mul]
  have e2 : (i + (n + 1)) * d = (i + 1 + n) * d := by congr 1; omega
  by_cases h1 : (i + 1) * d ≤ k ∧ k < (i + 1 + n) * d
  · rw [if_pos h1, if_pos (by rw [e2]; constructor <;> omega)]
    have hne : k / d ≠ i := by
      have : i + 1 ≤ k / d := (Nat.le_div_iff_mul_le hd).2 h1.1
      omega
    have wa : wordAt d va' (k / d) = wordAt d va (k / d) := by
      rcases ha with rfl | ⟨rfl, rfl⟩
      · rfl
      · exact wordAt_setWord_ne hne
    have wb : wordAt d vb' (k / d) = wordAt d vb (k / d) := by
      rcases hb with rfl | ⟨rfl, rfl⟩
      · rfl
      · exact wordAt_setWord_ne hne
    rw [wa, wb]
  · rw [if_neg h1]
    unfold setWord
    rw [byteAt_build, if_pos hk]
    by_cases h2 : i * d ≤ k ∧ k < i * d + d
    · rw [if_pos h2, if_pos (by rw [e2, Nat.add_mul]; constructor <;> omega)]
      have hq : k / d = i := by
        apply Nat.div_eq_of_lt_le
        · rw [Nat.mul_comm] at h2 ⊢; exact h2.1
        · rw [e1]; exact h2.2
      have hr : k % d = k - i * d := by
        have := Nat.div_add_mod k d
        rw [hq, Nat.mul_comm] at this
        omega
      rw [hq, hr]
    · rw [if_neg h2, if_neg (by rw [e2]; omega)]

theorem ternary_loop_eq (K : Decls) (hd : 0 < K.sizeofDTYPE) (op : Nat → Nat → Nat)
    (dp ap bp : Ptr) (n : Nat) : ∀ (i : Nat) (w : World) (vd va vb : List Nat),
    w.load dp = some vd → w.load ap = some va → w.load bp = some vb →
    ternary_loop K op dp ap bp n i w
      = w.store dp (combine K.sizeofDTYPE op vd va vb i (i + n)) := by
  induction n with
  | zero =>
    intro i w vd va vb h1 _ _
    simp only [ternary_loop, Nat.add_zero]
    rw [combine_empty, store_self h1]
  | succ n ih =>
    intro i w vd va vb h1 h2 h3
    simp only [ternary_loop]
    have hr : ∀ (q : Ptr) (vq : List Nat), w.load q = some vq →
        readWord K w q i = wordAt K.sizeofDTYPE vq i := by
      intro q vq hq; simp [readWord, hq]
    rw [hr ap va h2, hr bp vb h3]
    have hw : writeWord K w dp i (op (wordAt K.sizeofDTYPE va i) (wordAt K.sizeofDTYPE vb i))
        = w.store dp (setWord K.sizeofDTYPE vd i (op (wordAt K.sizeofDTYPE va i) (wordAt K.sizeofDTYPE vb i))) := by
      simp [writeWord, h1]
    rw [hw]
    set vd' := setWord K.sizeofDTYPE vd i (op (wordAt K.sizeofDTYPE va i) (wordAt K.sizeofDTYPE vb i)) with hvd'
    have l1 : (w.store dp vd').load dp = some vd' := load_store_same _ h1 _
    have hal : ∃ va', (w.store dp vd').load ap = some va' ∧ (va' = va ∨ (va = vd ∧ va' = vd')) := by
      by_cases e : ap = dp
      · subst e
        refine ⟨vd', l1, Or.inr ⟨?_, rfl⟩⟩
        rw [h1] at h2; exact (Option.some.inj h2).symm
      · exact ⟨va, by rw [load_store_ne e, h2], Or.inl rfl⟩
    have hbl : ∃ vb', (w.store dp vd').load bp = some vb' ∧ (vb' = vb ∨ (vb = vd ∧ vb' = vd')) := by
      by_cases e : bp = dp
      · subst e
        refine ⟨vd', l1, Or.inr ⟨?_, rfl⟩⟩
        rw [h1] at h3; exact (Option.some.inj h3).symm
      · exact ⟨vb, by rw [load_store_ne e, h3], Or.inl rfl⟩
    obtain ⟨va', la, ha⟩ := hal
    obtain ⟨vb', lb, hb⟩ := hbl
    rw [ih (i + 1) (w.store dp vd') vd' va' vb' l1 la lb, store_store]
    rw [combine_step hd op vd va vb va' vb' i n ha hb]

theorem binary_loop_eq_ternary (K : Decls) (op : Nat → Nat → Nat) (dp bp : Ptr) (n : Nat) :
    ∀ (i : Nat) (w : World), binary_loop K op dp bp n i w = ternary_loop K op dp dp bp n i w := by
  induction n with
  | zero => intro i w; rfl
  | succ n ih => intro i w; simp only [binary_loop, ternary_loop]; rw [ih]

theorem assert_comparable_zero {w : World} {a b : MBArray}
    (h : (_assert_comparable w a b).2 = 0) :
    a.preamblebytes = b.preamblebytes ∧
    (_assert_comparable w a b).1 = { w with errno := EINVAL } ∧
    ∃ v1 v2, w.load a.vector = some v1 ∧ w.load b.vector = some v2 ∧
      ∀ k, k < a.preamblebytes → byteAt v1 k = byteAt v2 k := by
  unfold _assert_comparable at h ⊢
  by_cases hp : a.preamblebytes = b.preamblebytes
  · simp only [hp, ne_eq, not_true_eq_false, if_false] at h ⊢
    cases h1 : w.load a.vector with
    | none => simp [h1] at h
    | some v1 =>
      cases h2 : w.load b.vector with
      | none => simp [h1, h2] at h
      | some v2 =>
        simp only [h1, h2] at h ⊢
        by_cases hm : memcmp v1 v2 b.preamblebytes = 0
        · simp only [hm, not_true_eq_false, if_false, true_and]
          refine ⟨v1, v2, rfl, rfl, ?_⟩
          unfold memcmp at hm
          by_cases hall : ∀ k, k < b.preamblebytes → byteAt v1 k = byteAt v2 k
          · exact hall
          · rw [if_neg hall] at hm; exact absurd hm (by decide)
        · simp [hm] at h
  · simp [hp] at h

theorem assert_comparable_of (w : World) {a b : MBArray} {v1 v2 : List Nat}
    (hp : a.preamblebytes = b.preamblebytes)
    (h1 : w.load a.vector = some v1) (h2 : w.load b.vector = some v2)
    (hall : ∀ k, k < a.preamblebytes → byteAt v1 k = byteAt v2 k) :
    _assert_comparable w a b = ({ w with errno := EINVAL }, 0) := by
  unfold _assert_comparable
  simp only [hp, ne_eq, not_true_eq_false, if_false, h1, h2]
  have : memcmp v1 v2 b.preamblebytes = 0 := by
    unfold memcmp; rw [if_pos (by rw [← hp]; exact hall)]
  simp [this]

theorem assert_comparable_frame (w : World) (a b : MBArray) :
    (_assert_comparable w a b).1.errno = EINVAL ∧ (_assert_comparable w a b).1.heap = w.heap ∧
    (_assert_comparable w a b).1.files = w.files := by
  unfold _assert_comparable
  split
  · exact ⟨rfl, rfl, rfl⟩
  · split
    · split <;> exact ⟨rfl, rfl, rfl⟩
    · exact ⟨rfl, rfl, rfl⟩

/-- The result of the check reads the buffers only. -/
theorem assert_comparable_result_congr {w w' : World} (a b : MBArray)
    (hh : w'.heap = w.heap) (hf : w'.files = w.files) :
    (_assert_comparable w' a b).2 = (_assert_comparable w a b).2 := by
  have hl : ∀ p, w'.load p = w.load p := by
    intro p; cases p <;> simp [World.load, hh, hf]
  unfold _assert_comparable
  rw [hl, hl]
  split
  · rfl
  · split
    · split <;> rfl
    · rfl

theorem binary_op_pass (K : Decls) (hd : 0 < K.sizeofDTYPE) (op : Nat → Nat → Nat) (w : World)
    (dest other : MBArray) (h : (_assert_comparable w dest other).2 = 0) :
    ∃ v1 v2, w.load dest.vector = some v1 ∧ w.load other.vector = some v2 ∧
      binary_op K op w dest other =
        ((intLoopFlag { w with errno := EINVAL } dest.preamblesize
            ((dest.size + dest.preamblesize) % SIZE_MOD)).store dest.vector
          (combine K.sizeofDTYPE op v1 v1 v2 dest.preamblesize
            (dest.preamblesize + ((dest.size + dest.preamblesize) % SIZE_MOD - dest.preamblesize))),
         some dest) := by
  obtain ⟨_, hw, v1, v2, h1, h2, _⟩ := assert_comparable_zero h
  refine ⟨v1, v2, h1, h2, ?_⟩
  unfold binary_op
  simp only [h, ne_eq, not_true_eq_false, if_false, hw]
  rw [binary_loop_eq_ternary, ternary_loop_eq K hd op _ _ _ _ _ _ v1 v1 v2]
  · cases hv : dest.vector <;> simp_all [World.load, intLoopFlag]
  · cases hv : dest.vector <;> simp_all [World.load, intLoopFlag]
  · cases hv : other.vector <;> simp_all [World.load, intLoopFlag]

theorem ternary_op_pass (K : Decls) (hd : 0 < K.sizeofDTYPE) (op : Nat → Nat → Nat) (w : World)
    (dest a b : MBArray) (h1 : (_assert_comparable w a b).2 = 0)
    (h2 : (_assert_comparable w dest b).2 = 0) :
    ∃ vd va vb, w.load dest.vector = some vd ∧ w.load a.vector = some va ∧
      w.load b.vector = some vb ∧
      ternary_op K op w dest a b =
        ((intLoopFlag { w with errno := EINVAL } dest.preamblesize
            ((a.size + a.preamblesize) % SIZE_MOD)).store dest.vector
          (combine K.sizeofDTYPE op vd va vb dest.preamblesize
            (dest.preamblesize + ((a.size + a.preamblesize) % SIZE_MOD - dest.preamblesize))),
         some dest) := by
  obtain ⟨_, hw, va, vb, ha, hb, _⟩ := assert_comparable_zero h1
  obtain ⟨hp2, _, vd, vb', hd', hb', hall⟩ := assert_comparable_zero h2
  refine ⟨vd, va, vb, hd', ha, hb, ?_⟩
  have hl : ∀ p, ({ w with errno := EINVAL } : World).load p = w.load p := by
    intro p; cases p <;> rfl
  have h2' : _assert_comparable { w with errno := EINVAL } dest b
      = ({ w with errno := EINVAL }, 0) := by
    have := assert_comparable_of { w with errno := EINVAL } hp2
      (by rw [hl]; exact hd') (by rw [hl]; exact hb') hall
    simpa using this
  unfold ternary_op
  simp only [h1, ne_eq, not_true_eq_false, if_false, hw, h2']
  rw [ternary_loop_eq K hd op _ _ _ _ _ _ vd va vb]
  · cases hv : dest.vector <;> simp_all [World.load, intLoopFlag]
  · cases hv : a.vector <;> simp_all [World.load, intLoopFlag]
  · cases hv : b.vector <;> simp_all [World.load, intLoopFlag]

theorem Decls.ok_pos {K : Decls} (hK : K.ok) : 0 < K.sizeofDTYPE := by
  rcases hK.1 with h | h | h | h <;> omega

/-- Byte and bit position of data bit `i`: with `t = i mod W`, the byte of word
`p + i div W` that holds the bit is byte `p * d + i div 8` of the buffer. -/
theorem bit_position {d : Nat} (hd : 0 < d) (p i : Nat) :
    (p + i / (8 * d)) * d + i % (8 * d) / 8 = p * d + i / 8 ∧ i % (8 * d) / 8 < d ∧
    8 * (i % (8 * d) / 8) + i % (8 * d) % 8 = i % (8 * d) := by
  have h1 : i % (8 * d) / 8 < d := by
    apply Nat.div_lt_of_lt_mul
    exact Nat.mod_lt _ (by omega)
  have h2 := Nat.div_add_mod i (8 * d)
  have h3 := Nat.div_add_mod (i % (8 * d)) 8
  refine ⟨?_, h1, h3⟩
  have h4 : i / 8 = i / (8 * d) * d + i % (8 * d) / 8 := by
    have : i = 8 * (i / (8 * d) * d + i % (8 * d) / 8) + i % (8 * d) % 8 := by
      have e : 8 * d * (i / (8 * d)) = 8 * (i / (8 * d) * d) := by ring
      omega
    have hlt : i % (8 * d) % 8 < 8 := Nat.mod_lt _ (by norm_num)
    omega
  rw [h4, Nat.add_mul]; omega

theorem dataBit_combine (K : Decls) (hd : 0 < K.sizeofDTYPE) (op : Nat → Nat → Nat)
    (bop : Bool → Bool → Bool)
    (hop : ∀ x y t, (op x y).testBit t = bop (x.testBit t) (y.testBit t))
    (vd va vb : List Nat) (p size i : Nat) (hw : i / K.W < size)
    (hlen : p * K.sizeofDTYPE + i / 8 < vd.length) :
    dataBit K p (combine K.sizeofDTYPE op vd va vb p (p + size)) i
      = bop (dataBit K p va i) (dataBit K p vb i) := by
  obtain ⟨e1, e2, e3⟩ := bit_position hd p i
  unfold dataBit wordAt Decls.W at *
  set d := K.sizeofDTYPE with hdd
  set t := i % (8 * d) with ht
  have htlt : t < 8 * d := Nat.mod_lt _ (by omega)
  rw [testBit_leValue, testBit_leValue, testBit_leValue]
  simp only [htlt, decide_True, Bool.true_and]
  unfold combine
  rw [byteAt_build, e1, if_pos hlen]
  have hk : (p + i / (8 * d)) * d + t / 8 = p * d + i / 8 := e1
  have hq : (p * d + i / 8) / d = p + i / (8 * d) := by
    rw [← hk]
    apply Nat.div_eq_of_lt_le
    · rw [Nat.mul_comm]; omega
    · rw [Nat.add_mul (p + i / (8 * d)) 1 d, Nat.one_mul]; omega
  have hr : (p * d + i / 8) % d = t / 8 := by
    have := Nat.div_add_mod (p * d + i / 8) d
    rw [hq, Nat.mul_comm] at this
    omega
  have hin : p * d ≤ p * d + i / 8 ∧ p * d + i / 8 < (p + size) * d := by
    constructor
    · omega
    · rw [← hk]
      have : (p + i / (8 * d) + 1) * d ≤ (p + size) * d := Nat.mul_le_mul_right d (by omega)
      rw [Nat.add_mul (p + i / (8 * d)) 1 d, Nat.one_mul] at this
      omega
  rw [if_pos hin, hq, hr, testBit_byte _ _ _ (Nat.mod_lt _ (by norm_num)), e3, hop]
  unfold wordAt
  rw [testBit_leValue, testBit_leValue, hk]
  simp only [htlt, decide_True, Bool.true_and]

theorem load_congr (w : World) {w' : World} (hh : w'.heap = w.heap) (hf : w'.files = w.files) (p : Ptr) :
    w'.load p = w.load p := by
  cases p <;> simp [World.load, hh, hf]

theorem binary_op_bit (K : Decls) (hK : K.ok) (op : Nat → Nat → Nat) (bop : Bool → Bool → Bool)
    (hop : ∀ x y t, (op x y).testBit t = bop (x.testBit t) (y.testBit t))
    (w : World) (dest other : MBArray) (v1 v2 : List Nat)
    (hdest : Shaped K w dest v1) (hother : w.load other.vector = some v2)
    (hu : w.undef = false) (hcmp : (_assert_comparable w dest other).2 = 0)
    (hint : dest.preamblesize + dest.size ≤ INT_MAX) (i : Nat) (hi : i < dest.bits) :
    (binary_op K op w dest other).2 = some dest ∧
    (binary_op K op w dest other).1.undef = false ∧
    ∃ v, (binary_op K op w dest other).1.load dest.vector = some v ∧
      dataBit K dest.preamblesize v i
        = bop (dataBit K dest.preamblesize v1 i) (dataBit K dest.preamblesize v2 i) := by
  have hd := Decls.ok_pos hK
  obtain ⟨u1, u2, l1, l2, heq⟩ := binary_op_pass K hd op w dest other hcmp
  rw [hdest.load] at l1; rw [hother] at l2
  obtain rfl := Option.some.inj l1
  obtain rfl := Option.some.inj l2
  have hmod : (dest.size + dest.preamblesize) % SIZE_MOD = dest.preamblesize + dest.size := by
    rw [Nat.add_comm]; apply Nat.mod_eq_of_lt
    unfold INT_MAX at hint; unfold SIZE_MOD; omega
  rw [heq, hmod]
  have hsub : dest.preamblesize + (dest.preamblesize + dest.size - dest.preamblesize)
      = dest.preamblesize + dest.size := by omega
  rw [hsub]
  refine ⟨rfl, ?_, _, load_store_same v1 ?_ _, ?_⟩
  · rw [store_undef]
    simp only [intLoopFlag, hu, Bool.false_or, Bool.or_eq_false_iff, decide_eq_false_iff_not,
      not_lt]
    omega
  · exact (load_congr w (by rfl) (by rfl) _).trans hdest.load
  · apply dataBit_combine K hd op bop hop
    · have := hdest.size
      apply Nat.div_lt_of_lt_mul
      omega
    · have h1 := hdest.preamble
      have h2 := hdest.length
      have h3 := hdest.bytes
      have : i / 8 < dest.bytes := by omega
      omega

theorem leValue_zero (v : List Nat) (n : Nat) : ∀ off,
    (∀ j, j < n → byteAt v (off + j) = 0) → leValue v off n = 0 := by
  induction n with
  | zero => intro off _; rfl
  | succ n ih =>
    intro off h
    simp only [leValue]
    have h0 := h 0 (Nat.succ_pos n)
    rw [Nat.add_zero] at h0
    rw [h0, ih (off + 1)]
    intro j hj
    have := h (j + 1) (Nat.succ_lt_succ hj)
    simpa [Nat.add_assoc, Nat.add_comm 1 j] using this

theorem binary_op_rejected (K : Decls) (op : Nat → Nat → Nat) (w : World) (dest other : MBArray)
    (h : (_assert_comparable w dest other).2 ≠ 0) : Rejected w (binary_op K op w dest other) := by
  unfold binary_op Rejected
  simp only [h, ne_eq, not_false_eq_true, if_true]
  exact ⟨trivial, assert_comparable_frame w dest other⟩

theorem ternary_op_rejected (K : Decls) (op : Nat → Nat → Nat) (w : World) (dest a b : MBArray)
    (h : (_assert_comparable w a b).2 ≠ 0 ∨ (_assert_comparable w dest b).2 ≠ 0) :
    Rejected w (ternary_op K op w dest a b) := by
  unfold ternary_op Rejected
  obtain ⟨f1, f2, f3⟩ := assert_comparable_frame w a b
  by_cases h1 : (_assert_comparable w a b).2 = 0
  · have h2 : (_assert_comparable w dest b).2 ≠ 0 := by
      rcases h with h | h
      · exact absurd h1 h
      · exact h
    have h2' : (_assert_comparable (_assert_comparable w a b).1 dest b).2 ≠ 0 := by
      rw [assert_comparable_result_congr dest b f2 f3]; exact h2
    simp only [h1, ne_eq, not_true_eq_false, if_false, h2', not_false_eq_true, if_true]
    obtain ⟨g1, g2, g3⟩ := assert_comparable_frame (_assert_comparable w a b).1 dest b
    exact ⟨trivial, g1, g2.trans f2, g3.trans f3⟩
  · simp only [h1, ne_eq, not_false_eq_true, if_true]
    exact ⟨trivial, f1, f2, f3⟩

theorem ternary_alias_eq_binary (K : Decls) (op : Nat → Nat → Nat) (w : World) (a b : MBArray) :
    ternary_op K op w a a b = binary_op K op w a b := by
  unfold ternary_op binary_op
  by_cases h : (_assert_comparable w a b).2 = 0
  · obtain ⟨hp, hw, v1, v2, l1, l2, hall⟩ := assert_comparable_zero h
    have h2 : _assert_comparable (_assert_comparable w a b).1 a b
        = ((_assert_comparable w a b).1, 0) := by
      rw [hw]
      have := assert_comparable_of { w with errno := EINVAL } hp
        ((load_congr w (by rfl) (by rfl) _).trans l1)
        ((load_congr w (by rfl) (by rfl) _).trans l2) hall
      simpa using this
    simp only [h, ne_eq, not_true_eq_false, if_false, h2]
    rw [binary_loop_eq_ternary]
  · simp only [h, ne_eq, not_false_eq_true, if_true]

theorem ternary_copy_eq_binary (K : Decls) (hK : K.ok) (op : Nat → Nat → Nat) (w : World)
    (dest a b : MBArray) (hcmp : (_assert_comparable w a b).2 = 0)
    (hcopy : w.load dest.vector = w.load a.vector)
    (hps : dest.preamblesize = a.preamblesize) (hpb : dest.preamblebytes = a.preamblebytes) :
    (ternary_op K op w dest a b).2 = some dest ∧ (binary_op K op w a b).2 = some a ∧
    (∃ v, (ternary_op K op w dest a b).1.load dest.vector = some v ∧
      (binary_op K op w a b).1.load a.vector = some v) := by
  have hd := Decls.ok_pos hK
  obtain ⟨hp, _, v1, v2, l1, l2, hall⟩ := assert_comparable_zero hcmp
  have hcmp2 : (_assert_comparable w dest b).2 = 0 := by
    rw [assert_comparable_of w (hpb.trans hp) (hcopy.trans l1) l2 (by rw [hpb]; exact hall)]
  obtain ⟨ud, ua, ub, ld, la, lb, ht⟩ := ternary_op_pass K hd op w dest a b hcmp hcmp2
  obtain ⟨u1, u2, m1, m2, hb⟩ := binary_op_pass K hd op w a b hcmp
  rw [l1] at la m1; rw [l2] at lb m2; rw [hcopy, l1] at ld
  obtain rfl := Option.some.inj la
  obtain rfl := Option.some.inj lb
  obtain rfl := Option.some.inj ld
  obtain rfl := Option.some.inj m1
  obtain rfl := Option.some.inj m2
  rw [ht, hb, hps]
  refine ⟨rfl, rfl, _, load_store_same v1 ?_ _, load_store_same v1 ?_ _⟩
  · exact (load_congr w (by rfl) (by rfl) _).trans (hcopy.trans l1)
  · exact (load_congr w (by rfl) (by rfl) _).trans l1

theorem clearAll_result (K : Decls) (hK : K.ok) (w : World) (a : MBArray) (v : List Nat)
    (ha : Shaped K w a v) :
    (mbarray_ClearAll K w (some a)).2 = 0 ∧
    ∃ v', (mbarray_ClearAll K w (some a)).1.load a.vector = some v' ∧ v'.length = v.length ∧
      (∀ k, k < a.preamblebytes → byteAt v' k = byteAt v k) ∧
      (∀ j, j < a.size → wordAt K.sizeofDTYPE v' (a.preamblesize + j) = 0) ∧
      (∀ i, i < a.bits → dataBit K a.preamblesize v' i = false) := by
  have hd := Decls.ok_pos hK
  have hl := ha.load
  have hnn : a.vector ≠ Ptr.null := by
    intro e; rw [e] at hl; simp [World.load] at hl
  have hmod : K.sizeofDTYPE * a.size % SIZE_MOD = K.sizeofDTYPE * a.size :=
    Nat.mod_eq_of_lt ha.words
  unfold mbarray_ClearAll
  simp only [hnn, if_false, hl, hmod]
  have hword : ∀ j, j < a.size → wordAt K.sizeofDTYPE
      (memset0 v (a.preamblesize * K.sizeofDTYPE) (K.sizeofDTYPE * a.size)) (a.preamblesize + j) = 0 := by
    intro j hj
    unfold wordAt
    apply leValue_zero
    intro t ht
    unfold memset0
    rw [byteAt_build]
    split
    · rw [if_pos]
      constructor
      · rw [Nat.add_mul]; omega
      · have : (j + 1) * K.sizeofDTYPE ≤ a.size * K.sizeofDTYPE := Nat.mul_le_mul_right _ hj
        rw [Nat.add_mul, Nat.one_mul] at this
        rw [Nat.add_mul, Nat.mul_comm K.sizeofDTYPE a.size]; omega
    · rfl
  refine ⟨trivial, _, load_store_same _ hl _, build_length _ _, ?_, hword, ?_⟩
  · intro k hk
    unfold memset0
    rw [byteAt_build]
    have : ¬ (a.preamblesize * K.sizeofDTYPE ≤ k ∧
        k < a.preamblesize * K.sizeofDTYPE + K.sizeofDTYPE * a.size) := by
      rw [← ha.preamble]; omega
    rw [if_neg this]
    split
    · rfl
    · rw [byteAt_of_le (by omega)]
  · intro i hi
    unfold dataBit
    rw [hword]
    · simp
    · have := ha.size
      apply Nat.div_lt_of_lt_mul
      omega

theorem st_fd (w : World) (path : String) (c : List Nat) (fd : Nat) (r wr : Bool) (off e : Nat) :
    (st w path c fd r wr off e).fd? (fd : Int) = some ⟨path, r, wr, off⟩ := by
  simp [World.fd?, st]

theorem st_errno (w : World) (path : String) (c : List Nat) (fd : Nat) (r wr : Bool) (off e e' : Nat) :
    { st w path c fd r wr off e with errno := e' } = st w path c fd r wr off e' := rfl

theorem st_errno_val (w : World) (path : String) (c : List Nat) (fd : Nat) (r wr : Bool) (off e : Nat) :
    (st w path c fd r wr off e).errno = e := rfl

theorem st_files (w : World) (path : String) (c : List Nat) (fd : Nat) (r wr : Bool) (off e : Nat) :
    (st w path c fd r wr off e).files path = some c := by
  simp [st]

theorem st_undef (w : World) (path : String) (c : List Nat) (fd : Nat) (r wr : Bool) (off e : Nat) :
    (st w path c fd r wr off e).undef = w.undef := rfl

theorem open_existing (w : World) {path : String} {c : List Nat} (h : w.files path = some c)
    (fl : OFlags) :
    sys_open w path fl = (st w path c w.nextFd (decide (fl.accmode ≠ AccMode.wronly))
      (decide (fl.accmode ≠ AccMode.rdonly)) 0 w.errno, (w.nextFd : Int)) := by
  unfold sys_open st
  simp only [h]
  congr 2
  rw [← h, Function.update_eq_self]

theorem open_absent_creat (w : World) {path : String} (h : w.files path = none)
    (fl : OFlags) (hc : fl.creat = true) :
    sys_open w path fl = (st w path [] w.nextFd (decide (fl.accmode ≠ AccMode.wronly))
      (decide (fl.accmode ≠ AccMode.rdonly)) 0 w.errno, (w.nextFd : Int)) := by
  unfold sys_open st
  simp only [h, hc, if_true]

theorem pread_st (w : World) (path : String) (c : List Nat) (fd : Nat) (r wr : Bool) (off e n o : Nat) :
    sys_pread (st w path c fd r wr off e) (fd : Int) n o =
      if r then (st w path c fd r wr off e, (((c.drop o).take n).length : Int), (c.drop o).take n)
      else (st w path c fd r wr off EBADF, -1, []) := by
  unfold sys_pread
  rw [st_fd]
  simp only [st_files, Option.getD_some, st_errno]

theorem fstat_st (w : World) (path : String) (c : List Nat) (fd : Nat) (r wr : Bool) (off e : Nat) :
    sys_fstat (st w path c fd r wr off e) (fd : Int) = (st w path c fd r wr off e, 0, c.length) := by
  unfold sys_fstat
  rw [st_fd]
  simp only [st_files, Option.getD_some]

theorem lseek_st (w : World) (path : String) (c : List Nat) (fd : Nat) (r wr : Bool) (off e o : Nat) :
    sys_lseek (st w path c fd r wr off e) (fd : Int) o =
      if o < 2 ^ 63 then st w path c fd r wr o e else st w path c fd r wr off EINVAL := by
  unfold sys_lseek
  rw [st_fd]
  simp only []
  by_cases h : o < 2 ^ 63
  · rw [if_pos h, if_pos h]; simp [st]
  · rw [if_neg h, if_neg h]; rfl

theorem write_st (w : World) (path : String) (c : List Nat) (fd : Nat) (r wr : Bool) (off e : Nat)
    (data : List Nat) :
    sys_write (st w path c fd r wr off e) (fd : Int) data =
      if wr then
        if w.fileLimit < off + data.length then (st w path c fd r wr off EFBIG, -1)
        else (st w path (writeAt c off data) fd r wr (off + data.length) e, (data.length : Int))
      else (st w path c fd r wr off EBADF, -1) := by
  unfold sys_write
  rw [st_fd]
  simp only [st_files, Option.getD_some, st_errno]
  by_cases h1 : wr = true
  · simp only [h1, if_true]
    by_cases h2 : w.fileLimit < off + data.length
    · rw [if_pos h2, if_pos (by simpa [st] using h2)]
    · rw [if_neg h2, if_neg (by simpa [st] using h2)]
      simp [st]
  · simp only [h1]
    rfl

theorem mmap_st (w : World) (path : String) (c : List Nat) (fd : Nat) (r wr : Bool) (off e len : Nat) :
    sys_mmap (st w path c fd r wr off e) len (fd : Int) =
      if ¬ (r = true ∧ wr = true) then (st w path c fd r wr off EACCES, Ptr.mapFailed)
      else if len = 0 then (st w path c fd r wr off EINVAL, Ptr.mapFailed)
      else if w.memLimit < len then (st w path c fd r wr off ENOMEM, Ptr.mapFailed)
      else (st w path c fd r wr off e, Ptr.mapped path) := by
  unfold sys_mmap
  rw [st_fd]
  rfl

theorem destroy_null (w : World) (a : MBArray) (h : a.vector = Ptr.null) :
    mbarray_Destroy w (some a) = { w with handles := w.handles - 1 } := by
  unfold mbarray_Destroy
  simp [h]

theorem byteAt_append (l1 l2 : List Nat) (k : Nat) :
    byteAt (l1 ++ l2) k = if k < l1.length then byteAt l1 k else byteAt l2 (k - l1.length) := by
  unfold byteAt
  simp only [List.getD_eq_getElem?_getD, List.getElem?_append]
  split <;> rfl

theorem byteAt_replicate (n k : Nat) : byteAt (List.replicate n 0) k = 0 := by
  unfold byteAt
  simp only [List.getD_eq_getElem?_getD, List.getElem?_replicate]
  split <;> rfl

theorem byteAt_take (l : List Nat) (n k : Nat) :
    byteAt (l.take n) k = if k < n then byteAt l k else 0 := by
  unfold byteAt
  simp only [List.getD_eq_getElem?_getD, List.getElem?_take]
  split <;> rfl

theorem byteAt_drop (l : List Nat) (n k : Nat) : byteAt (l.drop n) k = byteAt l (n + k) := by
  unfold byteAt
  simp only [List.getD_eq_getElem?_getD, List.getElem?_drop]

theorem leBytes_length (x n : Nat) : (leBytes x n).length = n := by
  induction n generalizing x with
  | zero => rfl
  | succ n ih => simp [leBytes, ih]

theorem byteAt_leBytes (n : Nat) : ∀ (x k : Nat), k < n → byteAt (leBytes x n) k = x / 256 ^ k % 256 := by
  induction n with
  | zero => intro x k hk; omega
  | succ n ih =>
    intro x k hk
    cases k with
    | zero => simp [leBytes, byteAt]
    | succ k =>
      have := ih (x / 256) k (by omega)
      simp only [leBytes, byteAt, List.getD_cons_succ] at this ⊢
      rw [this, Nat.div_div_eq_div_mul, pow_succ, Nat.mul_comm]

theorem leValue_leBytes (n : Nat) : ∀ (x : Nat) (v : List Nat) (off : Nat),
    (∀ k, k < n → byteAt v (off + k) = byteAt (leBytes x n) k) →
    leValue v off n = x % 256 ^ n := by
  induction n with
  | zero => intro x v off _; simp [leValue, Nat.mod_one]
  | succ n ih =>
    intro x v off h
    simp only [leValue]
    have h0 := h 0 (Nat.succ_pos n)
    rw [Nat.add_zero, byteAt_leBytes (n + 1) x 0 (Nat.succ_pos n)] at h0
    rw [h0, ih (x / 256) v (off + 1)]
    · simp only [pow_zero, Nat.div_one, Nat.mod_mod]
      rw [pow_succ, Nat.mul_comm (256 ^ n) 256, Nat.mod_mul]
    · intro k hk
      have := h (k + 1) (Nat.succ_lt_succ hk)
      simp only [leBytes, byteAt, List.getD_cons_succ] at this ⊢
      rw [← this]; congr 1; omega

theorem preambleBytes_length (K : Decls) (B : Nat) (H : List Nat) :
    (preambleBytes K B H).length = K.MBAMAGICSIZE + 12 + H.length := by
  simp [preambleBytes, leBytes_length, Decls.MBAMAGICSIZE]; omega

theorem layout_length (K : Decls) (B : Nat) (H : List Nat) (total : Nat)
    (h : K.MBAMAGICSIZE + 12 + H.length ≤ total) : (layout K B H total).length = total := by
  simp [layout, preambleBytes_length]; omega

theorem byteAt_preambleBytes (K : Decls) (B : Nat) (H : List Nat) (k : Nat) :
    byteAt (preambleBytes K B H) k =
      if k < K.MBAMAGICSIZE then byteAt K.MBAMAGIC k
      else if k < K.MBAMAGICSIZE + 8 then byteAt (leBytes B 8) (k - K.MBAMAGICSIZE)
      else if k < K.MBAMAGICSIZE + 12 then byteAt (leBytes H.length 4) (k - (K.MBAMAGICSIZE + 8))
      else byteAt H (k - (K.MBAMAGICSIZE + 12)) := by
  unfold preambleBytes Decls.MBAMAGICSIZE
  simp only [byteAt_append, List.length_append, leBytes_length]
  by_cases h1 : k < K.MBAMAGIC.length
  · simp [h1, show k < K.MBAMAGIC.length + 8 by omega, show k < K.MBAMAGIC.length + 8 + 4 by omega]
  · by_cases h2 : k < K.MBAMAGIC.length + 8
    · simp [h1, h2, show k < K.MBAMAGIC.length + 8 + 4 by omega]
    · by_cases h3 : k < K.MBAMAGIC.length + 8 + 4
      · simp [h1, h2, h3, show k < K.MBAMAGIC.length + 12 by omega]
      · simp [h1, h2, h3, show ¬ k < K.MBAMAGIC.length + 12 by omega]

theorem byteAt_layout (K : Decls) (B : Nat) (H : List Nat) (total k : Nat) :
    byteAt (layout K B H total) k = byteAt (preambleBytes K B H) k := by
  unfold layout
  rw [byteAt_append]
  split
  · rfl
  · rw [byteAt_replicate, byteAt_of_le (by omega)]

theorem byteAt_memcpy (v : List Nat) (off : Nat) (src : List Nat) (k : Nat) :
    byteAt (memcpy v off src) k =
      if k < v.length then (if off ≤ k ∧ k < off + src.length then byteAt src (k - off) else byteAt v k)
      else 0 := by
  unfold memcpy; rw [byteAt_build]

theorem memcpy_length (v : List Nat) (off : Nat) (src : List Nat) :
    (memcpy v off src).length = v.length := build_length _ _

theorem stamp_length (K : Decls) (B : Nat) (H : List Nat) (L : Nat) (v : List Nat) :
    (stamp K B H L v).length = v.length := by
  unfold stamp
  simp only []
  split <;> simp [memcpy_length]

theorem byteAt_header_take (H : List Nat) (j : Nat) : byteAt (H.take H.length) j = byteAt H j := by
  rw [List.take_length]

theorem stamp_zero (K : Decls) (B : Nat) (H : List Nat) (total : Nat)
    (h : K.MBAMAGICSIZE + 12 + H.length ≤ total) :
    stamp K B H H.length (List.replicate total 0) = layout K B H total := by
  apply list_ext_byteAt
  · rw [stamp_length, layout_length K B H total h, List.length_replicate]
  intro k hk
  rw [stamp_length, List.length_replicate] at hk
  rw [byteAt_layout, byteAt_preambleBytes]
  unfold stamp
  simp only []
  have hM : K.MBAMAGIC.length = K.MBAMAGICSIZE := rfl
  by_cases hL : H.length = 0
  · rw [if_neg (by simpa using hL)]
    simp only [byteAt_memcpy, memcpy_length, List.length_replicate, hk, if_true, leBytes_length,
      byteAt_replicate, hM]
    by_cases h1 : k < K.MBAMAGICSIZE
    · simp [h1, show ¬ (K.MBAMAGICSIZE + 8 ≤ k) by omega, show ¬ (K.MBAMAGICSIZE ≤ k) by omega]
    · by_cases h2 : k < K.MBAMAGICSIZE + 8
      · simp [h1, h2, show ¬ (K.MBAMAGICSIZE + 8 ≤ k) by omega, show (K.MBAMAGICSIZE ≤ k) by omega]
      · by_cases h3 : k < K.MBAMAGICSIZE + 12
        · simp [h1, h2, h3, show (K.MBAMAGICSIZE + 8 ≤ k) by omega,
            show k < K.MBAMAGICSIZE + 8 + 4 by omega]
        · simp [h1, h2, h3, show ¬ (k < K.MBAMAGICSIZE + 8 + 4) by omega,
            show (K.MBAMAGICSIZE ≤ k) by omega]
          rw [byteAt_of_le (by omega)]
  · rw [if_pos (by simpa using hL)]
    simp only [byteAt_memcpy, memcpy_length, List.length_replicate, hk, if_true, leBytes_length,
      byteAt_replicate, hM, List.take_length]
    by_cases h1 : k < K.MBAMAGICSIZE
    · simp [h1, show ¬ (K.MBAMAGICSIZE + 8 ≤ k) by omega, show ¬ (K.MBAMAGICSIZE ≤ k) by omega,
        show ¬ (K.MBAMAGICSIZE + 8 + 4 ≤ k) by omega]
    · by_cases h2 : k < K.MBAMAGICSIZE + 8
      · simp [h1, h2, show ¬ (K.MBAMAGICSIZE + 8 ≤ k) by omega, show (K.MBAMAGICSIZE ≤ k) by omega,
          show ¬ (K.MBAMAGICSIZE + 8 + 4 ≤ k) by omega]
      · by_cases h3 : k < K.MBAMAGICSIZE + 12
        · simp [h1, h2, h3, show (K.MBAMAGICSIZE + 8 ≤ k) by omega,
            show k < K.MBAMAGICSIZE + 8 + 4 by omega, show ¬ (K.MBAMAGICSIZE + 8 + 4 ≤ k) by omega]
        · by_cases h4 : k < K.MBAMAGICSIZE + 12 + H.length
          · simp [h1, h2, h3, show (K.MBAMAGICSIZE + 8 + 4 ≤ k) by omega,
              show k < K.MBAMAGICSIZE + 8 + 4 + H.length by omega]
          · simp [h1, h2, h3, show ¬ (k < K.MBAMAGICSIZE + 8 + 4) by omega,
              show (K.MBAMAGICSIZE ≤ k) by omega,
              show ¬ (k < K.MBAMAGICSIZE + 8 + 4 + H.length) by omega]
            rw [byteAt_of_le (by omega)]

theorem dropBits_le (f : Nat) : ∀ n, dropBits f n ≤ f := by
  induction f with
  | zero => intro n; simp [dropBits]
  | succ f ih =>
    intro n
    simp only [dropBits]
    split
    · omega
    · have := ih (n / 2); omega

theorem dropBits_div (f : Nat) : ∀ n, n < 2 ^ (53 + f) → n / 2 ^ dropBits f n < 2 ^ 53 := by
  induction f with
  | zero => intro n h; simpa [dropBits] using h
  | succ f ih =>
    intro n h
    simp only [dropBits]
    split
    · simpa using ‹n < 2 ^ 53›
    · have h2 : n / 2 < 2 ^ (53 + f) := by
        rw [Nat.div_lt_iff_lt_mul (by norm_num)]
        calc n < 2 ^ (53 + (f + 1)) := h
          _ = 2 ^ (53 + f) * 2 := by rw [← Nat.add_assoc, pow_succ]
      have := ih (n / 2) h2
      rw [Nat.add_comm 1, pow_succ, Nat.mul_comm, ← Nat.div_div_eq_div_mul]
      exact this

theorem toDouble_small {n : Nat} (h : n < 2 ^ 53) : toDouble n = n := by
  unfold toDouble
  have : dropBits 11 n = 0 := by
    show (if n < 2 ^ 53 then 0 else 1 + dropBits 10 (n / 2)) = 0
    rw [if_pos h]
  simp [this, Nat.mod_one]

theorem toDouble_le {n : Nat} (h : n < 2 ^ 64) : toDouble n ≤ 2 ^ 64 := by
  unfold toDouble
  have he := dropBits_le 11 n
  have hq := dropBits_div 11 n (by simpa using h)
  simp only []
  have hp : (2 : Nat) ^ 53 * 2 ^ dropBits 11 n ≤ 2 ^ 64 := by
    rw [← pow_add]; exact Nat.pow_le_pow_right (by norm_num) (by omega)
  split
  · calc n / 2 ^ dropBits 11 n * 2 ^ dropBits 11 n
        ≤ 2 ^ 53 * 2 ^ dropBits 11 n := Nat.mul_le_mul_right _ (Nat.le_of_lt hq)
      _ ≤ 2 ^ 64 := hp
  · calc (n / 2 ^ dropBits 11 n + 1) * 2 ^ dropBits 11 n
        ≤ 2 ^ 53 * 2 ^ dropBits 11 n := Nat.mul_le_mul_right _ hq
      _ ≤ 2 ^ 64 := hp

/-- The geometry of a new array when the `int` product does not overflow. -/
theorem newArray_geometry (K : Decls) (hK : K.ok) (B L : Nat) (hL : L < 2 ^ 31)
    (hov : preambleBlocks K L * 256 ≤ INT_MAX) :
    (newArray K B L).bits = B ∧
    (newArray K B L).bytes = ceilDiv (toDouble B) 8 ∧
    (newArray K B L).size = ceilDiv (toDouble B) (K.sizeofDTYPE * 8) ∧
    (newArray K B L).preamblebytes = preambleBlocks K L * 256 ∧
    (newArray K B L).preamblesize * K.sizeofDTYPE = preambleBlocks K L * 256 ∧
    (newArray K B L).vector = Ptr.null ∧ (newArray K B L).filename = none ∧
    (newArray K B L).fd = 0 ∧
    K.MBAMAGICSIZE + 12 + L ≤ preambleBlocks K L * 256 ∧
    preambleBlocks K L * 256 < K.MBAMAGICSIZE + 12 + L + 256 := by
  have hM := hK.2.2
  have hpb : (K.MBAMAGICSIZE + 8 + 4 + L) % SIZE_MOD = K.MBAMAGICSIZE + 12 + L := by
    unfold SIZE_MOD; rw [Nat.mod_eq_of_lt (by omega)]
  have hbl : preambleBlocks K L = (K.MBAMAGICSIZE + 12 + L + 255) / 256 := by
    unfold preambleBlocks
    rw [hpb, toDouble_small (by omega)]
    rfl
  have hi : intToSizeT (preambleBlocks K L * 256) = preambleBlocks K L * 256 := by
    unfold intToSizeT INT_MAX at *
    have : preambleBlocks K L * 256 % 2 ^ 32 = preambleBlocks K L * 256 :=
      Nat.mod_eq_of_lt (by omega)
    rw [this, if_pos (by omega)]
  have hdiv : preambleBlocks K L * 256 / K.sizeofDTYPE * K.sizeofDTYPE = preambleBlocks K L * 256 := by
    apply Nat.div_mul_cancel
    rcases hK.1 with h | h | h | h <;> rw [h] <;> omega
  refine ⟨rfl, rfl, rfl, ?_, ?_, rfl, rfl, rfl, ?_, ?_⟩
  · show intToSizeT (preambleBlocks K L * 256) / K.sizeofDTYPE * K.sizeofDTYPE % SIZE_MOD = _
    rw [hi, hdiv]; unfold SIZE_MOD INT_MAX at *; exact Nat.mod_eq_of_lt (by omega)
  · show intToSizeT (preambleBlocks K L * 256) / K.sizeofDTYPE * K.sizeofDTYPE = _
    rw [hi, hdiv]
  · rw [hbl]; omega
  · rw [hbl]; omega

theorem newArray_mmap_size (K : Decls) (hK : K.ok) (B L : Nat) (hB : B < 2 ^ 64) (hL : L < 2 ^ 31)
    (hov : preambleBlocks K L * 256 ≤ INT_MAX) :
    _mmap_size (newArray K B L) = (newArray K B L).bytes + (newArray K B L).preamblebytes ∧
    (newArray K B L).bytes + (newArray K B L).preamblebytes < 2 ^ 63 := by
  obtain ⟨_, hb, _, hp, _⟩ := newArray_geometry K hK B L hL hov
  have := toDouble_le hB
  have h1 : (newArray K B L).bytes ≤ 2 ^ 61 := by
    rw [hb]; unfold ceilDiv; omega
  unfold INT_MAX at hov
  constructor
  · unfold _mmap_size SIZE_MOD
    exact Nat.mod_eq_of_lt (by omega)
  · omega

theorem create_anon_eq (K : Decls) (w : World) (B : Nat) (H : List Nat) (L : Nat) :
    mbarray_Create K w B H L none =
      if w.memLimit < _mmap_size (newArray K B L) then
        ({ w with errno := ENOMEM, handles := w.handles + 1 - 1,
                  undef := w.undef || decide (INT_MAX < preambleBlocks K L * 256) }, none)
      else
        ({ w with errno := 0, handles := w.handles + 1,
                  undef := w.undef || decide (INT_MAX < preambleBlocks K L * 256),
                  heap := Function.update w.heap w.nextHeap
                    (some (stamp K B H L (List.replicate (_mmap_size (newArray K B L)) 0))),
                  nextHeap := w.nextHeap + 1 },
          some { newArray K B L with vector := Ptr.heap w.nextHeap }) := by
  unfold mbarray_Create _mmap_create_mbarray
  simp only [ne_eq, not_true_eq_false, if_false]
  unfold _mmap_init_malloc sys_calloc
  by_cases h : w.memLimit < _mmap_size (newArray K B L)
  · simp only [h, if_true]
    rw [destroy_null _ _ rfl]
    simp [ENOMEM]
  · simp only [h, if_false]
    simp [_initialize_memory, World.load, World.store]
    rfl

/-- Decoding the preamble of any buffer that starts with the encoded preamble. -/
theorem preamble_decode (K : Decls) (B : Nat) (H : List Nat) (v : List Nat)
    (hv : ∀ k, k < K.MBAMAGICSIZE + 12 + H.length → byteAt v k = byteAt (preambleBytes K B H) k) :
    leValue v K.MBAMAGICSIZE 8 = B % 2 ^ 64 ∧
    leValue v (K.MBAMAGICSIZE + 8) 4 = H.length % 2 ^ 32 ∧
    (∀ j, j < H.length → byteAt v (K.MBAMAGICSIZE + 12 + j) = byteAt H j) ∧
    (∀ k, k < K.MBAMAGICSIZE → byteAt v k = byteAt K.MBAMAGIC k) := by
  refine ⟨?_, ?_, ?_, ?_⟩
  · rw [leValue_leBytes 8 B v]
    · norm_num
    · intro k hk
      rw [hv _ (by omega), byteAt_preambleBytes, if_neg (by omega), if_pos (by omega)]
      congr 1; omega
  · rw [leValue_leBytes 4 H.length v]
    · norm_num
    · intro k hk
      rw [hv _ (by omega), byteAt_preambleBytes, if_neg (by omega), if_neg (by omega),
        if_pos (by omega)]
      congr 1; omega
  · intro j hj
    rw [hv _ (by omega), byteAt_preambleBytes, if_neg (by omega), if_neg (by omega),
      if_neg (by omega)]
    congr 1; omega
  · intro k hk
    rw [hv _ (by omega), byteAt_preambleBytes, if_pos hk]

theorem byteAt_length_ext {H1 H2 : List Nat} (hl : H1.length = H2.length)
    (h : ∀ j, j < H1.length → byteAt H1 j = byteAt H2 j) : H1 = H2 :=
  list_ext_byteAt hl h

/-- Two fresh layouts agree on their preambles exactly when they encode the same bit count
and the same header. -/
theorem layout_prefix_eq_iff (K : Decls) (B1 B2 : Nat) (H1 H2 : List Nat) (t1 t2 n : Nat)
    (hB1 : B1 < 2 ^ 64) (hB2 : B2 < 2 ^ 64) (hL1 : H1.length < 2 ^ 31) (hL2 : H2.length < 2 ^ 31)
    (h1 : K.MBAMAGICSIZE + 12 + H1.length ≤ n) (h2 : K.MBAMAGICSIZE + 12 + H2.length ≤ n) :
    (∀ k, k < n → byteAt (layout K B1 H1 t1) k = byteAt (layout K B2 H2 t2) k) ↔
      (B1 = B2 ∧ H1 = H2) := by
  constructor
  · intro h
    obtain ⟨a1, a2, a3, _⟩ := preamble_decode K B1 H1 (layout K B1 H1 t1)
      (fun k _ => byteAt_layout K B1 H1 t1 k)
    obtain ⟨b1, b2, b3, _⟩ := preamble_decode K B2 H2 (layout K B2 H2 t2)
      (fun k _ => byteAt_layout K B2 H2 t2 k)
    have e1 : leValue (layout K B1 H1 t1) K.MBAMAGICSIZE 8
        = leValue (layout K B2 H2 t2) K.MBAMAGICSIZE 8 :=
      leValue_congr 8 _ (fun j hj => h _ (by omega))
    have e2 : leValue (layout K B1 H1 t1) (K.MBAMAGICSIZE + 8) 4
        = leValue (layout K B2 H2 t2) (K.MBAMAGICSIZE + 8) 4 :=
      leValue_congr 4 _ (fun j hj => h _ (by omega))
    rw [a1, b1, Nat.mod_eq_of_lt hB1, Nat.mod_eq_of_lt hB2] at e1
    rw [a2, b2, Nat.mod_eq_of_lt (by omega), Nat.mod_eq_of_lt (by omega)] at e2
    refine ⟨e1, list_ext_byteAt e2 ?_⟩
    intro j hj
    rw [← a3 j hj, ← b3 j (by omega), h _ (by omega)]
  · rintro ⟨rfl, rfl⟩ k _
    rw [byteAt_layout, byteAt_layout]

theorem create_anon_some (K : Decls) (hK : K.ok) (w w1 : World) (B : Nat) (H : List Nat)
    (h : MBArray) (hB : B < 2 ^ 64) (hL : H.length < 2 ^ 31)
    (hc : mbarray_Create K w B H H.length none = (w1, some h)) (hu : w1.undef = false) :
    w.undef = false ∧ preambleBlocks K H.length * 256 ≤ INT_MAX ∧
    h = { newArray K B H.length with vector := Ptr.heap w.nextHeap } ∧
    w1.nextHeap = w.nextHeap + 1 ∧
    w1.heap = Function.update w.heap w.nextHeap
      (some (layout K B H (h.preamblebytes + h.bytes))) ∧
    w1.files = w.files ∧ w1.errno = 0 ∧
    h.preamblebytes + h.bytes ≤ w.memLimit := by
  rw [create_anon_eq] at hc
  by_cases hm : w.memLimit < _mmap_size (newArray K B H.length)
  · rw [if_pos hm] at hc
    simp at hc
  · rw [if_neg hm] at hc
    simp only [Prod.mk.injEq, Option.some.injEq] at hc
    obtain ⟨hw, hh⟩ := hc
    subst hw hh
    simp only [Bool.or_eq_false_iff, decide_eq_false_iff_not, not_lt] at hu
    obtain ⟨hu1, hov⟩ := hu
    obtain ⟨g1, g2, g3, g4, g5, g6, g7, g8, g9, g10⟩ := newArray_geometry K hK B H.length hL hov
    obtain ⟨s1, s2⟩ := newArray_mmap_size K hK B H.length hB hL hov
    refine ⟨hu1, hov, rfl, rfl, ?_, rfl, rfl, ?_⟩
    · show Function.update w.heap w.nextHeap _ = _
      rw [stamp_zero K B H _ (by rw [s1, g4]; omega), s1, Nat.add_comm]
    · show (newArray K B H.length).preamblebytes + (newArray K B H.length).bytes ≤ _
      rw [s1] at hm; omega

theorem byteAt_writeAt (c : List Nat) (off : Nat) (data : List Nat) (k : Nat) :
    byteAt (writeAt c off data) k =
      if off ≤ k ∧ k < off + data.length then byteAt data (k - off) else byteAt c k := by
  unfold writeAt
  rw [byteAt_build]
  by_cases hk : k < max c.length (if data.length = 0 then 0 else off + data.length)
  · rw [if_pos hk]
  · rw [if_neg hk]
    have h1 : c.length ≤ k := by
      have := Nat.le_max_left c.length (if data.length = 0 then 0 else off + data.length); omega
    have h2 : ¬ (off ≤ k ∧ k < off + data.length) := by
      intro ⟨_, hlt⟩
      have hne : data.length ≠ 0 := by omega
      have := Nat.le_max_right c.length (if data.length = 0 then 0 else off + data.length)
      rw [if_neg hne] at this hk
      omega
    rw [if_neg h2, byteAt_of_le h1]

theorem writeAt_length (c : List Nat) (off : Nat) (data : List Nat) :
    (writeAt c off data).length = max c.length (if data.length = 0 then 0 else off + data.length) :=
  build_length _ _

theorem headerLen_st (K : Decls) (w : World) (path : String) (c : List Nat) (fd : Nat)
    (r wr : Bool) (off e : Nat) (a : MBArray) (ha : a.fd = (fd : Int)) :
    mbarray_HeaderLen K (st w path c fd r wr off e) a =
      if r = true then
        (st w path c fd r wr off 0,
          if (((c.drop (K.MBAMAGICSIZE + 8)).take 4).length : Int) ≠ 4 then -1
          else toInt32 (leValue ((c.drop (K.MBAMAGICSIZE + 8)).take 4) 0 4))
      else (st w path c fd r wr off EBADF, -1) := by
  unfold mbarray_HeaderLen
  rw [ha, st_errno, pread_st]
  by_cases hr : r = true
  · simp only [hr, if_true]
    split <;> rfl
  · simp only [hr]
    rfl

theorem get_num_bits_st (K : Decls) (w : World) (path : String) (c : List Nat) (fd : Nat)
    (r wr : Bool) (off e : Nat) :
    _get_num_bits K (st w path c fd r wr off e) (fd : Int) =
      if r = true then
        (st w path c fd r wr off 0,
          if (((c.drop K.MBAMAGICSIZE).take 8).length : Int) ≠ 8 then 0
          else leValue ((c.drop K.MBAMAGICSIZE).take 8) 0 8)
      else (st w path c fd r wr off EBADF, 0) := by
  unfold _get_num_bits
  rw [st_errno, pread_st]
  by_cases hr : r = true
  · simp only [hr, if_true]
    split <;> rfl
  · simp only [hr]
    rfl

theorem filesize_st (w : World) (path : String) (c : List Nat) (fd : Nat)
    (r wr : Bool) (off : Nat) :
    _filesize (st w path c fd r wr off 0) (fd : Int) = (st w path c fd r wr off 0, c.length) := by
  unfold _filesize
  rw [fstat_st]
  simp [st_errno_val]

theorem valid_magic_st (K : Decls) (w : World) (path : String) (c : List Nat) (fd : Nat)
    (r wr : Bool) (off e : Nat) :
    _valid_magic K (st w path c fd r wr off e) (fd : Int) =
      if r = true then
        (st w path c fd r wr off e,
          if e ≠ 0 ∨ ((c.take K.MBAMAGICSIZE).length : Int) ≠ (K.MBAMAGICSIZE : Int) ∨
              strncmp K.MBAMAGIC (c.take K.MBAMAGICSIZE) K.MBAMAGICSIZE ≠ 0 then 0 else 1)
      else (st w path c fd r wr off EBADF, 0) := by
  unfold _valid_magic
  rw [pread_st]
  by_cases hr : r = true
  · simp only [hr, if_true, List.drop_zero, st_errno_val]
    split <;> rfl
  · simp only [hr]
    simp [st_errno_val, EBADF]

theorem create_file_eq (K : Decls) (w : World) (B : Nat) (H : List Nat) (L : Nat) (fs : FileSpec) :
    mbarray_Create K w B H L (some fs) =
      _mmap_init_mmap K (startWorld K w L) H L fs (newArray K B L) := by
  unfold mbarray_Create _mmap_create_mbarray startWorld
  simp

/-- The content of an empty file after the writes of `_initialize_file`. -/
theorem init_content (K : Decls) (B : Nat) (H : List Nat) (endpos : Nat)
    (h : K.MBAMAGICSIZE + 12 + H.length ≤ endpos) :
    writeAt (writeAt (writeAt (writeAt (writeAt [] 0 K.MBAMAGIC) K.MBAMAGICSIZE (leBytes B 8))
      (K.MBAMAGICSIZE + 8) (leBytes H.length 4)) (K.MBAMAGICSIZE + 8 + 4) H) endpos [0]
      = layout K B H (endpos + 1) := by
  have hM : K.MBAMAGIC.length = K.MBAMAGICSIZE := rfl
  apply list_ext_byteAt
  · rw [layout_length K B H _ (by omega)]
    simp only [writeAt_length, leBytes_length, List.length_nil, List.length_singleton, hM]
    simp only [show (1 : Nat) ≠ 0 by omega, show (8 : Nat) ≠ 0 by omega,
      show (4 : Nat) ≠ 0 by omega, if_false]
    split <;> split <;> omega
  intro k _
  rw [byteAt_layout, byteAt_preambleBytes]
  simp only [byteAt_writeAt, leBytes_length, List.length_singleton, hM, Nat.zero_le, true_and]
  by_cases h0 : endpos ≤ k ∧ k < endpos + 1
  · rw [if_pos h0]
    have e0 : k - endpos = 0 := by omega
    have n1 : ¬ k < K.MBAMAGICSIZE := by omega
    have n2 : ¬ k < K.MBAMAGICSIZE + 8 := by omega
    have n3 : ¬ k < K.MBAMAGICSIZE + 12 := by omega
    rw [e0, if_neg n1, if_neg n2, if_neg n3,
      byteAt_of_le (show H.length ≤ k - (K.MBAMAGICSIZE + 12) by omega)]
    rfl
  · rw [if_neg h0]
    by_cases h1 : k < K.MBAMAGICSIZE
    · simp [h1, show ¬ (K.MBAMAGICSIZE + 8 + 4 ≤ k) by omega,
        show ¬ (K.MBAMAGICSIZE + 8 ≤ k) by omega, show ¬ (K.MBAMAGICSIZE ≤ k) by omega]
    · by_cases h2 : k < K.MBAMAGICSIZE + 8
      · simp [h1, h2, show ¬ (K.MBAMAGICSIZE + 8 + 4 ≤ k) by omega,
          show ¬ (K.MBAMAGICSIZE + 8 ≤ k) by omega, show (K.MBAMAGICSIZE ≤ k) by omega]
      · by_cases h3 : k < K.MBAMAGICSIZE + 12
        · simp [h1, h2, h3, show ¬ (K.MBAMAGICSIZE + 8 + 4 ≤ k) by omega,
            show (K.MBAMAGICSIZE + 8 ≤ k) by omega, show k < K.MBAMAGICSIZE + 8 + 4 by omega]
        · by_cases h4 : k < K.MBAMAGICSIZE + 12 + H.length
          · simp [h1, h2, h3, show (K.MBAMAGICSIZE + 8 + 4 ≤ k) by omega,
              show k < K.MBAMAGICSIZE + 8 + 4 + H.length by omega]
          · have e1 : byteAt H (k - (K.MBAMAGICSIZE + 12)) = 0 :=
              byteAt_of_le (by omega)
            have e2 : byteAt ([] : List Nat) k = 0 := byteAt_of_le (by simp)
            simp [h1, h2, h3, show ¬ (k < K.MBAMAGICSIZE + 8 + 4 + H.length) by omega,
              show ¬ (k < K.MBAMAGICSIZE + 8 + 4) by omega, show (K.MBAMAGICSIZE ≤ k) by omega,
              e1, e2]

theorem writeAt_empty (c : List Nat) (off : Nat) : writeAt c off [] = c := by
  apply list_ext_byteAt
  · simp [writeAt_length]
  · intro k _
    rw [byteAt_writeAt, if_neg (by simp)]

/-- `_initialize_file` on a writable descriptor at an empty file that may grow to
`endpos + 1` bytes returns 0 and leaves the fresh layout in the file. -/
theorem init_file_ok (K : Decls) (w : World) (path : String) (fd : Nat) (r : Bool)
    (off e : Nat) (endpos B : Nat) (H : List Nat)
    (hend : K.MBAMAGICSIZE + 12 + H.length ≤ endpos)
    (h2 : endpos < 2 ^ 63) (h3 : endpos + 1 ≤ w.fileLimit) :
    _initialize_file K (st w path [] fd r true off e) (fd : Int) endpos B H H.length =
      (st w path (layout K B H (endpos + 1)) fd r true (endpos + 1) 0, 0) := by
  have hM : K.MBAMAGIC.length = K.MBAMAGICSIZE := rfl
  have l1 : (w.fileLimit < K.MBAMAGICSIZE) = False := eq_false (by omega)
  have l2 : (w.fileLimit < K.MBAMAGICSIZE + 8) = False := eq_false (by omega)
  have l3 : (w.fileLimit < K.MBAMAGICSIZE + 8 + 4) = False := eq_false (by omega)
  have l4 : (w.fileLimit < K.MBAMAGICSIZE + 8 + 4 + H.length) = False := eq_false (by omega)
  have l5 : (w.fileLimit < endpos + 1) = False := eq_false (by omega)
  unfold _initialize_file
  by_cases hL : H.length = 0
  · have hH : H = [] := List.eq_nil_of_length_eq_zero hL
    subst hH
    have := init_content K B [] endpos hend
    rw [writeAt_empty] at this
    simp only [List.length_nil] at this
    simp only [st_errno, lseek_st, write_st, if_true, leBytes_length, hM, List.length_singleton,
      show (0 : Nat) < 2 ^ 63 by norm_num, Nat.zero_add, List.take_length, l1, l2, l3, l5,
      if_false, ne_eq, not_true_eq_false, Nat.cast_ofNat, List.length_nil, h2, Nat.cast_one,
      st_errno_val, this]
  · simp only [st_errno, lseek_st, write_st, if_true, leBytes_length, hM, List.length_singleton,
      show (0 : Nat) < 2 ^ 63 by norm_num, Nat.zero_add, List.take_length, l1, l2, l3, l4, l5,
      if_false, ne_eq, not_true_eq_false, Nat.cast_ofNat, h2, Nat.cast_one, hL,
      not_false_eq_true, st_errno_val, init_content K B H endpos hend]

theorem write_st_fail (w : World) (path : String) (c : List Nat) (fd : Nat) (r : Bool)
    (off e : Nat) (data : List Nat) (h : w.fileLimit < off + data.length) :
    sys_write (st w path c fd r true off e) (fd : Int) data = (st w path c fd r true off EFBIG, -1) := by
  rw [write_st]; simp [h]

theorem write_st_ok (w : World) (path : String) (c : List Nat) (fd : Nat) (r : Bool)
    (off e : Nat) (data : List Nat) (h : ¬ w.fileLimit < off + data.length) :
    sys_write (st w path c fd r true off e) (fd : Int) data =
      (st w path (writeAt c off data) fd r true (off + data.length) e, (data.length : Int)) := by
  rw [write_st]; simp [h]

theorem write_st_ro (w : World) (path : String) (c : List Nat) (fd : Nat) (r : Bool)
    (off e : Nat) (data : List Nat) :
    sys_write (st w path c fd r false off e) (fd : Int) data = (st w path c fd r false off EBADF, -1) := by
  rw [write_st]; simp

/-- When `_initialize_file` returns 0 the descriptor was writable, the end position a
valid offset, and the file was allowed to grow to `endpos + 1` bytes. -/
theorem init_file_zero (K : Decls) (w : World) (path : String) (fd : Nat) (r wr : Bool)
    (off e : Nat) (endpos B : Nat) (H : List Nat) (c : List Nat)
    (h : (_initialize_file K (st w path c fd r wr off e) (fd : Int) endpos B H H.length).2 = 0) :
    wr = true ∧ endpos < 2 ^ 63 ∧ endpos + 1 ≤ w.fileLimit := by
  have hM : K.MBAMAGIC.length = K.MBAMAGICSIZE := rfl
  have hneg : ∀ n : Nat, ((-1 : Int) = (n : Int)) = False := fun n => eq_false (by omega)
  unfold _initialize_file at h
  simp only [st_errno, lseek_st, show (0 : Nat) < 2 ^ 63 by norm_num, if_true] at h
  cases wr with
  | false =>
    rw [write_st_ro] at h
    simp only [ne_eq, hneg, not_false_eq_true, if_true] at h
    exact absurd h (by decide)
  | true =>
    by_cases c1 : w.fileLimit < 0 + K.MBAMAGIC.length
    · rw [write_st_fail _ _ _ _ _ _ _ _ c1] at h
      simp only [ne_eq, hneg, not_false_eq_true, if_true] at h
      exact absurd h (by decide)
    rw [write_st_ok _ _ _ _ _ _ _ _ c1] at h
    simp only [ne_eq, hM, not_true_eq_false, if_false] at h
    by_cases c2 : w.fileLimit < 0 + K.MBAMAGICSIZE + (leBytes B 8).length
    · rw [write_st_fail _ _ _ _ _ _ _ _ c2] at h
      simp at h
    rw [write_st_ok _ _ _ _ _ _ _ _ c2] at h
    simp only [leBytes_length, Nat.cast_ofNat, ne_eq, not_true_eq_false, if_false] at h
    by_cases c3 : w.fileLimit < 0 + K.MBAMAGICSIZE + 8 + (leBytes H.length 4).length
    · rw [write_st_fail _ _ _ _ _ _ _ _ c3] at h
      simp at h
    rw [write_st_ok _ _ _ _ _ _ _ _ c3] at h
    simp only [leBytes_length, Nat.cast_ofNat, ne_eq, not_true_eq_false, if_false] at h
    by_cases hL : H.length = 0
    · simp only [hL, not_true_eq_false, if_false, Nat.cast_zero] at h
      rw [lseek_st] at h
      by_cases c5 : endpos < 2 ^ 63
      · simp only [c5, if_true] at h
        by_cases c6 : w.fileLimit < endpos + [0].length
        · rw [write_st_fail _ _ _ _ _ _ _ _ c6] at h
          simp at h
        · simp only [List.length_singleton] at c6
          exact ⟨rfl, c5, by omega⟩
      · simp only [c5, if_false] at h
        by_cases c6 : w.fileLimit < 0 + K.MBAMAGICSIZE + 8 + 4 + [0].length
        · rw [write_st_fail _ _ _ _ _ _ _ _ c6] at h
          simp at h
        · rw [write_st_ok _ _ _ _ _ _ _ _ c6] at h
          simp [st_errno_val, EINVAL] at h
    · simp only [hL, not_false_eq_true, if_true, List.take_length] at h
      by_cases c4 : w.fileLimit < 0 + K.MBAMAGICSIZE + 8 + 4 + H.length
      · rw [write_st_fail _ _ _ _ _ _ _ _ c4] at h
        simp only [ne_eq, hneg, not_false_eq_true, if_true] at h
        exact absurd h (by decide)
      rw [write_st_ok _ _ _ _ _ _ _ _ c4] at h
      simp only [ne_eq, not_true_eq_false, if_false] at h
      rw [lseek_st] at h
      by_cases c5 : endpos < 2 ^ 63
      · simp only [c5, if_true] at h
        by_cases c6 : w.fileLimit < endpos + [0].length
        · rw [write_st_fail _ _ _ _ _ _ _ _ c6] at h
          simp at h
        · simp only [List.length_singleton] at c6
          exact ⟨rfl, c5, by omega⟩
      · simp only [c5, if_false] at h
        by_cases c6 : w.fileLimit < 0 + K.MBAMAGICSIZE + 8 + 4 + H.length + [0].length
        · rw [write_st_fail _ _ _ _ _ _ _ _ c6] at h
          simp at h
        · rw [write_st_ok _ _ _ _ _ _ _ _ c6] at h
          simp [st_errno_val, EINVAL] at h

theorem open_fresh (w : World) {path : String} {fl : OFlags}
    (hfile : w.files path = some [] ∨ (w.files path = none ∧ fl.creat = true)) :
    sys_open w path fl = (st w path [] w.nextFd (decide (fl.accmode ≠ AccMode.wronly))
      (decide (fl.accmode ≠ AccMode.rdonly)) 0 w.errno, (w.nextFd : Int)) := by
  rcases hfile with h | ⟨h, hc⟩
  · exact open_existing w h fl
  · exact open_absent_creat w h fl hc

/-- `_mmap_init_mmap` on an empty (or absent and created) file, reduced to its branch for
a file of size zero. -/
theorem init_mmap_fresh_eq (K : Decls) (w : World) (path : String) (fl : OFlags) (perms : Nat)
    (H : List Nat) (L : Nat) (a : MBArray)
    (hfile : w.files path = some [] ∨ (w.files path = none ∧ fl.creat = true)) :
    _mmap_init_mmap K w H L ⟨path, fl, perms⟩ a =
      if ¬ fl.creat = true ∨ a.bits = 0 then
        (mbarray_Destroy (st w path [] w.nextFd (decide (fl.accmode ≠ AccMode.wronly))
          (decide (fl.accmode ≠ AccMode.rdonly)) 0 ENOENT) (some { a with fd := (w.nextFd : Int) }),
          none)
      else
        if (_initialize_file K (st w path [] w.nextFd (decide (fl.accmode ≠ AccMode.wronly))
            (decide (fl.accmode ≠ AccMode.rdonly)) 0 0) (w.nextFd : Int)
            ((a.bytes + a.preamblebytes + SIZE_MOD - 1) % SIZE_MOD) a.bits H L).2 ≠ 0 then
          (mbarray_Destroy
            (if (_initialize_file K (st w path [] w.nextFd (decide (fl.accmode ≠ AccMode.wronly))
                (decide (fl.accmode ≠ AccMode.rdonly)) 0 0) (w.nextFd : Int)
                ((a.bytes + a.preamblebytes + SIZE_MOD - 1) % SIZE_MOD) a.bits H L).1.errno = 0
             then { (_initialize_file K (st w path [] w.nextFd (decide (fl.accmode ≠ AccMode.wronly))
                (decide (fl.accmode ≠ AccMode.rdonly)) 0 0) (w.nextFd : Int)
                ((a.bytes + a.preamblebytes + SIZE_MOD - 1) % SIZE_MOD) a.bits H L).1
                with errno := ENOENT }
             else (_initialize_file K (st w path [] w.nextFd (decide (fl.accmode ≠ AccMode.wronly))
                (decide (fl.accmode ≠ AccMode.rdonly)) 0 0) (w.nextFd : Int)
                ((a.bytes + a.preamblebytes + SIZE_MOD - 1) % SIZE_MOD) a.bits H L).1)
            (some { a with fd := (w.nextFd : Int) }), none)
        else
          _mmap_init_mmap_map
            (_initialize_file K (st w path [] w.nextFd (decide (fl.accmode ≠ AccMode.wronly))
              (decide (fl.accmode ≠ AccMode.rdonly)) 0 0) (w.nextFd : Int)
              ((a.bytes + a.preamblebytes + SIZE_MOD - 1) % SIZE_MOD) a.bits H L).1
            ⟨path, fl, perms⟩ { a with fd := (w.nextFd : Int) } := by
  unfold _mmap_init_mmap _mmap_init_mmap_size _mmap_init_mmap_check
  simp only [open_fresh w hfile]
  have hfd : ¬ ((w.nextFd : Int) < 0) := by omega
  simp only [hfd, if_false]
  rw [headerLen_st K w path [] w.nextFd _ _ 0 w.errno _ rfl]
  obtain ⟨acc, creat⟩ := fl
  cases acc <;>
    simp [st_errno, st_errno_val, filesize_st, List.drop_nil, List.take_nil, List.length_nil]

theorem mmap_map_ok (w : World) (path : String) (c : List Nat) (fd : Nat) (off e : Nat)
    (fs : FileSpec) (a : MBArray) (ha : a.fd = (fd : Int))
    (h0 : _mmap_size a ≠ 0) (hm : _mmap_size a ≤ w.memLimit) :
    _mmap_init_mmap_map (st w path c fd true true off e) fs a =
      (st w path c fd true true off 0,
        some { a with vector := Ptr.mapped path, filename := some fs.filename }) := by
  unfold _mmap_init_mmap_map
  rw [ha, st_errno, mmap_st]
  simp [h0, Nat.not_lt.2 hm, st_errno_val]

theorem mmap_map_some (w : World) (path : String) (c : List Nat) (fd : Nat) (r wr : Bool)
    (off e : Nat) (fs : FileSpec) (a h : MBArray) (ha : a.fd = (fd : Int))
    (hs : (_mmap_init_mmap_map (st w path c fd r wr off e) fs a).2 = some h) :
    r = true ∧ wr = true ∧ _mmap_size a ≠ 0 ∧ _mmap_size a ≤ w.memLimit := by
  unfold _mmap_init_mmap_map at hs
  rw [ha, st_errno, mmap_st] at hs
  by_cases h1 : r = true ∧ wr = true
  · by_cases h2 : _mmap_size a = 0
    · simp [h1, h2, st_errno_val, EINVAL] at hs
    · by_cases h3 : w.memLimit < _mmap_size a
      · simp [h1, h2, h3, st_errno_val, ENOMEM] at hs
      · exact ⟨h1.1, h1.2, h2, Nat.not_lt.1 h3⟩
  · simp [h1, st_errno_val, EACCES] at hs

theorem dropBits_pos (f n : Nat) (h : dropBits f n ≠ 0) : 2 ^ 53 ≤ n := by
  cases f with
  | zero => simp [dropBits] at h
  | succ f =>
    simp only [dropBits] at h
    by_contra hlt
    rw [if_pos (by omega)] at h
    exact h rfl

theorem toDouble_pos {n : Nat} (h : 0 < n) : 0 < toDouble n := by
  unfold toDouble
  simp only []
  split
  · by_cases he : dropBits 11 n = 0
    · rw [he]; simp; exact h
    · have h1 := dropBits_pos 11 n he
      have h2 := dropBits_le 11 n
      have h3 : 2 ^ dropBits 11 n ≤ n := by
        calc 2 ^ dropBits 11 n ≤ 2 ^ 11 := Nat.pow_le_pow_right (by norm_num) h2
          _ ≤ 2 ^ 53 := by norm_num
          _ ≤ n := h1
      have h4 : 0 < n / 2 ^ dropBits 11 n := Nat.div_pos h3 (Nat.pos_pow_of_pos _ (by norm_num))
      exact Nat.mul_pos h4 (Nat.pos_pow_of_pos _ (by norm_num))
  · exact Nat.mul_pos (Nat.succ_pos _) (Nat.pos_pow_of_pos _ (by norm_num))

theorem newArray_bytes_pos (K : Decls) {B : Nat} (L : Nat) (h : B ≠ 0) :
    0 < (newArray K B L).bytes := by
  show 0 < ceilDiv (toDouble B) 8
  have := toDouble_pos (Nat.pos_of_ne_zero h)
  unfold ceilDiv; omega

/-- File-backed `mbarray_Create` on an empty file, or on an absent one with `O_CREAT`:
it returns a handle exactly when the flags are create and read-write, the bit count is
not zero and the host allows a file and a mapping of the array's size; the file then
holds the fresh layout. -/
theorem create_fresh (K : Decls) (hK : K.ok) (w : World) (path : String) (fl : OFlags)
    (perms : Nat) (B : Nat) (H : List Nat) (hB : B < 2 ^ 64) (hL : H.length < 2 ^ 31)
    (hov : preambleBlocks K H.length * 256 ≤ INT_MAX)
    (hfile : w.files path = some [] ∨ (w.files path = none ∧ fl.creat = true)) :
    ((fl.creat = true ∧ B ≠ 0 ∧ fl.accmode = AccMode.rdwr ∧
        (newArray K B H.length).preamblebytes + (newArray K B H.length).bytes ≤ w.fileLimit ∧
        (newArray K B H.length).preamblebytes + (newArray K B H.length).bytes ≤ w.memLimit) →
      mbarray_Create K w B H H.length (some ⟨path, fl, perms⟩) =
        (st { w with errno := 0, handles := w.handles + 1 } path
            (layout K B H ((newArray K B H.length).preamblebytes + (newArray K B H.length).bytes))
            w.nextFd true true
            ((newArray K B H.length).preamblebytes + (newArray K B H.length).bytes) 0,
          some { newArray K B H.length with
            fd := (w.nextFd : Int), vector := Ptr.mapped path, filename := some path })) ∧
    (∀ h, (mbarray_Create K w B H H.length (some ⟨path, fl, perms⟩)).2 = some h →
      fl.creat = true ∧ B ≠ 0 ∧ fl.accmode = AccMode.rdwr ∧
        (newArray K B H.length).preamblebytes + (newArray K B H.length).bytes ≤ w.fileLimit ∧
        (newArray K B H.length).preamblebytes + (newArray K B H.length).bytes ≤ w.memLimit) := by
  obtain ⟨g1, g2, g3, g4, g5, g6, g7, g8, g9, g10⟩ := newArray_geometry K hK B H.length hL hov
  obtain ⟨s1, s2⟩ := newArray_mmap_size K hK B H.length hB hL hov
  have hovf : decide (INT_MAX < preambleBlocks K H.length * 256) = false := by
    simp; omega
  have hend : ∀ (hB0 : B ≠ 0), ((newArray K B H.length).bytes + (newArray K B H.length).preamblebytes
      + SIZE_MOD - 1) % SIZE_MOD
      = (newArray K B H.length).preamblebytes + (newArray K B H.length).bytes - 1 := by
    intro hB0
    have := newArray_bytes_pos K H.length hB0
    unfold SIZE_MOD
    omega
  have hsw : startWorld K w H.length = { w with errno := 0, handles := w.handles + 1 } := by
    unfold startWorld; rw [hovf]; simp
  rw [create_file_eq, hsw]
  rw [init_mmap_fresh_eq K { w with errno := 0, handles := w.handles + 1 } path fl perms H
    H.length _ hfile]
  simp only [g1]
  constructor
  · rintro ⟨hc, hB0, hacc, hfl, hml⟩
    have hbp := newArray_bytes_pos K H.length hB0
    rw [if_neg (by simp [hc, hB0]), hend hB0, hacc]
    simp only [ne_eq, decide_True, not_false_eq_true, reduceCtorEq]
    rw [init_file_ok K _ path w.nextFd true 0 0 _ B H (by rw [g4]; omega) (by omega)
      (by show _ ≤ w.fileLimit; omega)]
    simp only [not_true_eq_false, if_false]
    have e1 : (newArray K B H.length).preamblebytes + (newArray K B H.length).bytes - 1 + 1
        = (newArray K B H.length).preamblebytes + (newArray K B H.length).bytes := by omega
    have s1' : ((newArray K B H.length).bytes + (newArray K B H.length).preamblebytes) % SIZE_MOD
        = (newArray K B H.length).bytes + (newArray K B H.length).preamblebytes := s1
    rw [e1, mmap_map_ok _ path _ w.nextFd _ _ _ _ rfl]
    · show ((newArray K B H.length).bytes + (newArray K B H.length).preamblebytes) % SIZE_MOD ≠ 0
      rw [s1']; omega
    · show ((newArray K B H.length).bytes + (newArray K B H.length).preamblebytes) % SIZE_MOD
        ≤ w.memLimit
      rw [s1']; omega
  · intro h hs
    by_cases hcb : ¬ fl.creat = true ∨ B = 0
    · rw [if_pos hcb] at hs
      simp at hs
    · rw [if_neg hcb] at hs
      have hc : fl.creat = true := by
        by_contra hn; exact hcb (Or.inl hn)
      have hB0 : B ≠ 0 := fun hn => hcb (Or.inr hn)
      have hbp := newArray_bytes_pos K H.length hB0
      rw [hend hB0] at hs
      by_cases hi : (_initialize_file K (st { w with errno := 0, handles := w.handles + 1 } path []
          w.nextFd (decide (fl.accmode ≠ AccMode.wronly)) (decide (fl.accmode ≠ AccMode.rdonly)) 0 0)
          (w.nextFd : Int)
          ((newArray K B H.length).preamblebytes + (newArray K B H.length).bytes - 1) B H H.length).2 = 0
      · obtain ⟨hwr, h63, hlim⟩ := init_file_zero K _ path w.nextFd _ _ 0 0 _ B H [] hi
        rw [if_neg (by simpa using hi)] at hs
        have hlim' : (newArray K B H.length).preamblebytes + (newArray K B H.length).bytes - 1 + 1
            ≤ w.fileLimit := hlim
        rw [hwr, init_file_ok K _ path w.nextFd _ 0 0 _ B H (by rw [g4]; omega) h63 hlim] at hs
        obtain ⟨hr, _, _, hm⟩ := mmap_map_some _ path _ w.nextFd _ _ _ _ _ _ h rfl hs
        have hm' : _mmap_size (newArray K B H.length) ≤ w.memLimit := hm
        rw [s1] at hm'
        refine ⟨hc, hB0, ?_, by omega, by omega⟩
        cases hacc : fl.accmode <;> simp_all
      · rw [if_pos (by simpa using hi)] at hs
        simp at hs

theorem strncmp_zero (m : List Nat) : ∀ (s : List Nat), (∀ b ∈ m, 0 < b ∧ b < 256) →
    s.length = m.length → strncmp m s m.length = 0 → s = m := by
  induction m with
  | nil => intro s _ hl _; exact List.eq_nil_of_length_eq_zero hl
  | cons b m ih =>
    intro s hm hl h
    cases s with
    | nil => simp at hl
    | cons x s =>
      simp only [List.length_cons, strncmp, byteAt, List.getD_cons_zero, List.tail_cons] at h
      have hb : 0 < b := (hm b (List.mem_cons_self _ _)).1
      by_cases hx : b = x
      · subst hx
        simp only [ne_eq, not_true_eq_false, if_false, Nat.ne_of_gt hb] at h
        rw [ih s (fun c hc => hm c (List.mem_cons_of_mem _ hc)) (by simpa using hl) h]
      · simp [hx] at h

theorem strncmp_self (m : List Nat) : strncmp m m m.length = 0 := by
  induction m with
  | nil => rfl
  | cons b m ih =>
    simp only [List.length_cons, strncmp, byteAt, List.getD_cons_zero, List.tail_cons, ne_eq,
      not_true_eq_false, if_false, ih]
    split <;> rfl

/-- A file whose first `MBAMAGICSIZE` bytes are not the magic bytes fails the test of
`_valid_magic`. -/
theorem bad_magic (K : Decls) (hK : K.ok) (c : List Nat) (h : c.take K.MBAMAGICSIZE ≠ K.MBAMAGIC) :
    ((c.take K.MBAMAGICSIZE).length : Int) ≠ (K.MBAMAGICSIZE : Int) ∨
      strncmp K.MBAMAGIC (c.take K.MBAMAGICSIZE) K.MBAMAGICSIZE ≠ 0 := by
  by_cases hl : (c.take K.MBAMAGICSIZE).length = K.MBAMAGICSIZE
  · right
    intro hz
    exact h (strncmp_zero K.MBAMAGIC _ hK.2.1 hl hz)
  · left
    intro hz
    exact hl (by exact_mod_cast hz)

theorem destroy_errno (w : World) (a : MBArray) (h : a.vector = Ptr.null) :
    (mbarray_Destroy w (some a)).errno = w.errno := by
  rw [destroy_null w a h]

/-- The checks of `_mmap_init_mmap` on a non-empty file with a wrong magic fail with
`EINVAL`, whatever `errno` was. -/
theorem check_bad_magic (K : Decls) (hK : K.ok) (w : World) (path : String) (c : List Nat)
    (fd : Nat) (r wr : Bool) (off e : Nat)
    (hne : c ≠ []) (hlen : c.length < 2 ^ 63) (hbad : c.take K.MBAMAGICSIZE ≠ K.MBAMAGIC)
    (a : MBArray) (ha : a.vector = Ptr.null) (hfd : a.fd = (fd : Int))
    (H : List Nat) (L : Nat) (fs : FileSpec) (nb : Nat) :
    (_mmap_init_mmap_check K (st w path c fd r wr off e) H L fs a nb c.length).2 = none ∧
    (_mmap_init_mmap_check K (st w path c fd r wr off e) H L fs a nb c.length).1.errno = EINVAL := by
  have hbm := bad_magic K hK c hbad
  have hl0 : c.length ≠ 0 := fun h => hne (List.eq_nil_of_length_eq_zero h)
  have hlf : c.length ≠ 0xffffffffffffffff := by omega
  unfold _mmap_init_mmap_check
  rw [if_neg hlf, hfd, valid_magic_st]
  have hm : (if c.length ≠ 0 then
      (if r = true then
        (st w path c fd r wr off e,
          if e ≠ 0 ∨ ((c.take K.MBAMAGICSIZE).length : Int) ≠ (K.MBAMAGICSIZE : Int) ∨
              strncmp K.MBAMAGIC (c.take K.MBAMAGICSIZE) K.MBAMAGICSIZE ≠ 0 then (0 : Int) else 1)
      else (st w path c fd r wr off EBADF, 0))
      else (st w path c fd r wr off e, 1)).2 = 0 := by
    rw [if_pos hl0]
    cases r
    · rfl
    · simp only [if_true]
      rw [if_pos (Or.inr hbm)]
  simp only []
  rw [if_pos ⟨hl0, hm⟩]
  exact ⟨rfl, by rw [destroy_errno _ _ ha]⟩

theorem headerLen_world (K : Decls) (w : World) (path : String) (c : List Nat) (fd : Nat)
    (r wr : Bool) (off e e' : Nat) (a : MBArray) (ha : a.fd = (fd : Int)) :
    ({ (mbarray_HeaderLen K (st w path c fd r wr off e) a).1 with errno := e' } : World)
      = st w path c fd r wr off e' := by
  rw [headerLen_st K w path c fd r wr off e a ha]
  cases r <;> rfl

/-- `_mmap_init_mmap` on a non-empty file with a wrong magic fails with `EINVAL`. -/
theorem init_mmap_bad_magic (K : Decls) (hK : K.ok) (w : World) (path : String) (c : List Nat)
    (hfile : w.files path = some c) (hne : c ≠ []) (hlen : c.length < 2 ^ 63)
    (hbad : c.take K.MBAMAGICSIZE ≠ K.MBAMAGIC)
    (a : MBArray) (ha : a.vector = Ptr.null) (H : List Nat) (L : Nat) (fl : OFlags) (perms : Nat) :
    (_mmap_init_mmap K w H L ⟨path, fl, perms⟩ a).2 = none ∧
    (_mmap_init_mmap K w H L ⟨path, fl, perms⟩ a).1.errno = EINVAL := by
  have hfd : ¬ ((w.nextFd : Int) < 0) := by omega
  unfold _mmap_init_mmap
  simp only [open_existing w hfile, hfd, if_false]
  rw [headerLen_world K w path c w.nextFd _ _ 0 _ 0 _ rfl]
  generalize (mbarray_HeaderLen K _ _).2 = fh
  split
  · refine ⟨rfl, ?_⟩
    rw [destroy_null _ { a with fd := (w.nextFd : Int) } ha]
  · unfold _mmap_init_mmap_size
    simp only [filesize_st, get_num_bits_st]
    split
    · split
      · apply check_bad_magic K hK w path c w.nextFd _ _ 0 0 hne hlen hbad
        · exact ha
        · rfl
      · apply check_bad_magic K hK w path c w.nextFd _ _ 0 EBADF hne hlen hbad
        · exact ha
        · rfl
    · apply check_bad_magic K hK w path c w.nextFd _ _ 0 0 hne hlen hbad
      · exact ha
      · rfl

theorem byteAt_drop_take (c : List Nat) (off n j : Nat) :
    byteAt ((c.drop off).take n) j = if j < n then byteAt c (off + j) else 0 := by
  rw [byteAt_take, byteAt_drop]

theorem leValue_shift {v v' : List Nat} (n : Nat) : ∀ (o1 o2 : Nat),
    (∀ j, j < n → byteAt v (o1 + j) = byteAt v' (o2 + j)) →
    leValue v o1 n = leValue v' o2 n := by
  induction n with
  | zero => intro o1 o2 _; rfl
  | succ n ih =>
    intro o1 o2 h
    simp only [leValue]
    have h0 := h 0 (Nat.succ_pos n)
    rw [Nat.add_zero, Nat.add_zero] at h0
    rw [h0, ih (o1 + 1) (o2 + 1)]
    intro j hj
    have := h (j + 1) (Nat.succ_lt_succ hj)
    simpa [Nat.add_assoc, Nat.add_comm 1 j] using this

theorem leValue_drop_take (c : List Nat) (off n : Nat) :
    leValue ((c.drop off).take n) 0 n = leValue c off n := by
  apply leValue_shift
  intro j hj
  rw [byteAt_drop_take, if_pos (by omega), Nat.zero_add]

theorem drop_take_length (c : List Nat) (off n : Nat) (h : off + n ≤ c.length) :
    ((c.drop off).take n).length = n := by
  simp only [List.length_take, List.length_drop]; omega

/-- What the readers of `_mmap_init_mmap` find in a file that starts with an encoded
preamble. -/
theorem fileOf_reads (K : Decls) (c : List Nat) (B : Nat) (H : List Nat)
    (hc : FileOf K c B H) (hB : B < 2 ^ 64) (hL : H.length < 2 ^ 31) :
    K.MBAMAGICSIZE + 12 + H.length ≤ c.length ∧
    c.take K.MBAMAGICSIZE = K.MBAMAGIC ∧
    leValue ((c.drop K.MBAMAGICSIZE).take 8) 0 8 = B ∧
    toInt32 (leValue ((c.drop (K.MBAMAGICSIZE + 8)).take 4) 0 4) = (H.length : Int) ∧
    (c.drop (K.MBAMAGICSIZE + 8 + 4)).take H.length = H := by
  obtain ⟨data, rfl⟩ := hc
  have hlen : (preambleBytes K B H ++ data).length = K.MBAMAGICSIZE + 12 + H.length + data.length := by
    rw [List.length_append, preambleBytes_length]
  have hv : ∀ k, k < K.MBAMAGICSIZE + 12 + H.length →
      byteAt (preambleBytes K B H ++ data) k = byteAt (preambleBytes K B H) k := by
    intro k hk
    rw [byteAt_append, if_pos (by rw [preambleBytes_length]; exact hk)]
  obtain ⟨d1, d2, d3, d4⟩ := preamble_decode K B H _ hv
  refine ⟨by omega, ?_, ?_, ?_, ?_⟩
  · unfold preambleBytes Decls.MBAMAGICSIZE
    simp [List.append_assoc, List.take_append_eq_append_take]
  · rw [leValue_drop_take, d1, Nat.mod_eq_of_lt hB]
  · rw [leValue_drop_take, d2]
    have : H.length % 2 ^ 32 = H.length := Nat.mod_eq_of_lt (by omega)
    unfold toInt32
    rw [Nat.mod_mod, this, if_pos (by omega)]
  · apply list_ext_byteAt
    · rw [drop_take_length _ _ _ (by omega)]
    · intro j hj
      rw [drop_take_length _ _ _ (by omega)] at hj
      rw [byteAt_drop_take, if_pos hj, ← d3 j hj]

theorem layout_fileOf (K : Decls) (B : Nat) (H : List Nat) (total : Nat) :
    FileOf K (layout K B H total) B H := ⟨_, rfl⟩

/-- Through a descriptor without read access the magic cannot be read: the checks fail
with `EINVAL` on every non-empty file. -/
theorem check_unreadable (K : Decls) (w : World) (path : String) (c : List Nat)
    (fd : Nat) (wr : Bool) (off e : Nat) (hne : c ≠ []) (hlen : c.length < 2 ^ 63)
    (a : MBArray) (ha : a.vector = Ptr.null) (hfd : a.fd = (fd : Int))
    (H : List Nat) (L : Nat) (fs : FileSpec) (nb : Nat) :
    Refused (_mmap_init_mmap_check K (st w path c fd false wr off e) H L fs a nb c.length) := by
  have hl0 : c.length ≠ 0 := fun h => hne (List.eq_nil_of_length_eq_zero h)
  have hlf : c.length ≠ 0xffffffffffffffff := by omega
  unfold _mmap_init_mmap_check Refused
  rw [if_neg hlf, hfd, valid_magic_st]
  simp only [if_pos hl0, Bool.false_eq_true, if_false]
  rw [if_pos ⟨hl0, trivial⟩]
  exact ⟨rfl, by rw [destroy_errno _ _ ha]⟩

/-- The checks on a file that stores the bit count `B` fail with `EINVAL` when the
caller asks for a different, non-zero bit count. -/
theorem check_bits_mismatch (K : Decls) (w : World) (path : String) (c : List Nat)
    (B : Nat) (H0 : List Nat) (hc : FileOf K c B H0) (hB : B < 2 ^ 64) (hL : H0.length < 2 ^ 31)
    (fd : Nat) (r wr : Bool) (off e : Nat) (hlen : c.length < 2 ^ 63)
    (a : MBArray) (ha : a.vector = Ptr.null) (hfd : a.fd = (fd : Int))
    (H : List Nat) (L : Nat) (fs : FileSpec) (nb : Nat) (hnb0 : nb ≠ 0) (hnb : nb ≠ B) :
    Refused (_mmap_init_mmap_check K (st w path c fd r wr off e) H L fs a nb c.length) := by
  obtain ⟨f1, f2, f3, f4, f5⟩ := fileOf_reads K c B H0 hc hB hL
  have hne : c ≠ [] := by
    intro h; rw [h] at f1; simp at f1
  cases r with
  | false => exact check_unreadable K w path c fd wr off e hne hlen a ha hfd H L fs nb
  | true =>
    have hl0 : c.length ≠ 0 := fun h => hne (List.eq_nil_of_length_eq_zero h)
    have hlf : c.length ≠ 0xffffffffffffffff := by omega
    have h8 : (((c.drop K.MBAMAGICSIZE).take 8).length : Int) = 8 := by
      rw [drop_take_length _ _ _ (by omega)]; rfl
    unfold _mmap_init_mmap_check Refused
    rw [if_neg hlf, hfd, valid_magic_st]
    simp only [if_pos hl0, if_true]
    generalize (if e ≠ 0 ∨ ((c.take K.MBAMAGICSIZE).length : Int) ≠ (K.MBAMAGICSIZE : Int) ∨
      strncmp K.MBAMAGIC (c.take K.MBAMAGICSIZE) K.MBAMAGICSIZE ≠ 0 then (0 : Int) else 1) = mv
    by_cases hmv : mv = 0
    · rw [if_pos ⟨hl0, hmv⟩]
      exact ⟨rfl, by rw [destroy_errno _ _ ha]⟩
    · rw [if_neg (fun h => hmv h.2)]
      by_cases hsz : c.length < (a.bytes + a.preamblebytes + SIZE_MOD - 1) % SIZE_MOD
      · rw [if_pos ⟨hl0, hsz⟩]
        exact ⟨rfl, by rw [destroy_errno _ _ ha]⟩
      · rw [if_neg (fun h => hsz h.2), if_neg hl0, if_neg hnb0, get_num_bits_st]
        simp only [if_true, h8, ne_eq, not_true_eq_false, if_false, f3]
        rw [if_pos (fun h => hnb h.symm)]
        exact ⟨rfl, rfl⟩

theorem size_stage_cases (K : Decls) (w : World) (path : String) (c : List Nat) (fd : Nat)
    (r wr : Bool) (off : Nat) (H : List Nat) (L : Nat) (fs : FileSpec) (a : MBArray)
    (hfd : a.fd = (fd : Int)) (P : World × Option MBArray → Prop)
    (h1 : ∀ e nb (a' : MBArray), a'.vector = a.vector → a'.fd = a.fd → (nb = a.bits ∨ a.bits = 0) →
      (a.bits ≠ 0 → a' = a) →
      P (_mmap_init_mmap_check K (st w path c fd r wr off e) H L fs a' nb c.length)) :
    P (_mmap_init_mmap_size K (st w path c fd r wr off 0) H L fs a) := by
  unfold _mmap_init_mmap_size
  rw [hfd]
  simp only [filesize_st, get_num_bits_st]
  split
  · rename_i h50
    cases r with
    | false =>
      simp only [Bool.false_eq_true, if_false]
      exact h1 _ _ _ rfl rfl (Or.inr h50.2) (fun h => absurd h50.2 h)
    | true =>
      simp only [if_true]
      exact h1 _ _ _ rfl rfl (Or.inr h50.2) (fun h => absurd h50.2 h)
  · exact h1 _ _ _ rfl rfl (Or.inl rfl) (fun _ => rfl)

/-- `_mmap_init_mmap` on an existing file, reduced to the header length check and the
later stages on the state after `open`. -/
theorem init_mmap_existing (K : Decls) (w : World) (path : String) (c : List Nat)
    (hfile : w.files path = some c) (fl : OFlags) (perms : Nat) (H : List Nat) (L : Nat)
    (a : MBArray) :
    _mmap_init_mmap K w H L ⟨path, fl, perms⟩ a =
      if 0 ≤ storedHeaderLen K c (decide (fl.accmode ≠ AccMode.wronly)) ∧ ¬ fl.creat = true ∧
          storedHeaderLen K c (decide (fl.accmode ≠ AccMode.wronly)) ≠ (L : Int) then
        (mbarray_Destroy (st w path c w.nextFd (decide (fl.accmode ≠ AccMode.wronly))
          (decide (fl.accmode ≠ AccMode.rdonly)) 0 EINVAL) (some { a with fd := (w.nextFd : Int) }),
          none)
      else
        _mmap_init_mmap_size K (st w path c w.nextFd (decide (fl.accmode ≠ AccMode.wronly))
          (decide (fl.accmode ≠ AccMode.rdonly)) 0 0) H
          (if 0 ≤ storedHeaderLen K c (decide (fl.accmode ≠ AccMode.wronly)) then
            (storedHeaderLen K c (decide (fl.accmode ≠ AccMode.wronly))).toNat else L)
          ⟨path, fl, perms⟩ { a with fd := (w.nextFd : Int) } := by
  have hfd : ¬ ((w.nextFd : Int) < 0) := by omega
  have hv : (mbarray_HeaderLen K (st w path c w.nextFd (decide (fl.accmode ≠ AccMode.wronly))
      (decide (fl.accmode ≠ AccMode.rdonly)) 0 w.errno) { a with fd := (w.nextFd : Int) }).2
      = storedHeaderLen K c (decide (fl.accmode ≠ AccMode.wronly)) := by
    rw [headerLen_st K w path c w.nextFd _ _ 0 w.errno _ rfl]
    unfold storedHeaderLen
    cases (decide (fl.accmode ≠ AccMode.wronly)) <;> rfl
  unfold _mmap_init_mmap
  simp only [open_existing w hfile, hfd, if_false]
  rw [headerLen_world K w path c w.nextFd _ _ 0 _ 0 _ rfl, hv]
  have hE := headerLen_world K w path c w.nextFd (decide (fl.accmode ≠ AccMode.wronly))
    (decide (fl.accmode ≠ AccMode.rdonly)) 0 w.errno EINVAL { a with fd := (w.nextFd : Int) } rfl
  split
  · rw [← hE]
  · rfl

theorem refused_destroy (w : World) (path : String) (c : List Nat) (fd : Nat) (r wr : Bool)
    (off : Nat) (a : MBArray) (ha : a.vector = Ptr.null) :
    Refused (mbarray_Destroy (st w path c fd r wr off EINVAL) (some a), none) :=
  ⟨rfl, by rw [destroy_errno _ _ ha]; rfl⟩

theorem storedHeaderLen_fileOf (K : Decls) (c : List Nat) (B : Nat) (H : List Nat)
    (hc : FileOf K c B H) (hB : B < 2 ^ 64) (hL : H.length < 2 ^ 31) :
    storedHeaderLen K c true = (H.length : Int) := by
  obtain ⟨f1, f2, f3, f4, f5⟩ := fileOf_reads K c B H hc hB hL
  unfold storedHeaderLen
  have h4 : (((c.drop (K.MBAMAGICSIZE + 8)).take 4).length : Int) = 4 := by
    rw [drop_take_length _ _ _ (by omega)]; rfl
  simp only [if_true, h4, ne_eq, not_true_eq_false, if_false, f4]

/-- Opening a file that stores the bit count `B` with another non-zero bit count fails with
`EINVAL`, whatever the flags and the header length. -/
theorem create_bits_mismatch (K : Decls) (w : World) (path : String) (c : List Nat)
    (B : Nat) (H0 : List Nat) (hfile : w.files path = some c) (hc : FileOf K c B H0)
    (hB : B < 2 ^ 64) (hL : H0.length < 2 ^ 31) (hlen : c.length < 2 ^ 63)
    (B' : Nat) (H : List Nat) (L : Nat) (fl : OFlags) (perms : Nat)
    (h0 : B' ≠ 0) (hne : B' ≠ B) :
    Refused (mbarray_Create K w B' H L (some ⟨path, fl, perms⟩)) := by
  rw [create_file_eq, init_mmap_existing K (startWorld K w L) path c hfile]
  split
  · exact refused_destroy _ _ _ _ _ _ _ _ rfl
  · apply size_stage_cases K _ path c (startWorld K w L).nextFd _ _ 0 H _ _ _ rfl Refused
    intro e nb a' hv hfd hnb ha'
    have hbits : nb = B' := by
      rcases hnb with h | h
      · exact h
      · exact absurd h h0
    exact check_bits_mismatch K _ path c B H0 hc hB hL (startWorld K w L).nextFd _ _ 0 e hlen a' hv hfd H _ _ nb
      (by rw [hbits]; exact h0) (by rw [hbits]; exact hne)

/-- Opening a file that stores the header length `|H0|` without `O_CREAT` and with another
header length fails with `EINVAL`. -/
theorem create_header_mismatch (K : Decls) (w : World) (path : String) (c : List Nat)
    (B : Nat) (H0 : List Nat) (hfile : w.files path = some c) (hc : FileOf K c B H0)
    (hB : B < 2 ^ 64) (hL : H0.length < 2 ^ 31) (hlen : c.length < 2 ^ 63)
    (B' : Nat) (H : List Nat) (L : Nat) (fl : OFlags) (perms : Nat)
    (hcr : fl.creat = false) (hne : L ≠ H0.length) :
    Refused (mbarray_Create K w B' H L (some ⟨path, fl, perms⟩)) := by
  obtain ⟨f1, _⟩ := fileOf_reads K c B H0 hc hB hL
  have hcne : c ≠ [] := by
    intro h; rw [h] at f1; simp at f1
  rw [create_file_eq, init_mmap_existing K (startWorld K w L) path c hfile]
  split
  · exact refused_destroy _ _ _ _ _ _ _ _ rfl
  · rename_i hno
    cases hr : decide (fl.accmode ≠ AccMode.wronly) with
    | true =>
      exfalso
      apply hno
      rw [hr, storedHeaderLen_fileOf K c B H0 hc hB hL]
      refine ⟨by omega, by simp [hcr], ?_⟩
      intro h; exact hne (by exact_mod_cast h.symm)
    | false =>
      apply size_stage_cases K _ path c (startWorld K w L).nextFd _ _ 0 H _ _ _ rfl Refused
      intro e nb a' hv hfd _ _
      exact check_unreadable K _ path c (startWorld K w L).nextFd _ 0 e hcne hlen a' hv hfd H _ _ nb

theorem update_newArray (K : Decls) (B L : Nat) (x : Int) :
    _mmap_update_bits K B { newArray K 0 L with fd := x } = { newArray K B L with fd := x } := rfl

/-- Opening the file of a fresh array with bit count 0 and its header length, read-write:
the handle gets the stored bit count and the geometry of the creation. -/
theorem reopen (K : Decls) (hK : K.ok) (w : World) (path : String) (B : Nat) (H H' : List Nat)
    (fl : OFlags) (perms : Nat) (hB0 : B ≠ 0) (hB : B < 2 ^ 64) (hL : H.length < 2 ^ 31)
    (hov : preambleBlocks K H.length * 256 ≤ INT_MAX)
    (hfile : w.files path = some (layout K B H
      ((newArray K B H.length).preamblebytes + (newArray K B H.length).bytes)))
    (hacc : fl.accmode = AccMode.rdwr)
    (hml : (newArray K B H.length).preamblebytes + (newArray K B H.length).bytes ≤ w.memLimit) :
    mbarray_Create K w 0 H' H.length (some ⟨path, fl, perms⟩) =
      (st { w with errno := 0, handles := w.handles + 1 } path
          (layout K B H ((newArray K B H.length).preamblebytes + (newArray K B H.length).bytes))
          w.nextFd true true 0 0,
        some { newArray K B H.length with
          fd := (w.nextFd : Int), vector := Ptr.mapped path, filename := some path }) := by
  obtain ⟨g1, g2, g3, g4, g5, g6, g7, g8, g9, g10⟩ := newArray_geometry K hK B H.length hL hov
  obtain ⟨s1, s2⟩ := newArray_mmap_size K hK B H.length hB hL hov
  have hbp := newArray_bytes_pos K H.length hB0
  set total := (newArray K B H.length).preamblebytes + (newArray K B H.length).bytes with htot
  set c := layout K B H total with hc
  have hclen : c.length = total := layout_length K B H total (by rw [htot, g4]; omega)
  obtain ⟨f1, f2, f3, f4, f5⟩ := fileOf_reads K c B H (layout_fileOf K B H total) hB hL
  have hovf : decide (INT_MAX < preambleBlocks K H.length * 256) = false := by
    simp; omega
  have hsw : startWorld K w H.length = { w with errno := 0, handles := w.handles + 1 } := by
    unfold startWorld; rw [hovf]; simp
  have h256 : 256 ≤ (newArray K B H.length).preamblebytes := by
    rw [g4]
    have : 0 < preambleBlocks K H.length := by
      by_contra h0
      have : preambleBlocks K H.length = 0 := by omega
      rw [this] at g9; omega
    omega
  have hr : decide (fl.accmode ≠ AccMode.wronly) = true := by rw [hacc]; rfl
  have hwr : decide (fl.accmode ≠ AccMode.rdonly) = true := by rw [hacc]; rfl
  have hsh : storedHeaderLen K c true = (H.length : Int) :=
    storedHeaderLen_fileOf K c B H (layout_fileOf K B H total) hB hL
  have h8 : (((c.drop K.MBAMAGICSIZE).take 8).length : Int) = 8 := by
    rw [drop_take_length _ _ _ (by omega)]; rfl
  have hmg : ((c.take K.MBAMAGICSIZE).length : Int) = (K.MBAMAGICSIZE : Int) := by
    rw [f2]; rfl
  have hstr : strncmp K.MBAMAGIC (c.take K.MBAMAGICSIZE) K.MBAMAGICSIZE = 0 := by
    rw [f2]; exact strncmp_self K.MBAMAGIC
  have hend : ((newArray K B H.length).bytes + (newArray K B H.length).preamblebytes
      + SIZE_MOD - 1) % SIZE_MOD = total - 1 := by
    unfold SIZE_MOD; omega
  rw [create_file_eq, init_mmap_existing K (startWorld K w H.length) path c hfile, hr, hwr, hsh]
  have hnf : (startWorld K w H.length).nextFd = w.nextFd := rfl
  have hmlim : (startWorld K w H.length).memLimit = w.memLimit := rfl
  rw [hnf]
  rw [if_neg (by simp)]
  simp only [Int.natCast_nonneg, if_true, Int.toNat_ofNat]
  unfold _mmap_init_mmap_size
  simp only [filesize_st, get_num_bits_st, if_true, h8, ne_eq, not_true_eq_false, if_false, f3]
  have hb0 : (newArray K 0 H.length).bits = 0 := rfl
  rw [if_pos ⟨by rw [hclen]; omega, hb0⟩, update_newArray]
  unfold _mmap_init_mmap_check
  rw [if_neg (by rw [hclen]; omega)]
  simp only [valid_magic_st, if_true, hmg, hstr, ne_eq, not_true_eq_false, or_self, if_false,
    get_num_bits_st, h8, f3]
  have ht0 : total ≠ 0 := by omega
  simp only [hclen, ne_eq, ht0, not_false_eq_true, if_true, true_and, one_ne_zero, if_false,
    hend, show ¬ (total < total - 1) by omega, hB0, and_false, false_and, not_true_eq_false,
    get_num_bits_st, h8, f3]
  rw [mmap_map_ok _ path c w.nextFd 0 0 _ _ rfl, hsw]
  · show ((newArray K B H.length).bytes + (newArray K B H.length).preamblebytes) % SIZE_MOD ≠ 0
    have : ((newArray K B H.length).bytes + (newArray K B H.length).preamblebytes) % SIZE_MOD
        = (newArray K B H.length).bytes + (newArray K B H.length).preamblebytes := s1
    rw [this]; omega
  · show ((newArray K B H.length).bytes + (newArray K B H.length).preamblebytes) % SIZE_MOD
      ≤ (startWorld K w H.length).memLimit
    rw [hmlim]
    have : ((newArray K B H.length).bytes + (newArray K B H.length).preamblebytes) % SIZE_MOD
        = (newArray K B H.length).bytes + (newArray K B H.length).preamblebytes := s1
    rw [this]; omega

/-- `mbarray_Destroy` of a mapped handle closes its descriptor and leaves the file. -/
theorem destroy_mapped (w : World) (path : String) (c : List Nat) (fd : Nat) (r wr : Bool)
    (off e : Nat) (a : MBArray) (hv : a.vector = Ptr.mapped path) (hf : a.filename = some path)
    (hfd : a.fd = (fd : Int)) :
    (mbarray_Destroy (st w path c fd r wr off e) (some a)).files path = some c ∧
    (mbarray_Destroy (st w path c fd r wr off e) (some a)).memLimit = w.memLimit ∧
    (mbarray_Destroy (st w path c fd r wr off e) (some a)).fds fd = none ∧
    (mbarray_Destroy (st w path c fd r wr off e) (some a)).handles = w.handles - 1 ∧
    (mbarray_Destroy (st w path c fd r wr off e) (some a)).undef = w.undef := by
  have h0 : (0 : Int) ≤ (fd : Int) := by omega
  unfold mbarray_Destroy
  simp only [hv, hf, hfd, ne_eq, not_false_eq_true, if_true, if_false, h0, reduceCtorEq]
  unfold sys_fsync
  rw [st_fd]
  unfold sys_close
  rw [st_fd]
  simp [st]

/-- The header accessors on a readable descriptor of a file that starts with the encoded
preamble of `(B, H)`. -/
theorem header_reads (K : Decls) (w : World) (path : String) (c : List Nat) (fd : Nat)
    (wr : Bool) (off e : Nat) (a : MBArray) (ha : a.fd = (fd : Int)) (B : Nat) (H : List Nat)
    (hc : FileOf K c B H) (hB : B < 2 ^ 64) (hL : H.length < 2 ^ 31) :
    (mbarray_HeaderLen K (st w path c fd true wr off e) a).2 = (H.length : Int) ∧
    (mbarray_Header K (st w path c fd true wr off e) a (H.length : Int)).2 = some H := by
  obtain ⟨f1, f2, f3, f4, f5⟩ := fileOf_reads K c B H hc hB hL
  have h4 : (((c.drop (K.MBAMAGICSIZE + 8)).take 4).length : Int) = 4 := by
    rw [drop_take_length _ _ _ (by omega)]; rfl
  have hv : (mbarray_HeaderLen K (st w path c fd true wr off e) a).2 = (H.length : Int) := by
    rw [headerLen_st K w path c fd true wr off e a ha]
    simp only [if_true, h4, ne_eq, not_true_eq_false, if_false, f4]
  refine ⟨hv, ?_⟩
  unfold mbarray_Header
  simp only [hv, lt_self_iff_false, if_false]
  rw [headerLen_world K w path c fd true wr off e 0 a ha, ha]
  have hm : ((H.length : Int) % (2 ^ 64 : Int)).toNat = H.length := by
    have : ((H.length : Int) % (2 ^ 64 : Int)) = (H.length : Int) :=
      Int.emod_eq_of_lt (by omega) (by omega)
    rw [this]; rfl
  rw [hm, pread_st]
  simp only [if_true, f5, ne_eq, not_true_eq_false, if_false]

/-- The buffer of a fresh anonymous array holds the fresh layout. -/
theorem create_anon_layout (K : Decls) (hK : K.ok) (w w1 : World) (B : Nat) (H : List Nat)
    (h : MBArray) (hB : B < 2 ^ 64) (hL : H.length < 2 ^ 31)
    (hov : preambleBlocks K H.length * 256 ≤ INT_MAX)
    (hc : mbarray_Create K w B H H.length none = (w1, some h)) :
    w1.load h.vector = some (layout K B H (h.preamblebytes + h.bytes)) ∧
    h.preamblebytes = (newArray K B H.length).preamblebytes ∧
    h.bytes = (newArray K B H.length).bytes := by
  rw [create_anon_eq] at hc
  by_cases hm : w.memLimit < _mmap_size (newArray K B H.length)
  · rw [if_pos hm] at hc
    simp at hc
  · rw [if_neg hm] at hc
    simp only [Prod.mk.injEq, Option.some.injEq] at hc
    obtain ⟨hw, hh⟩ := hc
    subst hw hh
    obtain ⟨g1, g2, g3, g4, g5, g6, g7, g8, g9, g10⟩ := newArray_geometry K hK B H.length hL hov
    obtain ⟨s1, s2⟩ := newArray_mmap_size K hK B H.length hB hL hov
    refine ⟨?_, rfl, rfl⟩
    show Function.update w.heap w.nextHeap _ w.nextHeap = _
    rw [Function.update_same, stamp_zero K B H _ (by rw [s1, g4]; omega), s1, Nat.add_comm]

/-- A preamble of at most `2 ^ 31 - 256` bytes before padding has a padded size that
fits `int`. -/
theorem preambleBlocks_fits (K : Decls) (L : Nat)
    (h : K.MBAMAGICSIZE + 8 + 4 + L ≤ 2 ^ 31 - 256) :
    preambleBlocks K L * 256 ≤ INT_MAX := by
  unfold preambleBlocks INT_MAX SIZE_MOD ceilDiv
  rw [Nat.mod_eq_of_lt (by omega), toDouble_small (by omega)]
  have := Nat.div_mul_le_self (K.MBAMAGICSIZE + 8 + 4 + L + 256 - 1) 256
  omega

/-- The padded preamble size is the least multiple of 256 that holds the preamble. -/
theorem preambleBlocks_least (K : Decls) (L : Nat)
    (h : K.MBAMAGICSIZE + 8 + 4 + L ≤ 2 ^ 31 - 256) (m : Nat) (hm : 256 ∣ m)
    (hle : K.MBAMAGICSIZE + 8 + 4 + L ≤ m) : preambleBlocks K L * 256 ≤ m := by
  obtain ⟨t, rfl⟩ := hm
  unfold preambleBlocks SIZE_MOD ceilDiv
  rw [Nat.mod_eq_of_lt (by omega), toDouble_small (by omega)]
  omega

theorem writeWord_errno (K : Decls) (w : World) (p : Ptr) (i x : Nat) :
    (writeWord K w p i x).errno = w.errno := by
  unfold writeWord
  split
  · exact store_errno _ _ _
  · rfl

theorem ternary_loop_errno (K : Decls) (op : Nat → Nat → Nat) (dp ap bp : Ptr) (n : Nat) :
    ∀ (i : Nat) (w : World), (ternary_loop K op dp ap bp n i w).errno = w.errno := by
  induction n with
  | zero => intro i w; rfl
  | succ n ih =>
    intro i w
    show (ternary_loop K op dp ap bp n (i + 1) _).errno = _
    rw [ih, writeWord_errno]

theorem binary_op_errno (K : Decls) (op : Nat → Nat → Nat) (w : World) (dest other : MBArray) :
    (binary_op K op w dest other).1.errno = EINVAL := by
  unfold binary_op
  by_cases h : (_assert_comparable w dest other).2 ≠ 0
  · simp only [h, if_true, ne_eq, not_false_eq_true]
    exact (assert_comparable_frame w dest other).1
  · simp only [h, if_false]
    rw [binary_loop_eq_ternary, ternary_loop_errno]
    exact (assert_comparable_frame w dest other).1

theorem ternary_op_errno (K : Decls) (op : Nat → Nat → Nat) (w : World) (dest a b : MBArray) :
    (ternary_op K op w dest a b).1.errno = EINVAL := by
  unfold ternary_op
  by_cases h1 : (_assert_comparable w a b).2 ≠ 0
  · simp only [h1, if_true, ne_eq, not_false_eq_true]
    exact (assert_comparable_frame w a b).1
  · by_cases h2 : (_assert_comparable (_assert_comparable w a b).1 dest b).2 ≠ 0
    · simp only [h1, h2, if_false, if_true, ne_eq, not_false_eq_true]
      exact (assert_comparable_frame _ dest b).1
    · simp only [h1, h2, if_false]
      rw [ternary_loop_errno]
      exact (assert_comparable_frame _ dest b).1

/-- The words from `lo` on leave the bytes below `lo * d` as they were. -/
theorem byteAt_combine_low (d : Nat) (op : Nat → Nat → Nat) (vd va vb : List Nat) (lo hi k : Nat)
    (hk : k < lo * d) : byteAt (combine d op vd va vb lo hi) k = byteAt vd k := by
  unfold combine
  rw [byteAt_build]
  by_cases hl : k < vd.length
  · rw [if_pos hl, if_neg (by omega)]
  · rw [if_neg hl, byteAt_of_le (by omega)]

/-- A successful binary set operation writes the data words of `dest` only. -/
theorem binary_op_frame (K : Decls) (hK : K.ok) (op : Nat → Nat → Nat) (w : World)
    (dest other : MBArray) (v1 v2 : List Nat)
    (h1 : w.load dest.vector = some v1) (h2 : w.load other.vector = some v2)
    (hne : dest.vector ≠ other.vector)
    (hpre : dest.preamblebytes = dest.preamblesize * K.sizeofDTYPE)
    (hcmp : (_assert_comparable w dest other).2 = 0) :
    (binary_op K op w dest other).2 = some dest ∧
    (binary_op K op w dest other).1.load other.vector = some v2 ∧
    (∃ v, (binary_op K op w dest other).1.load dest.vector = some v ∧ v.length = v1.length ∧
      ∀ k, k < dest.preamblebytes → byteAt v k = byteAt v1 k) ∧
    (_assert_comparable (binary_op K op w dest other).1 dest other).2 = 0 := by
  obtain ⟨hp, _, u1, u2, hu1, hu2, hall⟩ := assert_comparable_zero hcmp
  rw [h1] at hu1; rw [h2] at hu2
  cases hu1; cases hu2
  obtain ⟨x1, x2, hx1, hx2, heq⟩ := binary_op_pass K (Decls.ok_pos hK) op w dest other hcmp
  rw [h1] at hx1; rw [h2] at hx2
  cases hx1; cases hx2
  have l1 : (intLoopFlag { w with errno := EINVAL } dest.preamblesize
      ((dest.size + dest.preamblesize) % SIZE_MOD)).load dest.vector = some v1 := by
    exact Eq.trans (load_congr w rfl rfl dest.vector) h1
  have l2 : (intLoopFlag { w with errno := EINVAL } dest.preamblesize
      ((dest.size + dest.preamblesize) % SIZE_MOD)).load other.vector = some v2 := by
    exact Eq.trans (load_congr w rfl rfl other.vector) h2
  have r2 : (binary_op K op w dest other).1.load other.vector = some v2 := by
    rw [heq]; show (World.store _ _ _).load other.vector = _
    rw [load_store_ne (Ne.symm hne)]; exact l2
  have r1 : (binary_op K op w dest other).1.load dest.vector = some
      (combine K.sizeofDTYPE op v1 v1 v2 dest.preamblesize
        (dest.preamblesize + ((dest.size + dest.preamblesize) % SIZE_MOD - dest.preamblesize))) := by
    rw [heq]; show (World.store _ _ _).load dest.vector = _
    exact load_store_same v1 l1 _
  have hlow : ∀ k, k < dest.preamblebytes →
      byteAt (combine K.sizeofDTYPE op v1 v1 v2 dest.preamblesize
        (dest.preamblesize + ((dest.size + dest.preamblesize) % SIZE_MOD - dest.preamblesize))) k
        = byteAt v1 k := by
    intro k hk
    exact byteAt_combine_low _ _ _ _ _ _ _ _ (by rw [← hpre]; exact hk)
  refine ⟨by rw [heq], r2, ⟨_, r1, combine_length _ _ _ _ _ _ _, hlow⟩, ?_⟩
  rw [assert_comparable_of _ hp r1 r2 (fun k hk => by rw [hlow k hk]; exact hall k hk)]

/-- `mbarray_Create` on an empty file without `O_CREAT` or with bit count 0. -/
theorem create_empty_refused (K : Decls) (w : World) (path : String) (fl : OFlags) (perms : Nat)
    (B : Nat) (H : List Nat) (L : Nat)
    (hfile : w.files path = some [] ∨ (w.files path = none ∧ fl.creat = true))
    (hno : fl.creat = false ∨ B = 0) :
    (mbarray_Create K w B H L (some ⟨path, fl, perms⟩)).2 = none ∧
    (mbarray_Create K w B H L (some ⟨path, fl, perms⟩)).1.errno = ENOENT ∧
    (mbarray_Create K w B H L (some ⟨path, fl, perms⟩)).1.files path = some [] := by
  have hf : (startWorld K w L).files path = some [] ∨
      ((startWorld K w L).files path = none ∧ fl.creat = true) := hfile
  have hb : (newArray K B L).bits = B := rfl
  have hc : ¬ fl.creat = true ∨ (newArray K B L).bits = 0 := by
    rcases hno with h | h
    · left; rw [h]; simp
    · right; rw [hb]; exact h
  rw [create_file_eq, init_mmap_fresh_eq K (startWorld K w L) path fl perms H L _ hf, if_pos hc]
  rw [destroy_null _ _ rfl]
  exact ⟨rfl, rfl, st_files (startWorld K w L) path [] (startWorld K w L).nextFd
    (decide (fl.accmode ≠ AccMode.wronly)) (decide (fl.accmode ≠ AccMode.rdonly)) 0 ENOENT⟩

/-- The header accessors through any open readable descriptor of a file that starts with
the encoded preamble of `(B, H)`. -/
theorem header_reads_open (K : Decls) (w : World) (a : MBArray) (p : String) (wr : Bool)
    (off : Nat) (c : List Nat) (B : Nat) (H : List Nat)
    (hfd : w.fd? a.fd = some ⟨p, true, wr, off⟩) (hfile : w.files p = some c)
    (hc : FileOf K c B H) (hB : B < 2 ^ 64) (hL : H.length < 2 ^ 31) :
    mbarray_HeaderLen K w a = ({ w with errno := 0 }, (H.length : Int)) ∧
    mbarray_Header K w a (H.length : Int) = ({ w with errno := 0 }, some H) := by
  obtain ⟨f1, f2, f3, f4, f5⟩ := fileOf_reads K c B H hc hB hL
  have h4 : (((c.drop (K.MBAMAGICSIZE + 8)).take 4).length : Int) = 4 := by
    rw [drop_take_length _ _ _ (by omega)]; rfl
  have hfd0 : ({ w with errno := 0 } : World).fd? a.fd = some ⟨p, true, wr, off⟩ := hfd
  have hf0 : ({ w with errno := 0 } : World).files p = some c := hfile
  have hv : mbarray_HeaderLen K w a = ({ w with errno := 0 }, (H.length : Int)) := by
    unfold mbarray_HeaderLen sys_pread
    simp only [hfd0, hf0, hfile, Option.getD_some, if_true, h4, ne_eq, not_true_eq_false, if_false, f4]
  refine ⟨hv, ?_⟩
  unfold mbarray_Header
  rw [hv]
  have hm : ((H.length : Int) % (2 ^ 64 : Int)).toNat = H.length := by
    have : ((H.length : Int) % (2 ^ 64 : Int)) = (H.length : Int) :=
      Int.emod_eq_of_lt (by omega) (by omega)
    rw [this]; rfl
  unfold sys_pread
  simp only [lt_self_iff_false, if_false, hm, hfd0, hf0, hfile, Option.getD_some, if_true, f5, ne_eq,
    not_true_eq_false]

/-- `mbarray_Copy_Template` from a handle whose descriptor reads a file with the preamble
of `(B, H)`: a failure, or `mbarray_Create` with the bit count of the handle and the
header `H` on a state with the same files. -/
theorem copy_template_eq (K : Decls) (w : World) (src : MBArray) (p : String) (wr : Bool)
    (off : Nat) (c : List Nat) (B : Nat) (H : List Nat) (newp : String) (perms : Nat)
    (hfd : w.fd? src.fd = some ⟨p, true, wr, off⟩) (hfile : w.files p = some c)
    (hc : FileOf K c B H) (hB : B < 2 ^ 64) (hL : H.length < 2 ^ 31) :
    (mbarray_Copy_Template K w src newp perms).2 = none ∨
    ∃ w2, mbarray_Copy_Template K w src newp perms =
        mbarray_Create K w2 src.bits H H.length (some ⟨newp, ⟨AccMode.rdwr, true⟩, perms⟩) ∧
      w2.files = w.files ∧ w2.fds = w.fds := by
  obtain ⟨hv, _⟩ := header_reads_open K w src p wr off c B H hfd hfile hc hB hL
  unfold mbarray_Copy_Template
  rw [hv]
  simp only [Int.natCast_nonneg, not_lt.2, if_false, Int.toNat_ofNat]
  cases hn : src.filename with
  | none => left; rfl
  | some name =>
    simp only
    by_cases he : newp = name
    · left; simp only [he, if_true]
    · simp only [he, if_false]
      unfold sys_malloc
      by_cases hm : w.memLimit < H.length + 1
      · left
        have hm2 : ({ w with errno := 0 } : World).memLimit < H.length + 1 := hm
        simp [hm]
      · right
        have hm2 : ¬ ({ ({ w with errno := 0 } : World) with
            undef := w.undef || decide ((H.length : Int) = (INT_MAX : Int)) }).memLimit
              < H.length + 1 := hm
        simp only [hm, if_false, reduceCtorEq]
        obtain ⟨_, hh⟩ := header_reads_open K
          { w with errno := 0, undef := w.undef || decide ((H.length : Int) = (INT_MAX : Int)),
                   heap := Function.update w.heap w.nextHeap (some (List.replicate (H.length + 1) 0)),
                   nextHeap := w.nextHeap + 1 }
          src p wr off c B H hfd hfile hc hB hL
        rw [hh]
        dsimp only
        exact ⟨_, rfl, rfl, rfl⟩

/-- Claim C1: for handles `dest` and `other` that pass the comparability check, where
`dest` satisfies the handle invariant and its word indices fit the `int` loop counter,
`mbarray_And` returns `dest` and leaves in every data bit `i < bits` of `dest` the AND of
the two bits before the call; likewise `mbarray_Or` with OR and `mbarray_Xor` with XOR. -/
theorem mbarray_set_algebra_bits (K : Decls) (hK : K.ok) (w : World) (dest other : MBArray)
    (v1 v2 : List Nat) (hdest : Shaped K w dest v1) (hother : w.load other.vector = some v2)
    (hu : w.undef = false) (hcmp : (_assert_comparable w dest other).2 = 0)
    (hint : dest.preamblesize + dest.size ≤ INT_MAX) (i : Nat) (hi : i < dest.bits) :
    ((mbarray_And K w dest other).2 = some dest ∧
      (mbarray_And K w dest other).1.undef = false ∧
      ∃ v, (mbarray_And K w dest other).1.load dest.vector = some v ∧
        dataBit K dest.preamblesize v i
          = (dataBit K dest.preamblesize v1 i && dataBit K dest.preamblesize v2 i)) ∧
    ((mbarray_Or K w dest other).2 = some dest ∧
      (mbarray_Or K w dest other).1.undef = false ∧
      ∃ v, (mbarray_Or K w dest other).1.load dest.vector = some v ∧
        dataBit K dest.preamblesize v i
          = (dataBit K dest.preamblesize v1 i || dataBit K dest.preamblesize v2 i)) ∧
    ((mbarray_Xor K w dest other).2 = some dest ∧
      (mbarray_Xor K w dest other).1.undef = false ∧
      ∃ v, (mbarray_Xor K w dest other).1.load dest.vector = some v ∧
        dataBit K dest.preamblesize v i
          = (dataBit K dest.preamblesize v1 i ^^ dataBit K dest.preamblesize v2 i)) :=
  ⟨binary_op_bit K hK _ _ Nat.testBit_and w dest other v1 v2 hdest hother hu hcmp hint i hi,
   binary_op_bit K hK _ _ Nat.testBit_or w dest other v1 v2 hdest hother hu hcmp hint i hi,
   binary_op_bit K hK _ _ Nat.testBit_xor w dest other v1 v2 hdest hother hu hcmp hint i hi⟩

set_option maxRecDepth 100000 in
/-- Instance of C1: two 10-bit arrays with data bytes `5, 1` and `3, 1`, at bit 2 (set in
the first array only). -/
theorem mbarray_set_algebra_bits_witness :
    ((mbarray_And stdDecls exTwo (exArray 0) (exArray 1)).2 = some (exArray 0) ∧
      (mbarray_And stdDecls exTwo (exArray 0) (exArray 1)).1.undef = false ∧
      ∃ v, (mbarray_And stdDecls exTwo (exArray 0) (exArray 1)).1.load (Ptr.heap 0) = some v ∧
        dataBit stdDecls 64 v 2 = (true && false)) ∧
    ((mbarray_Or stdDecls exTwo (exArray 0) (exArray 1)).2 = some (exArray 0) ∧
      (mbarray_Or stdDecls exTwo (exArray 0) (exArray 1)).1.undef = false ∧
      ∃ v, (mbarray_Or stdDecls exTwo (exArray 0) (exArray 1)).1.load (Ptr.heap 0) = some v ∧
        dataBit stdDecls 64 v 2 = (true || false)) ∧
    ((mbarray_Xor stdDecls exTwo (exArray 0) (exArray 1)).2 = some (exArray 0) ∧
      (mbarray_Xor stdDecls exTwo (exArray 0) (exArray 1)).1.undef = false ∧
      ∃ v, (mbarray_Xor stdDecls exTwo (exArray 0) (exArray 1)).1.load (Ptr.heap 0) = some v ∧
        dataBit stdDecls 64 v 2 = (true ^^ false)) :=
  mbarray_set_algebra_bits stdDecls (by decide) exTwo (exArray 0) (exArray 1)
    (memcpy (layout stdDecls 10 [1, 2] 258) 256 [5, 1])
    (memcpy (layout stdDecls 10 [1, 2] 258) 256 [3, 1])
    ⟨by rfl, by decide, by decide, by decide, by decide, by decide⟩ (by rfl) (by rfl) (by decide)
    (by decide) 2 (by decide)

/-- Claim C2: when the comparability check fails (between `dest` and `b` for the binary
operations; between `a` and `b` or between `dest` and `b` for the ternary ones), each of
the six set operations returns NULL with `errno = EINVAL` and leaves every heap block and
every file, hence every operand's buffer, as it was. -/
theorem mbarray_set_algebra_rejects (K : Decls) (w : World) (dest a b : MBArray) :
    ((_assert_comparable w dest b).2 ≠ 0 →
      Rejected w (mbarray_And K w dest b) ∧ Rejected w (mbarray_Or K w dest b) ∧
      Rejected w (mbarray_Xor K w dest b)) ∧
    (((_assert_comparable w a b).2 ≠ 0 ∨ (_assert_comparable w dest b).2 ≠ 0) →
      Rejected w (mbarray_And_Ternary K w dest a b) ∧
      Rejected w (mbarray_Or_Ternary K w dest a b) ∧
      Rejected w (mbarray_Xor_Ternary K w dest a b)) :=
  ⟨fun h => ⟨binary_op_rejected K _ w dest b h, binary_op_rejected K _ w dest b h,
      binary_op_rejected K _ w dest b h⟩,
   fun h => ⟨ternary_op_rejected K _ w dest a b h, ternary_op_rejected K _ w dest a b h,
      ternary_op_rejected K _ w dest a b h⟩⟩

set_option maxRecDepth 100000 in
/-- Instance of C2: two 10-bit arrays with the headers `[1, 2]` and `[1, 3]` are not
comparable, and `mbarray_Xor` and `mbarray_Or_Ternary` reject them. -/
theorem mbarray_set_algebra_rejects_witness :
    (_assert_comparable exDiff (exArray 0) (exArray 1)).2 ≠ 0 ∧
    Rejected exDiff (mbarray_Xor stdDecls exDiff (exArray 0) (exArray 1)) ∧
    Rejected exDiff (mbarray_Or_Ternary stdDecls exDiff (exArray 0) (exArray 0) (exArray 1)) :=
  ⟨by decide,
   ((mbarray_set_algebra_rejects stdDecls exDiff (exArray 0) (exArray 0) (exArray 1)).1
      (by decide)).2.2,
   ((mbarray_set_algebra_rejects stdDecls exDiff (exArray 0) (exArray 0) (exArray 1)).2
      (Or.inl (by decide))).2.1⟩

/-- Claim C3: two handles built by anonymous `mbarray_Create` from `(B1, H1)` and
`(B2, H2)` are reported comparable by `_assert_comparable` exactly when `B1 = B2` and
`H1 = H2`. -/
theorem anonymous_comparable_iff (K : Decls) (hK : K.ok) (w w1 w2 : World) (B1 B2 : Nat)
    (H1 H2 : List Nat) (h1 h2 : MBArray)
    (hB1 : B1 < 2 ^ 64) (hB2 : B2 < 2 ^ 64) (hL1 : H1.length < 2 ^ 31) (hL2 : H2.length < 2 ^ 31)
    (hc1 : mbarray_Create K w B1 H1 H1.length none = (w1, some h1))
    (hc2 : mbarray_Create K w1 B2 H2 H2.length none = (w2, some h2))
    (hu : w2.undef = false) :
    (_assert_comparable w2 h1 h2).2 = 0 ↔ (B1 = B2 ∧ H1 = H2) := by
  obtain ⟨u1, o2, e2, n2, p2, _, _, _⟩ := create_anon_some K hK w1 w2 B2 H2 h2 hB2 hL2 hc2 hu
  obtain ⟨_, o1, e1, n1, p1, _, _, _⟩ := create_anon_some K hK w w1 B1 H1 h1 hB1 hL1 hc1 u1
  obtain ⟨_, _, _, g1, _, _, _, _, g1l, _⟩ := newArray_geometry K hK B1 H1.length hL1 o1
  obtain ⟨_, _, _, g2, _, _, _, _, g2l, _⟩ := newArray_geometry K hK B2 H2.length hL2 o2
  have pb1 : h1.preamblebytes = preambleBlocks K H1.length * 256 := by rw [e1]; exact g1
  have pb2 : h2.preamblebytes = preambleBlocks K H2.length * 256 := by rw [e2]; exact g2
  have l2 : w2.load h2.vector = some (layout K B2 H2 (h2.preamblebytes + h2.bytes)) := by
    have : h2.vector = Ptr.heap w1.nextHeap := by rw [e2]
    rw [this]; simp [World.load, p2]
  have l1 : w2.load h1.vector = some (layout K B1 H1 (h1.preamblebytes + h1.bytes)) := by
    have : h1.vector = Ptr.heap w.nextHeap := by rw [e1]
    rw [this]
    simp only [World.load, p2, n1]
    rw [Function.update_noteq (by omega), p1]
    simp
  constructor
  · intro hz
    obtain ⟨hp, _, v1, v2, m1, m2, hall⟩ := assert_comparable_zero hz
    rw [l1] at m1; rw [l2] at m2
    obtain rfl := Option.some.inj m1
    obtain rfl := Option.some.inj m2
    exact (layout_prefix_eq_iff K B1 B2 H1 H2 _ _ h1.preamblebytes hB1 hB2 hL1 hL2
      (by rw [pb1]; exact g1l) (by rw [hp, pb2]; exact g2l)).1 hall
  · rintro ⟨rfl, rfl⟩
    have hp : h1.preamblebytes = h2.preamblebytes := by rw [pb1, pb2]
    rw [assert_comparable_of w2 hp l1 l2]
    intro k _
    rw [byteAt_layout, byteAt_layout]

set_option maxRecDepth 100000 in
/-- Instance of C3: two 10-bit arrays with the headers `[1, 2]` and `[1, 3]` are not
comparable. -/
theorem anonymous_comparable_iff_witness :
    (_assert_comparable exDiff (exArray 0) (exArray 1)).2 = 0 ↔ (10 = 10 ∧ [1, 2] = [1, 3]) :=
  anonymous_comparable_iff stdDecls (by decide) exWorld _ exDiff 10 10 [1, 2] [1, 3] (exArray 0)
    (exArray 1) (by decide) (by decide) (by decide) (by decide)
    (Prod.ext rfl (by decide)) (Prod.ext rfl (by decide)) (by decide)

/-- Claim C7: for a handle with a buffer (satisfying the handle invariant),
`mbarray_ClearAll` returns 0, keeps the buffer's length and every byte of the preamble
region, makes each of the `size` data words zero, and so every bit `i < bits` reads as
clear.  The handle is passed by value: its bit count and sizes are not assigned. -/
theorem mbarray_ClearAll_scope (K : Decls) (hK : K.ok) (w : World) (a : MBArray) (v : List Nat)
    (ha : Shaped K w a v) :
    (mbarray_ClearAll K w (some a)).2 = 0 ∧
    ∃ v', (mbarray_ClearAll K w (some a)).1.load a.vector = some v' ∧ v'.length = v.length ∧
      (∀ k, k < a.preamblebytes → byteAt v' k = byteAt v k) ∧
      (∀ j, j < a.size → wordAt K.sizeofDTYPE v' (a.preamblesize + j) = 0) ∧
      (∀ i, i < a.bits → dataBit K a.preamblesize v' i = false) :=
  clearAll_result K hK w a v ha

set_option maxRecDepth 100000 in
/-- Instance of C7: clearing the first array of `exTwo`, whose data bytes are `5, 1`. -/
theorem mbarray_ClearAll_scope_witness :
    (mbarray_ClearAll stdDecls exTwo (some (exArray 0))).2 = 0 ∧
    ∃ v', (mbarray_ClearAll stdDecls exTwo (some (exArray 0))).1.load (Ptr.heap 0) = some v' ∧
      v'.length = (memcpy (layout stdDecls 10 [1, 2] 258) 256 [5, 1]).length ∧
      (∀ k, k < 256 → byteAt v' k = byteAt (memcpy (layout stdDecls 10 [1, 2] 258) 256 [5, 1]) k) ∧
      (∀ j, j < 1 → wordAt 4 v' (64 + j) = 0) ∧
      (∀ i, i < 10 → dataBit stdDecls 64 v' i = false) :=
  mbarray_ClearAll_scope stdDecls (by decide) exTwo (exArray 0)
    (memcpy (layout stdDecls 10 [1, 2] 258) 256 [5, 1])
    ⟨by rfl, by decide, by decide, by decide, by decide, by decide⟩

/-- Claim C8: for comparable handles `a` and `b` and each operator, the ternary variant
with `dest` aliased to `a` is the binary operation on `(a, b)`; and with `dest` a handle of
the same preamble geometry whose buffer is a copy of `a`'s, the ternary variant leaves in
`dest`'s buffer the bytes that the binary operation leaves in `a`'s. -/
theorem ternary_matches_binary (K : Decls) (hK : K.ok) (w : World) (dest a b : MBArray)
    (hcmp : (_assert_comparable w a b).2 = 0)
    (hcopy : w.load dest.vector = w.load a.vector)
    (hps : dest.preamblesize = a.preamblesize) (hpb : dest.preamblebytes = a.preamblebytes) :
    (mbarray_And_Ternary K w a a b = mbarray_And K w a b ∧
      mbarray_Or_Ternary K w a a b = mbarray_Or K w a b ∧
      mbarray_Xor_Ternary K w a a b = mbarray_Xor K w a b) ∧
    ((mbarray_And_Ternary K w dest a b).2 = some dest ∧ (mbarray_And K w a b).2 = some a ∧
      ∃ v, (mbarray_And_Ternary K w dest a b).1.load dest.vector = some v ∧
        (mbarray_And K w a b).1.load a.vector = some v) ∧
    ((mbarray_Or_Ternary K w dest a b).2 = some dest ∧ (mbarray_Or K w a b).2 = some a ∧
      ∃ v, (mbarray_Or_Ternary K w dest a b).1.load dest.vector = some v ∧
        (mbarray_Or K w a b).1.load a.vector = some v) ∧
    ((mbarray_Xor_Ternary K w dest a b).2 = some dest ∧ (mbarray_Xor K w a b).2 = some a ∧
      ∃ v, (mbarray_Xor_Ternary K w dest a b).1.load dest.vector = some v ∧
        (mbarray_Xor K w a b).1.load a.vector = some v) :=
  ⟨⟨ternary_alias_eq_binary K _ w a b, ternary_alias_eq_binary K _ w a b,
      ternary_alias_eq_binary K _ w a b⟩,
    ternary_copy_eq_binary K hK _ w dest a b hcmp hcopy hps hpb,
    ternary_copy_eq_binary K hK _ w dest a b hcmp hcopy hps hpb,
    ternary_copy_eq_binary K hK _ w dest a b hcmp hcopy hps hpb⟩

set_option maxRecDepth 100000 in
/-- Instance of C8: in `exThree` the third array is a copy of the first; the XOR of the
first two arrays leaves the data bytes `6, 0` either way. -/
theorem ternary_matches_binary_witness :
    (mbarray_Xor_Ternary stdDecls exThree (exArray 2) (exArray 0) (exArray 1)).2 = some (exArray 2) ∧
    (mbarray_Xor stdDecls exThree (exArray 0) (exArray 1)).2 = some (exArray 0) ∧
    ∃ v, (mbarray_Xor_Ternary stdDecls exThree (exArray 2) (exArray 0) (exArray 1)).1.load
        (Ptr.heap 2) = some v ∧
      (mbarray_Xor stdDecls exThree (exArray 0) (exArray 1)).1.load (Ptr.heap 0) = some v :=
  (ternary_matches_binary stdDecls (by decide) exThree (exArray 2) (exArray 0) (exArray 1)
    (by decide) (by rfl) (by decide) (by decide)).2.2.2

/-- Claim C4 (round trip): when `mbarray_Create` with `(B, H)` and the create flag succeeds
on an empty or absent file, then after `mbarray_Destroy` of the handle, `mbarray_Create`
on the same path with bit count 0, header length `|H|` and read-write access returns a
handle: its bit count is `B`, its word count and data byte count are the ones computed
from `B` (those of the first handle), `mbarray_HeaderLen` returns `|H|` and
`mbarray_Header` with maximal length `|H|` returns the bytes of `H`. -/
theorem create_round_trip (K : Decls) (hK : K.ok) (w w1 : World) (path : String)
    (fl fl2 : OFlags) (perms perms2 : Nat) (B : Nat) (H H' : List Nat) (h1 : MBArray)
    (hB : B < 2 ^ 64) (hL : H.length < 2 ^ 31)
    (hov : preambleBlocks K H.length * 256 ≤ INT_MAX)
    (hfile : w.files path = some [] ∨ w.files path = none) (hcr : fl.creat = true)
    (hrw2 : fl2.accmode = AccMode.rdwr)
    (hc : mbarray_Create K w B H H.length (some ⟨path, fl, perms⟩) = (w1, some h1)) :
    ∃ w2 h2,
      mbarray_Create K (mbarray_Destroy w1 (some h1)) 0 H' H.length (some ⟨path, fl2, perms2⟩)
        = (w2, some h2) ∧
      h2.bits = B ∧
      h2.size = ceilDiv (toDouble B) (K.sizeofDTYPE * 8) ∧ h2.bytes = ceilDiv (toDouble B) 8 ∧
      h2.size = h1.size ∧ h2.bytes = h1.bytes ∧ h2.preamblebytes = h1.preamblebytes ∧
      (mbarray_HeaderLen K w2 h2).2 = (H.length : Int) ∧
      (mbarray_Header K w2 h2 (H.length : Int)).2 = some H := by
  have hfile2 : w.files path = some [] ∨ (w.files path = none ∧ fl.creat = true) :=
    hfile.imp id (fun h => ⟨h, hcr⟩)
  obtain ⟨p1, p2⟩ := create_fresh K hK w path fl perms B H hB hL hov hfile2
  have hcond := p2 h1 (by rw [hc])
  have heq := p1 hcond
  rw [hc] at heq
  obtain ⟨_, hB0, _, _, hml⟩ := hcond
  obtain ⟨g1, g2, g3, _⟩ := newArray_geometry K hK B H.length hL hov
  simp only [Prod.mk.injEq, Option.some.injEq] at heq
  obtain ⟨hw1, hh1⟩ := heq
  subst hw1 hh1
  obtain ⟨d1, d2, _, _, _⟩ := destroy_mapped { w with errno := 0, handles := w.handles + 1 } path
    (layout K B H ((newArray K B H.length).preamblebytes + (newArray K B H.length).bytes))
    w.nextFd true true
    ((newArray K B H.length).preamblebytes + (newArray K B H.length).bytes) 0
    { newArray K B H.length with
      fd := (w.nextFd : Int), vector := Ptr.mapped path, filename := some path } rfl rfl rfl
  have hre := reopen K hK _ path B H H' fl2 perms2 hB0 hB hL hov d1 hrw2
    (by rw [d2]; exact hml)
  refine ⟨_, _, hre, g1, g3, g2, rfl, rfl, rfl, ?_⟩
  exact header_reads K _ path _ _ true 0 0 _ rfl B H (layout_fileOf K B H _) hB hL

set_option maxRecDepth 100000 in
/-- Instance of C4: a 10-bit array with the header `[1, 2]` created in `a.bin`, destroyed
and opened again with bit count 0. -/
theorem create_round_trip_witness :
    mbarray_Create stdDecls exWorld 10 [1, 2] 2 (some exSpec) =
      ((mbarray_Create stdDecls exWorld 10 [1, 2] 2 (some exSpec)).1,
        some ⟨10, 1, 64, 2, 256, some "a.bin", Ptr.mapped "a.bin", 3⟩) ∧
    ∃ w2 h2,
      mbarray_Create stdDecls
        (mbarray_Destroy (mbarray_Create stdDecls exWorld 10 [1, 2] 2 (some exSpec)).1
          (some ⟨10, 1, 64, 2, 256, some "a.bin", Ptr.mapped "a.bin", 3⟩))
        0 [] 2 (some ⟨"a.bin", ⟨AccMode.rdwr, false⟩, 0⟩) = (w2, some h2) ∧
      h2.bits = 10 ∧
      h2.size = ceilDiv (toDouble 10) (stdDecls.sizeofDTYPE * 8) ∧
      h2.bytes = ceilDiv (toDouble 10) 8 ∧
      h2.size = 1 ∧ h2.bytes = 2 ∧ h2.preamblebytes = 256 ∧
      (mbarray_HeaderLen stdDecls w2 h2).2 = 2 ∧
      (mbarray_Header stdDecls w2 h2 2).2 = some [1, 2] :=
  ⟨Prod.ext rfl (by decide),
   create_round_trip stdDecls (by decide) exWorld _ "a.bin" ⟨AccMode.rdwr, true⟩
    ⟨AccMode.rdwr, false⟩ 0 0 10 [1, 2] [] ⟨10, 1, 64, 2, 256, some "a.bin", Ptr.mapped "a.bin", 3⟩
    (by decide) (by decide) (by decide) (Or.inr rfl) rfl rfl (Prod.ext rfl (by decide))⟩

/-- Claim C5 (shape mismatch rejection): on an existing file that starts with the preamble
a creation with bit count `B` and header `H0` wrote, `mbarray_Create` with a non-zero bit
count other than `B` returns NULL with `errno = EINVAL`, whatever the flags and the
header length; and `mbarray_Create` without `O_CREAT` and with a header length other
than `|H0|` returns NULL with `errno = EINVAL`, whatever the bit count. -/
theorem create_shape_mismatch (K : Decls) (w : World) (path : String) (c : List Nat)
    (B : Nat) (H0 : List Nat) (hfile : w.files path = some c) (hc : FileOf K c B H0)
    (hB : B < 2 ^ 64) (hL : H0.length < 2 ^ 31) (hlen : c.length < 2 ^ 63)
    (B' : Nat) (H : List Nat) (L : Nat) (fl : OFlags) (perms : Nat) :
    (B' ≠ 0 → B' ≠ B → Refused (mbarray_Create K w B' H L (some ⟨path, fl, perms⟩))) ∧
    (fl.creat = false → L ≠ H0.length →
      Refused (mbarray_Create K w B' H L (some ⟨path, fl, perms⟩))) :=
  ⟨fun h0 hne => create_bits_mismatch K w path c B H0 hfile hc hB hL hlen B' H L fl perms h0 hne,
   fun hcr hne => create_header_mismatch K w path c B H0 hfile hc hB hL hlen B' H L fl perms
    hcr hne⟩

set_option maxRecDepth 100000 in
/-- Instance of C5: the file `a.bin` of a 10-bit array with the header `[1, 2]` is
refused for 11 bits, and for a header length of 3 without `O_CREAT`. -/
theorem create_shape_mismatch_witness :
    exFile.files "a.bin" = some (layout stdDecls 10 [1, 2] 258) ∧
    Refused (mbarray_Create stdDecls exFile 11 [1, 2] 2 (some ⟨"a.bin", ⟨AccMode.rdwr, true⟩, 0⟩)) ∧
    Refused (mbarray_Create stdDecls exFile 10 [1, 2, 3] 3
      (some ⟨"a.bin", ⟨AccMode.rdwr, false⟩, 0⟩)) :=
  ⟨by rfl,
   (create_shape_mismatch stdDecls exFile "a.bin" (layout stdDecls 10 [1, 2] 258) 10 [1, 2]
      (by rfl) ⟨_, rfl⟩ (by decide) (by decide) (by decide) 11 [1, 2] 2
      ⟨AccMode.rdwr, true⟩ 0).1 (by decide) (by decide),
   (create_shape_mismatch stdDecls exFile "a.bin" (layout stdDecls 10 [1, 2] 258) 10 [1, 2]
      (by rfl) ⟨_, rfl⟩ (by decide) (by decide) (by decide) 10 [1, 2, 3] 3
      ⟨AccMode.rdwr, false⟩ 0).2 rfl (by decide)⟩

/-- Claim C6 (corruption rejection): on a non-empty file whose first `MBAMAGICSIZE` bytes
are not the magic (a shorter file included), file-backed `mbarray_Create` returns NULL
with `errno = EINVAL` for every bit count, header, header length and flags. -/
theorem create_corrupt_rejected (K : Decls) (hK : K.ok) (w : World) (path : String)
    (c : List Nat) (hfile : w.files path = some c) (hne : c ≠ []) (hlen : c.length < 2 ^ 63)
    (hbad : c.take K.MBAMAGICSIZE ≠ K.MBAMAGIC)
    (B : Nat) (H : List Nat) (L : Nat) (fl : OFlags) (perms : Nat) :
    Refused (mbarray_Create K w B H L (some ⟨path, fl, perms⟩)) := by
  rw [create_file_eq]
  exact init_mmap_bad_magic K hK (startWorld K w L) path c hfile hne hlen hbad
    (newArray K B L) rfl H L fl perms

/-- Instance of C6: the three-byte file `b.bin` is refused when opened for 0 bits. -/
theorem create_corrupt_rejected_witness :
    exCorrupt.files "b.bin" = some [1, 2, 3] ∧
    Refused (mbarray_Create stdDecls exCorrupt 0 [] 0
      (some ⟨"b.bin", ⟨AccMode.rdwr, true⟩, 0⟩)) :=
  ⟨by rfl,
   create_corrupt_rejected stdDecls (by decide) exCorrupt "b.bin" [1, 2, 3] (by rfl)
    (by decide) (by decide) (by decide) 0 [] 0 ⟨AccMode.rdwr, true⟩ 0⟩

/-- Claim C9 (preamble encoding): when anonymous `mbarray_Create` and `mbarray_Create` on
an empty or absent file both succeed for `(B, H)`, the buffer stamped by
`_initialize_memory` and the file written by `_initialize_file` both hold the magic
bytes, `B` as 8 bytes, `|H|` as 4 bytes, the bytes of `H`, and zeros up to
`preamblebytes + bytes`; the two byte counts are equal, so the file and the buffer are
equal byte for byte. -/
theorem preamble_encoding (K : Decls) (hK : K.ok) (wa wa1 wf wf1 : World) (path : String)
    (fl : OFlags) (perms : Nat) (B : Nat) (H : List Nat) (ha hf : MBArray)
    (hB : B < 2 ^ 64) (hL : H.length < 2 ^ 31)
    (hov : preambleBlocks K H.length * 256 ≤ INT_MAX)
    (hfile : wf.files path = some [] ∨ (wf.files path = none ∧ fl.creat = true))
    (hca : mbarray_Create K wa B H H.length none = (wa1, some ha))
    (hcf : mbarray_Create K wf B H H.length (some ⟨path, fl, perms⟩) = (wf1, some hf)) :
    wa1.load ha.vector = some (K.MBAMAGIC ++ leBytes B 8 ++ leBytes H.length 4 ++ H ++
      List.replicate (ha.preamblebytes + ha.bytes - (K.MBAMAGICSIZE + 8 + 4 + H.length)) 0) ∧
    wf1.files path = some (K.MBAMAGIC ++ leBytes B 8 ++ leBytes H.length 4 ++ H ++
      List.replicate (hf.preamblebytes + hf.bytes - (K.MBAMAGICSIZE + 8 + 4 + H.length)) 0) ∧
    K.MBAMAGICSIZE + 8 + 4 + H.length ≤ ha.preamblebytes ∧
    ha.preamblebytes + ha.bytes = hf.preamblebytes + hf.bytes ∧
    wf1.files path = wa1.load ha.vector := by
  have hM : K.MBAMAGIC.length = K.MBAMAGICSIZE := rfl
  have hpl : (preambleBytes K B H).length = K.MBAMAGICSIZE + 8 + 4 + H.length := by
    rw [preambleBytes_length]
  obtain ⟨a1, a2, a3⟩ := create_anon_layout K hK wa wa1 B H ha hB hL hov hca
  obtain ⟨p1, p2⟩ := create_fresh K hK wf path fl perms B H hB hL hov hfile
  have heq := p1 (p2 hf (by rw [hcf]))
  rw [hcf] at heq
  simp only [Prod.mk.injEq, Option.some.injEq] at heq
  obtain ⟨hw1, hh1⟩ := heq
  obtain ⟨_, _, _, g4, _, _, _, _, g9, _⟩ := newArray_geometry K hK B H.length hL hov
  have f1 : wf1.files path = some (layout K B H (hf.preamblebytes + hf.bytes)) := by
    rw [hw1, hh1, st_files]
  have e1 : ha.preamblebytes + ha.bytes = hf.preamblebytes + hf.bytes := by
    rw [a2, a3, hh1]
  refine ⟨?_, ?_, ?_, e1, ?_⟩
  · rw [a1]; unfold layout; rw [hpl]; rfl
  · rw [f1]; unfold layout; rw [hpl]; rfl
  · rw [a2, g4]; omega
  · rw [f1, a1, e1]

set_option maxRecDepth 100000 in
/-- Instance of C9: the buffer and the file of a 10-bit array with the header `[1, 2]`
hold the same 258 bytes. -/
theorem preamble_encoding_witness :
    mbarray_Create stdDecls exWorld 10 [1, 2] 2 none =
      ((mbarray_Create stdDecls exWorld 10 [1, 2] 2 none).1, some (exArray 0)) ∧
    mbarray_Create stdDecls exWorld 10 [1, 2] 2 (some exSpec) =
      ((mbarray_Create stdDecls exWorld 10 [1, 2] 2 (some exSpec)).1, some exHandle) ∧
    (mbarray_Create stdDecls exWorld 10 [1, 2] 2 (some exSpec)).1.files "a.bin" =
      (mbarray_Create stdDecls exWorld 10 [1, 2] 2 none).1.load (Ptr.heap 0) :=
  ⟨Prod.ext rfl (by decide), Prod.ext rfl (by decide),
   (preamble_encoding stdDecls (by decide) exWorld _ exWorld _ "a.bin" ⟨AccMode.rdwr, true⟩ 0
    10 [1, 2] (exArray 0) exHandle (by decide) (by decide) (by decide) (Or.inr ⟨rfl, rfl⟩)
    (Prod.ext rfl (by decide)) (Prod.ext rfl (by decide))).2.2.2.2⟩

/-- Claim C10: after file-backed `mbarray_Create` succeeds on a zero-length file (one that
was empty, or absent and opened with `O_CREAT`), the file is exactly
`preamblebytes + bytes` bytes long. -/
theorem created_file_length (K : Decls) (hK : K.ok) (w w1 : World) (path : String)
    (fl : OFlags) (perms : Nat) (B : Nat) (H : List Nat) (h : MBArray)
    (hB : B < 2 ^ 64) (hL : H.length < 2 ^ 31)
    (hov : preambleBlocks K H.length * 256 ≤ INT_MAX)
    (hfile : w.files path = some [] ∨ (w.files path = none ∧ fl.creat = true))
    (hc : mbarray_Create K w B H H.length (some ⟨path, fl, perms⟩) = (w1, some h)) :
    (w1.files path).map List.length = some (h.preamblebytes + h.bytes) := by
  obtain ⟨p1, p2⟩ := create_fresh K hK w path fl perms B H hB hL hov hfile
  have heq := p1 (p2 h (by rw [hc]))
  rw [hc] at heq
  simp only [Prod.mk.injEq, Option.some.injEq] at heq
  obtain ⟨hw1, hh1⟩ := heq
  obtain ⟨_, _, _, g4, _, _, _, _, g9, _⟩ := newArray_geometry K hK B H.length hL hov
  rw [hw1, hh1, st_files, Option.map_some']
  congr 1
  exact layout_length K B H _ (by rw [g4]; omega)

set_option maxRecDepth 100000 in
/-- Instance of C10: the file of a 10-bit array with the header `[1, 2]` is 258 bytes
long. -/
theorem created_file_length_witness :
    exWorld.files "a.bin" = none ∧
    mbarray_Create stdDecls exWorld 10 [1, 2] 2 (some exSpec) =
      ((mbarray_Create stdDecls exWorld 10 [1, 2] 2 (some exSpec)).1, some exHandle) ∧
    ((mbarray_Create stdDecls exWorld 10 [1, 2] 2 (some exSpec)).1.files "a.bin").map
      List.length = some (256 + 2) :=
  ⟨rfl, Prod.ext rfl (by decide),
   created_file_length stdDecls (by decide) exWorld _ "a.bin" ⟨AccMode.rdwr, true⟩ 0 10 [1, 2]
    exHandle (by decide) (by decide) (by decide) (Or.inr ⟨rfl, rfl⟩)
    (Prod.ext rfl (by decide))⟩

set_option maxRecDepth 100000 in
/-- Claim C11 at a failing input: `s.bin` holds the first 257 of the 258 bytes of a
10-bit array with the header `[1, 2]`.  `mbarray_Create` with bit count 0, header length
2 and `O_RDWR` returns a handle with `preamblebytes + bytes = 258`, the length that is
mapped, while the file is 257 bytes long before and after the call: the size check
compares with `bytes + preamblebytes - 1`. -/
theorem create_accepts_short_file :
    (exShort.files "s.bin").map List.length = some 257 ∧
    ∃ h, (mbarray_Create stdDecls exShort 0 [] 2
        (some ⟨"s.bin", ⟨AccMode.rdwr, false⟩, 0⟩)).2 = some h ∧
      ((mbarray_Create stdDecls exShort 0 [] 2
        (some ⟨"s.bin", ⟨AccMode.rdwr, false⟩, 0⟩)).1.files "s.bin").map List.length = some 257 ∧
      h.preamblebytes + h.bytes = 258 ∧ _mmap_size h = 258 :=
  ⟨by decide, ⟨10, 1, 64, 2, 256, some "s.bin", Ptr.mapped "s.bin", 3⟩, by decide, by decide,
    by decide, by decide⟩

/-- Claim C12, amended: for a header length `L` with
`MBAMAGICSIZE + 8 + 4 + L <= 2 ^ 31 - 256`, `_mmap_create_mbarray` (entered with
`errno = 0`) returns a handle whose `preamblebytes` is a positive multiple of 256, the
least multiple of 256 that is at least `MBAMAGICSIZE + 8 + 4 + L`, and equal to
`preamblesize * sizeof(DTYPE)`; no overflow is flagged. -/
theorem preamble_geometry (K : Decls) (hK : K.ok) (w : World) (B L : Nat)
    (hw : w.errno = 0) (hL : K.MBAMAGICSIZE + 8 + 4 + L ≤ 2 ^ 31 - 256) :
    ∃ a, (_mmap_create_mbarray K w B L).2 = some a ∧
      0 < a.preamblebytes ∧ 256 ∣ a.preamblebytes ∧
      K.MBAMAGICSIZE + 8 + 4 + L ≤ a.preamblebytes ∧
      (∀ m, 256 ∣ m → K.MBAMAGICSIZE + 8 + 4 + L ≤ m → a.preamblebytes ≤ m) ∧
      a.preamblesize * K.sizeofDTYPE = a.preamblebytes ∧
      (_mmap_create_mbarray K w B L).1.undef = w.undef := by
  have hov := preambleBlocks_fits K L hL
  obtain ⟨_, _, _, g4, g5, _, _, _, g9, _⟩ := newArray_geometry K hK B L (by omega) hov
  have hM : 0 < K.MBAMAGICSIZE + 8 + 4 + L := by omega
  refine ⟨newArray K B L, ?_, ?_, ?_, ?_, ?_, ?_, ?_⟩
  · unfold _mmap_create_mbarray
    simp [hw]
  · rw [g4]; omega
  · rw [g4]; exact Dvd.intro_left _ rfl
  · rw [g4]; omega
  · intro m hm hle
    rw [g4]
    exact preambleBlocks_least K L hL m hm hle
  · rw [g5, g4]
  · unfold _mmap_create_mbarray
    have : ¬ INT_MAX < preambleBlocks K L * 256 := by omega
    simp [hw, this]

/-- Instance of C12: a header of 2 bytes with the 9-byte magic gives a preamble of 256
bytes in 64 words of 4 bytes. -/
theorem preamble_geometry_witness :
    ∃ a, (_mmap_create_mbarray stdDecls exWorld 10 2).2 = some a ∧
      0 < a.preamblebytes ∧ 256 ∣ a.preamblebytes ∧
      stdDecls.MBAMAGICSIZE + 8 + 4 + 2 ≤ a.preamblebytes ∧
      (∀ m, 256 ∣ m → stdDecls.MBAMAGICSIZE + 8 + 4 + 2 ≤ m → a.preamblebytes ≤ m) ∧
      a.preamblesize * stdDecls.sizeofDTYPE = a.preamblebytes ∧
      (_mmap_create_mbarray stdDecls exWorld 10 2).1.undef = exWorld.undef :=
  preamble_geometry stdDecls (by decide) exWorld 10 2 rfl (by decide)

/-- Claim C12 as stated fails for the header length `2 ^ 31 - 1`: the padded size
`2 ^ 31 + 256` does not fit the `int` in which `_mmap_create_mbarray` computes it (the
overflow is flagged), and the handle's `preamblebytes` is not the least multiple of 256
that holds the preamble. -/
theorem preamble_geometry_overflow :
    ∃ a, (_mmap_create_mbarray stdDecls exWorld 0 2147483647).2 = some a ∧
      (_mmap_create_mbarray stdDecls exWorld 0 2147483647).1.undef = true ∧
      ¬ (∀ m, 256 ∣ m → stdDecls.MBAMAGICSIZE + 8 + 4 + 2147483647 ≤ m → a.preamblebytes ≤ m) :=
  ⟨newArray stdDecls 0 2147483647, by decide, by decide,
    fun h => absurd (h 2147483904 (by decide) (by decide)) (by decide)⟩

set_option maxRecDepth 100000 in
/-- Claim C15 at failing inputs: `mbarray_Create` on the three-byte file `b.bin` (bad
magic), on `a.bin` with the bit count 11 instead of 10 (bit-count mismatch) and on a new
empty file with bit count 0 each return NULL and free the structure (the count of live
handles is as before), but the descriptor the call opened is still open afterwards:
`mbarray_Destroy` closes it only when `vector` is set. -/
theorem failed_create_keeps_descriptor :
    (exCorrupt.fds 3 = none ∧
      (mbarray_Create stdDecls exCorrupt 0 [] 0
        (some ⟨"b.bin", ⟨AccMode.rdwr, true⟩, 0⟩)).2 = none ∧
      (mbarray_Create stdDecls exCorrupt 0 [] 0
        (some ⟨"b.bin", ⟨AccMode.rdwr, true⟩, 0⟩)).1.handles = exCorrupt.handles ∧
      (mbarray_Create stdDecls exCorrupt 0 [] 0
        (some ⟨"b.bin", ⟨AccMode.rdwr, true⟩, 0⟩)).1.fds 3 = some ⟨"b.bin", true, true, 0⟩) ∧
    (exFile.fds 4 = none ∧
      (mbarray_Create stdDecls exFile 11 [1, 2] 2
        (some ⟨"a.bin", ⟨AccMode.rdwr, true⟩, 0⟩)).2 = none ∧
      (mbarray_Create stdDecls exFile 11 [1, 2] 2
        (some ⟨"a.bin", ⟨AccMode.rdwr, true⟩, 0⟩)).1.handles = exFile.handles ∧
      (mbarray_Create stdDecls exFile 11 [1, 2] 2
        (some ⟨"a.bin", ⟨AccMode.rdwr, true⟩, 0⟩)).1.fds 4 = some ⟨"a.bin", true, true, 0⟩) ∧
    (exWorld.fds 3 = none ∧
      (mbarray_Create stdDecls exWorld 0 [] 0
        (some ⟨"n.bin", ⟨AccMode.rdwr, true⟩, 0⟩)).2 = none ∧
      (mbarray_Create stdDecls exWorld 0 [] 0
        (some ⟨"n.bin", ⟨AccMode.rdwr, true⟩, 0⟩)).1.fds 3 = some ⟨"n.bin", true, true, 0⟩) :=
  ⟨⟨by decide, by decide, by decide, by decide⟩, ⟨by decide, by decide, by decide, by decide⟩,
    ⟨by decide, by decide, by decide⟩⟩

set_option maxRecDepth 100000 in
/-- Claim C16 at a failing input: `l.bin` is the file a creation with 10 bits and a
header of 236 bytes writes, so its stored header length is 236 and its data region
starts at byte 512.  `mbarray_Create` with `O_CREAT`, 10 bits and the header length 0
returns a handle with `preamblebytes = 256` and `preamblesize = 64`, the values of the
caller's header length, while `mbarray_HeaderLen` of that handle is 236. -/
theorem create_keeps_caller_geometry :
    (mbarray_Create stdDecls exWorld 10 exHeader 236
      (some ⟨"l.bin", ⟨AccMode.rdwr, true⟩, 0⟩)).1.files "l.bin" = exLong.files "l.bin" ∧
    (newArray stdDecls 10 236).preamblebytes = 512 ∧
    ∃ h, (mbarray_Create stdDecls exLong 10 [] 0
        (some ⟨"l.bin", ⟨AccMode.rdwr, true⟩, 0⟩)).2 = some h ∧
      h.preamblebytes = 256 ∧ h.preamblesize = 64 ∧
      (mbarray_HeaderLen stdDecls (mbarray_Create stdDecls exLong 10 [] 0
        (some ⟨"l.bin", ⟨AccMode.rdwr, true⟩, 0⟩)).1 h).2 = 236 :=
  ⟨by decide, by decide, ⟨10, 1, 64, 2, 256, some "l.bin", Ptr.mapped "l.bin", 3⟩, by decide,
    by decide, by decide, by decide⟩

/-- Claim C17, amended: for a bit count `n <= 2 ^ 53`, `_mmap_update_bits` sets `bits` to
`n`, `size` to the exact ceiling of `n / W` and `bytes` to the exact ceiling of `n / 8`,
and leaves the other fields. -/
theorem update_bits_exact (K : Decls) (hK : K.ok) (n : Nat) (hn : n ≤ 2 ^ 53) (a : MBArray) :
    (_mmap_update_bits K n a).bits = n ∧
    (_mmap_update_bits K n a).size = (n + K.W - 1) / K.W ∧
    (_mmap_update_bits K n a).bytes = (n + 8 - 1) / 8 ∧
    n ≤ K.W * (_mmap_update_bits K n a).size ∧ K.W * (_mmap_update_bits K n a).size < n + K.W ∧
    n ≤ 8 * (_mmap_update_bits K n a).bytes ∧ 8 * (_mmap_update_bits K n a).bytes < n + 8 ∧
    (_mmap_update_bits K n a).preamblebytes = a.preamblebytes ∧
    (_mmap_update_bits K n a).preamblesize = a.preamblesize := by
  have hd : toDouble n = n := by
    rcases Nat.lt_or_ge n (2 ^ 53) with h | h
    · exact toDouble_small h
    · have : n = 2 ^ 53 := by omega
      subst this
      decide
  have hW : K.sizeofDTYPE * 8 = K.W := by unfold Decls.W; omega
  have hpos : 0 < K.W := by
    have := Decls.ok_pos hK
    unfold Decls.W; omega
  have hs : (_mmap_update_bits K n a).size = (n + K.W - 1) / K.W := by
    show ceilDiv (toDouble n) (K.sizeofDTYPE * 8) = _
    rw [hd, hW]; rfl
  have hb : (_mmap_update_bits K n a).bytes = (n + 8 - 1) / 8 := by
    show ceilDiv (toDouble n) 8 = _
    rw [hd]; rfl
  have e1 := Nat.div_add_mod (n + K.W - 1) K.W
  have e2 := Nat.mod_lt (n + K.W - 1) hpos
  refine ⟨rfl, hs, hb, ?_, ?_, ?_, ?_, rfl, rfl⟩
  · rw [hs]; omega
  · rw [hs]; omega
  · rw [hb]; omega
  · rw [hb]; omega

/-- Instance of C17: 10 bits need one 32-bit word and 2 bytes. -/
theorem update_bits_exact_witness :
    (10 : Nat) ≤ 2 ^ 53 ∧
    (_mmap_update_bits stdDecls 10 (exArray 0)).bits = 10 ∧
    (_mmap_update_bits stdDecls 10 (exArray 0)).size = (10 + stdDecls.W - 1) / stdDecls.W ∧
    (_mmap_update_bits stdDecls 10 (exArray 0)).bytes = (10 + 8 - 1) / 8 :=
  ⟨by decide,
    (update_bits_exact stdDecls (by decide) 10 (by decide) (exArray 0)).1,
    (update_bits_exact stdDecls (by decide) 10 (by decide) (exArray 0)).2.1,
    (update_bits_exact stdDecls (by decide) 10 (by decide) (exArray 0)).2.2.1⟩

/-- Claim C17 as stated fails for `n = 2 ^ 53 + 1`: `(double)n` is `2 ^ 53`, so
`_mmap_update_bits` sets `bytes` to `2 ^ 50` and `size` to `2 ^ 48`, one less than the
exact ceilings of `n / 8` and `n / 32`; the `bytes` bytes cannot hold `n` bits. -/
theorem update_bits_rounds :
    (_mmap_update_bits stdDecls (2 ^ 53 + 1) (exArray 0)).bits = 2 ^ 53 + 1 ∧
    (_mmap_update_bits stdDecls (2 ^ 53 + 1) (exArray 0)).bytes = 2 ^ 50 ∧
    (_mmap_update_bits stdDecls (2 ^ 53 + 1) (exArray 0)).bytes ≠ (2 ^ 53 + 1 + 8 - 1) / 8 ∧
    (_mmap_update_bits stdDecls (2 ^ 53 + 1) (exArray 0)).size = 2 ^ 48 ∧
    (_mmap_update_bits stdDecls (2 ^ 53 + 1) (exArray 0)).size
      ≠ (2 ^ 53 + 1 + stdDecls.W - 1) / stdDecls.W ∧
    8 * (_mmap_update_bits stdDecls (2 ^ 53 + 1) (exArray 0)).bytes < 2 ^ 53 + 1 :=
  ⟨by decide, by decide, by decide, by decide, by decide, by decide⟩

set_option maxRecDepth 100000 in
/-- Claim C18 at a failing input: anonymous `mbarray_Create` with 10 bits, the header
`[1, 2]` and 4-byte storage words returns a handle with a buffer of
`preamblebytes + bytes = 258` bytes, while its one data word ends at byte
`preamblebytes + size * sizeof(DTYPE) = 260`. -/
theorem create_word_past_buffer :
    ∃ h v, (mbarray_Create stdDecls exWorld 10 [1, 2] 2 none).2 = some h ∧
      (mbarray_Create stdDecls exWorld 10 [1, 2] 2 none).1.load h.vector = some v ∧
      v.length = 258 ∧ h.preamblebytes + h.bytes = 258 ∧
      h.preamblebytes + h.size * stdDecls.sizeofDTYPE = 260 ∧
      ¬ (h.preamblebytes + h.size * stdDecls.sizeofDTYPE ≤ v.length) :=
  ⟨exArray 0, layout stdDecls 10 [1, 2] 258, by decide, by decide, by decide, by decide,
    by decide, by decide⟩

set_option maxRecDepth 100000 in
/-- Claim C20: `_assert_comparable` leaves `errno = EINVAL` whatever the handles are, and
so does every call of the six set operations, whether it returns `dest` or NULL; a call
that returns `dest` exists. -/
theorem set_algebra_errno (K : Decls) (w : World) (dest a b : MBArray) :
    (_assert_comparable w a b).1.errno = EINVAL ∧
    (mbarray_And K w dest b).1.errno = EINVAL ∧
    (mbarray_Or K w dest b).1.errno = EINVAL ∧
    (mbarray_Xor K w dest b).1.errno = EINVAL ∧
    (mbarray_And_Ternary K w dest a b).1.errno = EINVAL ∧
    (mbarray_Or_Ternary K w dest a b).1.errno = EINVAL ∧
    (mbarray_Xor_Ternary K w dest a b).1.errno = EINVAL ∧
    ((mbarray_And stdDecls exTwo (exArray 0) (exArray 1)).2 = some (exArray 0) ∧
      (mbarray_And stdDecls exTwo (exArray 0) (exArray 1)).1.errno = EINVAL ∧
      (mbarray_And stdDecls exDiff (exArray 0) (exArray 1)).2 = none ∧
      (mbarray_And stdDecls exDiff (exArray 0) (exArray 1)).1.errno = EINVAL) :=
  ⟨(assert_comparable_frame w a b).1, binary_op_errno K _ w dest b, binary_op_errno K _ w dest b,
    binary_op_errno K _ w dest b, ternary_op_errno K _ w dest a b,
    ternary_op_errno K _ w dest a b, ternary_op_errno K _ w dest a b,
    by decide, by decide, by decide, by decide⟩

/-- Claim C14: on a zero-length file that `open` opens (an empty file, or an absent one
created by `O_CREAT`), file-backed `mbarray_Create` returns a handle only if the flags
hold `O_CREAT` and the bit count is not 0; when one of the two is missing it returns NULL
with `errno = ENOENT` and the file is zero-length afterwards. -/
theorem create_on_empty_file (K : Decls) (w : World) (path : String) (fl : OFlags)
    (perms : Nat) (B : Nat) (H : List Nat) (L : Nat)
    (hfile : w.files path = some [] ∨ (w.files path = none ∧ fl.creat = true)) :
    (∀ h, (mbarray_Create K w B H L (some ⟨path, fl, perms⟩)).2 = some h →
      fl.creat = true ∧ B ≠ 0) ∧
    ((fl.creat = false ∨ B = 0) →
      (mbarray_Create K w B H L (some ⟨path, fl, perms⟩)).2 = none ∧
      (mbarray_Create K w B H L (some ⟨path, fl, perms⟩)).1.errno = ENOENT ∧
      (mbarray_Create K w B H L (some ⟨path, fl, perms⟩)).1.files path = some []) := by
  refine ⟨fun h hs => ?_, fun hno => create_empty_refused K w path fl perms B H L hfile hno⟩
  by_contra hcon
  have hno : fl.creat = false ∨ B = 0 := by
    by_cases hc : fl.creat = true
    · right
      by_contra hb
      exact hcon ⟨hc, hb⟩
    · left
      simpa using hc
  rw [(create_empty_refused K w path fl perms B H L hfile hno).1] at hs
  cases hs

/-- Instance of C14: creating `n.bin` with bit count 0 fails with `ENOENT` and leaves an
empty file. -/
theorem create_on_empty_file_witness :
    exWorld.files "n.bin" = none ∧
    (mbarray_Create stdDecls exWorld 0 [] 0 (some ⟨"n.bin", ⟨AccMode.rdwr, true⟩, 0⟩)).2 = none ∧
    (mbarray_Create stdDecls exWorld 0 [] 0
      (some ⟨"n.bin", ⟨AccMode.rdwr, true⟩, 0⟩)).1.errno = ENOENT ∧
    (mbarray_Create stdDecls exWorld 0 [] 0
      (some ⟨"n.bin", ⟨AccMode.rdwr, true⟩, 0⟩)).1.files "n.bin" = some [] :=
  ⟨rfl, (create_on_empty_file stdDecls exWorld "n.bin" ⟨AccMode.rdwr, true⟩ 0 0 [] 0
    (Or.inr ⟨rfl, rfl⟩)).2 (Or.inr rfl)⟩

/-- Claim C19: for comparable handles `dest` and `other` with distinct buffers, each of
`mbarray_And`, `mbarray_Or` and `mbarray_Xor` returns `dest` itself, leaves the buffer of
`other` as it was, keeps the length of the buffer of `dest` and every byte of its
preamble, and leaves `dest` and `other` comparable. -/
theorem set_algebra_frame (K : Decls) (hK : K.ok) (w : World) (dest other : MBArray)
    (v1 v2 : List Nat)
    (h1 : w.load dest.vector = some v1) (h2 : w.load other.vector = some v2)
    (hne : dest.vector ≠ other.vector)
    (hpre : dest.preamblebytes = dest.preamblesize * K.sizeofDTYPE)
    (hcmp : (_assert_comparable w dest other).2 = 0) :
    ∀ r, r ∈ [mbarray_And K w dest other, mbarray_Or K w dest other, mbarray_Xor K w dest other] →
      r.2 = some dest ∧
      r.1.load other.vector = some v2 ∧
      (∃ v, r.1.load dest.vector = some v ∧ v.length = v1.length ∧
        ∀ k, k < dest.preamblebytes → byteAt v k = byteAt v1 k) ∧
      (_assert_comparable r.1 dest other).2 = 0 := by
  intro r hr
  simp only [List.mem_cons, List.mem_singleton, List.mem_nil_iff, or_false] at hr
  rcases hr with rfl | rfl | rfl
  · exact binary_op_frame K hK _ w dest other v1 v2 h1 h2 hne hpre hcmp
  · exact binary_op_frame K hK _ w dest other v1 v2 h1 h2 hne hpre hcmp
  · exact binary_op_frame K hK _ w dest other v1 v2 h1 h2 hne hpre hcmp

set_option maxRecDepth 100000 in
/-- Instance of C19: `mbarray_Xor` on the two 10-bit arrays of `exTwo`. -/
theorem set_algebra_frame_witness :
    (_assert_comparable exTwo (exArray 0) (exArray 1)).2 = 0 ∧
    (mbarray_Xor stdDecls exTwo (exArray 0) (exArray 1)).2 = some (exArray 0) ∧
    (mbarray_Xor stdDecls exTwo (exArray 0) (exArray 1)).1.load (exArray 1).vector
      = some (memcpy (layout stdDecls 10 [1, 2] 258) 256 [3, 1]) ∧
    (∃ v, (mbarray_Xor stdDecls exTwo (exArray 0) (exArray 1)).1.load (exArray 0).vector = some v ∧
      v.length = (memcpy (layout stdDecls 10 [1, 2] 258) 256 [5, 1]).length ∧
      ∀ k, k < (exArray 0).preamblebytes →
        byteAt v k = byteAt (memcpy (layout stdDecls 10 [1, 2] 258) 256 [5, 1]) k) ∧
    (_assert_comparable (mbarray_Xor stdDecls exTwo (exArray 0) (exArray 1)).1
      (exArray 0) (exArray 1)).2 = 0 :=
  ⟨by decide,
    set_algebra_frame stdDecls (by decide) exTwo (exArray 0) (exArray 1)
      (memcpy (layout stdDecls 10 [1, 2] 258) 256 [5, 1])
      (memcpy (layout stdDecls 10 [1, 2] 258) 256 [3, 1])
      (by rfl) (by rfl) (by decide) (by decide) (by decide) _
      (List.mem_cons_of_mem _ (List.mem_cons_of_mem _ (List.mem_singleton.2 rfl)))⟩

/-- Claim C13, amended: when `mbarray_Copy_Template` succeeds for a handle `src` whose
descriptor reads a file with the header `H`, and `new_path` was absent or an empty file
before the call, the returned handle has the bit count of `src`, the file at `new_path`
stores the header length `|H|` and the header bytes `H`, the handle's buffer is that
file, of `preamblebytes + bytes` bytes, and every byte from `preamblebytes` on, hence
every data bit, is zero. -/
theorem copy_template_fresh (K : Decls) (hK : K.ok) (w w1 : World) (src h : MBArray)
    (p : String) (wr : Bool) (off : Nat) (c : List Nat) (B : Nat) (H : List Nat)
    (newp : String) (perms : Nat)
    (hfd : w.fd? src.fd = some ⟨p, true, wr, off⟩) (hfile : w.files p = some c)
    (hc : FileOf K c B H) (hB : B < 2 ^ 64) (hbits : src.bits < 2 ^ 64)
    (hL : K.MBAMAGICSIZE + 8 + 4 + H.length ≤ 2 ^ 31 - 256)
    (hnew : w.files newp = none ∨ w.files newp = some [])
    (hs : mbarray_Copy_Template K w src newp perms = (w1, some h)) :
    h.bits = src.bits ∧
    (mbarray_HeaderLen K w1 h).2 = (H.length : Int) ∧
    (mbarray_Header K w1 h (H.length : Int)).2 = some H ∧
    ∃ f, w1.files newp = some f ∧ w1.load h.vector = some f ∧
      f.length = h.preamblebytes + h.bytes ∧
      (∀ k, h.preamblebytes ≤ k → byteAt f k = 0) ∧
      (∀ i, dataBit K h.preamblesize f i = false) := by
  have hL31 : H.length < 2 ^ 31 := by omega
  have hov := preambleBlocks_fits K H.length hL
  rcases copy_template_eq K w src p wr off c B H newp perms hfd hfile hc hB hL31 with
    hnone | ⟨w2, heq, hf2, _⟩
  · rw [hs] at hnone; cases hnone
  rw [heq] at hs
  have hfile2 : w2.files newp = some [] ∨
      (w2.files newp = none ∧ (⟨AccMode.rdwr, true⟩ : OFlags).creat = true) := by
    rw [hf2]
    rcases hnew with h0 | h0
    · exact Or.inr ⟨h0, rfl⟩
    · exact Or.inl h0
  obtain ⟨p1, p2⟩ := create_fresh K hK w2 newp ⟨AccMode.rdwr, true⟩ perms src.bits H hbits hL31
    hov hfile2
  have e := p1 (p2 h (by rw [hs]))
  rw [hs] at e
  simp only [Prod.mk.injEq, Option.some.injEq] at e
  obtain ⟨hw1, hh⟩ := e
  obtain ⟨g1, _, _, g4, g5, _, _, _, g9, _⟩ := newArray_geometry K hK src.bits H.length hL31 hov
  have hpb : h.preamblebytes = preambleBlocks K H.length * 256 := by rw [hh]; exact g4
  have hps : h.preamblesize * K.sizeofDTYPE = h.preamblebytes := by
    rw [hh]; show (newArray K src.bits H.length).preamblesize * _ = (newArray K src.bits H.length).preamblebytes
    rw [g5, g4]
  have hhd := header_reads K { w2 with errno := 0, handles := w2.handles + 1 } newp
    (layout K src.bits H
      ((newArray K src.bits H.length).preamblebytes + (newArray K src.bits H.length).bytes))
    w2.nextFd true
    ((newArray K src.bits H.length).preamblebytes + (newArray K src.bits H.length).bytes) 0
    h (by rw [hh]) src.bits H (layout_fileOf K src.bits H _) hbits hL31
  have hzero : ∀ k, h.preamblebytes ≤ k → byteAt (layout K src.bits H
      ((newArray K src.bits H.length).preamblebytes + (newArray K src.bits H.length).bytes)) k = 0 := by
    intro k hk
    rw [byteAt_layout, byteAt_of_le]
    rw [preambleBytes_length]; omega
  refine ⟨by rw [hh]; exact g1, by rw [hw1]; exact hhd.1, by rw [hw1]; exact hhd.2, _, ?_, ?_, ?_,
    hzero, ?_⟩
  · rw [hw1]; exact st_files _ _ _ _ _ _ _ _
  · rw [hw1, hh]; exact st_files _ _ _ _ _ _ _ _
  · rw [layout_length K src.bits H _ (by rw [g4]; omega), hh]
  · intro i
    unfold dataBit wordAt
    rw [leValue_zero _ _ _ (fun j _ => hzero _ (by
      rw [← hps, Nat.add_mul]; omega)), Nat.zero_testBit]

set_option maxRecDepth 100000 in
/-- Instance of C13: the template of the open array `a.bin` copied to the new file
`d.bin`. -/
theorem copy_template_fresh_witness :
    exOpen.files "d.bin" = none ∧
    mbarray_Copy_Template stdDecls exOpen exHandle "d.bin" 0 =
      ((mbarray_Copy_Template stdDecls exOpen exHandle "d.bin" 0).1,
        some ⟨10, 1, 64, 2, 256, some "d.bin", Ptr.mapped "d.bin", 4⟩) ∧
    (mbarray_Header stdDecls (mbarray_Copy_Template stdDecls exOpen exHandle "d.bin" 0).1
      ⟨10, 1, 64, 2, 256, some "d.bin", Ptr.mapped "d.bin", 4⟩ 2).2 = some [1, 2] :=
  ⟨rfl, Prod.ext rfl (by decide),
    (copy_template_fresh stdDecls (by decide) exOpen _ exHandle
      ⟨10, 1, 64, 2, 256, some "d.bin", Ptr.mapped "d.bin", 4⟩ "a.bin" true 258
      (layout stdDecls 10 [1, 2] 258) 10 [1, 2] "d.bin" 0 (by rfl) (by rfl) ⟨_, rfl⟩ (by decide)
      (by decide) (by decide) (Or.inl rfl) (Prod.ext rfl (by decide))).2.2.1⟩

set_option maxRecDepth 100000 in
/-- Claim C13 as stated fails when `new_path` holds an array file: `c.bin` is a 10-bit
array file with the header `[9]` and the data bytes `5, 1`.  `mbarray_Copy_Template` from
the open array `a.bin` (10 bits, header `[1, 2]`) to `c.bin` returns a handle, the file
keeps its header length 1 and its header `[9]`, and data bit 0 of the returned array is
set. -/
theorem copy_template_existing :
    exHandle.filename = some "a.bin" ∧
    (mbarray_Header stdDecls exCopy exHandle 2).2 = some [1, 2] ∧
    ∃ h f, (mbarray_Copy_Template stdDecls exCopy exHandle "c.bin" 0).2 = some h ∧
      h.bits = exHandle.bits ∧
      (mbarray_HeaderLen stdDecls (mbarray_Copy_Template stdDecls exCopy exHandle "c.bin" 0).1 h).2
        = 1 ∧
      (mbarray_Header stdDecls (mbarray_Copy_Template stdDecls exCopy exHandle "c.bin" 0).1 h 2).2
        = some [9] ∧
      (mbarray_Copy_Template stdDecls exCopy exHandle "c.bin" 0).1.load h.vector = some f ∧
      dataBit stdDecls h.preamblesize f 0 = true :=
  ⟨rfl, by decide, ⟨10, 1, 64, 2, 256, some "c.bin", Ptr.mapped "c.bin", 4⟩,
    memcpy (layout stdDecls 10 [9] 258) 256 [5, 1], by decide, by decide, by decide, by decide,
    by decide, by decide⟩

end MmapBitArray
